import Mathlib

/-!
# Cellular automaton: rule engine, generation step, row partition, argument check

A shallow embedding of the three revisions of the multithreaded cellular
automaton (`Version1/main.cpp`, `Version2/main.cpp`, `Version3/main.cpp`,
`gl_frontEnd.h`).  Grids are total functions from (row, column) to the cell
state; `unsigned int` arithmetic is written with explicit reduction modulo
`2^32`; `exit(n)` is the `Except.error n` result.
-/

namespace CellularAutomaton

/-! ## Machine arithmetic -/

/-- Number of values of a 32-bit `unsigned int`. -/
def UINT_RANGE : Nat := 4294967296

/-- Sum `a + b` of two `unsigned int` values. -/
def uadd (a b : Nat) : Nat := (a + b) % UINT_RANGE

/-- Difference `a - b` of two `unsigned int` values (`b < UINT_RANGE`). -/
def usub (a b : Nat) : Nat := (a + UINT_RANGE - b) % UINT_RANGE

/-- Product `a * b` of two `unsigned int` values. -/
def umul (a b : Nat) : Nat := (a * b) % UINT_RANGE

/-- Conversion of an `int` to `unsigned int` (what storing the result of
`atoi` into an `unsigned int` variable does). -/
def toUnsigned (x : Int) : Nat := (x % (UINT_RANGE : Int)).toNat

/-! ## Constants of `gl_frontEnd.h` -/

/-- Enumerator `NB_COLORS` of `ColorLabel` (BLACK_COL = 0, ..., RED_COL = 5). -/
def NB_COLORS : Nat := 6

def GAME_OF_LIFE_RULE : Nat := 1
def CORAL_GROWTH_RULE : Nat := 2
def AMOEBA_RULE : Nat := 3
def MAZE_RULE : Nat := 4

/-- The value of the preprocessor constant `FRAME_BEHAVIOR`, which selects the
branch of `cellNewState` used for cells on the border.  The shipped value is
`FRAME_DEAD`.  `FRAME_RANDOM` carries the values that `rand()` yields when it
is called for a cell.  The last branch is the one under
`#elif FRAME_BEHAVIOR == FRAME_WRAPPED` (the constant defined at the top of the
file is spelled `FRAME_WRAP`). -/
inductive FrameBehavior where
  | FRAME_DEAD
  | FRAME_RANDOM (rand : Nat → Nat → Nat)
  | FRAME_CLIPPED
  | FRAME_WRAPPED

/-! ## Grids -/

/-- A grid `unsigned int**`, read at (row, column). -/
abbrev Grid := Nat → Nat → Nat

/-- The assignment `grid[i][j] = v`. -/
def setCell (g : Grid) (i j v : Nat) : Grid :=
  fun a b => if a = i ∧ b = j then v else g a b

/-- The C expression `x != 0`, as the `int` 0 or 1. -/
def alive (x : Nat) : Int := if x ≠ 0 then 1 else 0

/-- The C expression `a != b` on unsigned operands, as 0 or 1. -/
def cne (a b : Nat) : Nat := if a ≠ b then 1 else 0

/-! ## `cellNewState` -/

/-- The guard `i>0 && i<num_rows-1 && j>0 && j<num_cols-1` of `cellNewState`
(and of `getLocks`), in unsigned arithmetic. -/
def awayFromBorder (num_rows num_cols i j : Nat) : Prop :=
  0 < i ∧ i < usub num_rows 1 ∧ 0 < j ∧ j < usub num_cols 1

instance (num_rows num_cols i j : Nat) : Decidable (awayFromBorder num_rows num_cols i j) := by
  unfold awayFromBorder; infer_instance

/-- The count of the branch "away from the border" of `cellNewState`. -/
def interiorCount (currentGrid : Grid) (i j : Nat) : Int :=
  alive (currentGrid (usub i 1) (usub j 1)) +
  alive (currentGrid (usub i 1) j) +
  alive (currentGrid (usub i 1) (uadd j 1)) +
  alive (currentGrid i (usub j 1)) +
  alive (currentGrid i (uadd j 1)) +
  alive (currentGrid (uadd i 1) (usub j 1)) +
  alive (currentGrid (uadd i 1) j) +
  alive (currentGrid (uadd i 1) (uadd j 1))

/-- The count of the `FRAME_CLIPPED` branch: each `if (...) count++;` in turn. -/
def clippedCount (num_rows num_cols : Nat) (currentGrid : Grid) (i j : Nat) : Int :=
  let c0 : Int := 0
  let c1 := if 0 < i then
      let a := if 0 < j ∧ currentGrid (usub i 1) (usub j 1) ≠ 0 then c0 + 1 else c0
      let b := if currentGrid (usub i 1) j ≠ 0 then a + 1 else a
      if j < usub num_cols 1 ∧ currentGrid (usub i 1) (uadd j 1) ≠ 0 then b + 1 else b
    else c0
  let c2 := if 0 < j ∧ currentGrid i (usub j 1) ≠ 0 then c1 + 1 else c1
  let c3 := if j < usub num_cols 1 ∧ currentGrid i (uadd j 1) ≠ 0 then c2 + 1 else c2
  if i < usub num_rows 1 then
    let a := if 0 < j ∧ currentGrid (uadd i 1) (usub j 1) ≠ 0 then c3 + 1 else c3
    let b := if currentGrid (uadd i 1) j ≠ 0 then a + 1 else a
    if j < usub num_cols 1 ∧ currentGrid (uadd i 1) (uadd j 1) ≠ 0 then b + 1 else b
  else c3

/-- The count of the `FRAME_WRAPPED` branch.  The source writes the sum without
parentheses, `g[iM1][jM1] != 0 + g[iM1][j] != 0 + ... + g[iP1][jP1] != 0`; since
`+` binds tighter than `!=`, this is the left-nested chain of comparisons
`((g1 != (0 + g2)) != (0 + g3)) ... != (0 + g8)) != 0`. -/
def wrappedCount (num_rows num_cols : Nat) (currentGrid : Grid) (i j : Nat) : Int :=
  let iM1 := usub (uadd i num_rows) 1 % num_rows
  let iP1 := uadd i 1 % num_rows
  let jM1 := usub (uadd j num_cols) 1 % num_cols
  let jP1 := uadd j 1 % num_cols
  ((cne (cne (cne (cne (cne (cne (cne (cne
      (currentGrid iM1 jM1)
      (uadd 0 (currentGrid iM1 j)))
      (uadd 0 (currentGrid iM1 jP1)))
      (uadd 0 (currentGrid i jM1)))
      (uadd 0 (currentGrid i jP1)))
      (uadd 0 (currentGrid iP1 jM1)))
      (uadd 0 (currentGrid iP1 j)))
      (uadd 0 (currentGrid iP1 jP1)))
      0 : Nat) : Int)

/-- The first half of `cellNewState`: the `int count` of live neighbours. -/
def neighbourCount (fb : FrameBehavior) (num_rows num_cols : Nat) (currentGrid : Grid)
    (i j : Nat) : Int :=
  if awayFromBorder num_rows num_cols i j then
    interiorCount currentGrid i j
  else
    match fb with
    | .FRAME_DEAD => -1
    | .FRAME_RANDOM rand => ((rand i j % 9 : Nat) : Int)
    | .FRAME_CLIPPED => clippedCount num_rows num_cols currentGrid i j
    | .FRAME_WRAPPED => wrappedCount num_rows num_cols currentGrid i j

/-- The second half of `cellNewState`: the `switch (rule)`.  `cell` is
`currentGrid[i][j]`; the `default:` case is `exit(5)`. -/
def applyRule (rule cell : Nat) (count : Int) : Except Nat Nat :=
  if rule = GAME_OF_LIFE_RULE then
    .ok (if cell ≠ 0 then (if count = 3 ∨ count = 2 then 1 else 0)
         else (if count = 3 then 1 else 0))
  else if rule = CORAL_GROWTH_RULE then
    .ok (if cell ≠ 0 then (if count > 3 then 1 else 0)
         else (if count = 3 then 1 else 0))
  else if rule = AMOEBA_RULE then
    .ok (if cell ≠ 0 then (if count = 1 ∨ count = 3 ∨ count = 5 ∨ count = 8 then 1 else 0)
         else (if count = 1 ∨ count = 3 ∨ count = 5 ∨ count = 8 then 1 else 0))
  else if rule = MAZE_RULE then
    .ok (if cell ≠ 0 then (if count ≥ 1 ∧ count ≤ 5 then 1 else 0)
         else (if count = 3 then 1 else 0))
  else
    .error 5

/-- The function `cellNewState(i, j)` (identical in the three versions; the
lock version calls its single grid `grid`).  The globals it reads are passed
as arguments. -/
def cellNewState (fb : FrameBehavior) (num_rows num_cols rule : Nat) (currentGrid : Grid)
    (i j : Nat) : Except Nat Nat :=
  let count := neighbourCount fb num_rows num_cols currentGrid i j
  applyRule rule (currentGrid i j) count

/-! ## The two buffers and the generation step (Version1, Version2) -/

/-- The globals of the barrier versions that the simulation reads and writes. -/
structure Globals where
  num_rows : Nat
  num_cols : Nat
  rule : Nat
  colorMode : Nat
  currentGrid : Grid
  nextGrid : Grid

/-- A loop `for (k = lo; k < lo + n; k++) s = body(k, s);`. -/
def forLoop {σ : Type} (body : Nat → σ → σ) : Nat → Nat → σ → σ
  | _, 0, s => s
  | lo, n + 1, s => forLoop body (lo + 1) n (body lo s)

/-- A loop `for (k = lo; k < lo + n; k++) body(k);` whose body may call `exit`. -/
def forLoopM {σ : Type} (body : Nat → σ → Except Nat σ) : Nat → Nat → σ → Except Nat σ
  | _, 0, s => .ok s
  | lo, n + 1, s =>
    match body lo s with
    | .ok s1 => forLoopM body (lo + 1) n s1
    | .error e => .error e

/-- The function `swapGrids`: the two pointers are exchanged. -/
def swapGrids (w : Globals) : Globals :=
  { w with currentGrid := w.nextGrid, nextGrid := w.currentGrid }

/-- The body of the two nested loops of `threadFuncVI`, of Version2's
`threadFunc` and of `oneGeneration`: compute the raw new state of cell (i, j)
and store the new state into `nextGrid`. -/
def updateCell (fb : FrameBehavior) (i j : Nat) (w : Globals) : Except Nat Globals :=
  match cellNewState fb w.num_rows w.num_cols w.rule w.currentGrid i j with
  | .error e => .error e
  | .ok newState =>
    if w.colorMode = 0 ∨ newState = 0 then
      .ok { w with nextGrid := setCell w.nextGrid i j newState }
    else if w.currentGrid i j < NB_COLORS - 1 then
      .ok { w with nextGrid := setCell w.nextGrid i j (uadd (w.currentGrid i j) 1) }
    else
      .ok { w with nextGrid := setCell w.nextGrid i j (w.currentGrid i j) }

/-- The loop `for (j = 0; j < num_cols; j++)` over the cells of row `i`. -/
def updateRow (fb : FrameBehavior) (i : Nat) (w : Globals) : Except Nat Globals :=
  forLoopM (updateCell fb i) 0 w.num_cols w

/-- The record `ThreadInfo` of the partitioned versions (without the thread
handle and the per-thread lock). -/
structure ThreadInfo where
  index : Nat
  start_row : Nat
  end_row : Nat
deriving DecidableEq, Repr

/-- The function `threadFuncVI` (Version1), which is also one pass of the body of
the `while (true)` loop of `threadFunc` (Version2) up to its barrier. -/
def threadFuncVI (fb : FrameBehavior) (info : ThreadInfo) (w : Globals) : Except Nat Globals :=
  forLoopM (updateRow fb) info.start_row (info.end_row - info.start_row) w

/-- The function `oneGeneration`: every cell of every row, then `swapGrids` (the
static counter `generation` is not part of the state). -/
def oneGeneration (fb : FrameBehavior) (w : Globals) : Except Nat Globals :=
  match forLoopM (updateRow fb) 0 w.num_rows w with
  | .ok w1 => .ok (swapGrids w1)
  | .error e => .error e

/-- The two nested loops of `resetGrid`: cell (i, j) receives `rand() % 2`.  The
state is the grid being filled and the number of calls of `rand()` made so far;
`rand k` is the value of call number `k`. -/
def fillRandom (rand : Nat → Nat) (num_rows num_cols : Nat) (g : Grid) : Grid × Nat :=
  forLoop (fun i s =>
    forLoop (fun j s => (setCell s.1 i j (rand s.2 % 2), s.2 + 1)) 0 num_cols s)
    0 num_rows (g, 0)

/-- The function `resetGrid` of Version1 and Version2: fill `nextGrid`, then swap. -/
def resetGrid (rand : Nat → Nat) (w : Globals) : Globals :=
  swapGrids { w with nextGrid := (fillRandom rand w.num_rows w.num_cols w.nextGrid).1 }

/-! ## The single grid of the lock version (Version3) -/

/-- The function `resetGrid` of Version3, which fills the single grid in place. -/
def resetGridV3 (rand : Nat → Nat) (num_rows num_cols : Nat) (grid : Grid) : Grid :=
  (fillRandom rand num_rows num_cols grid).1

/-- The update of cell (i, j) in the body of Version3's `threadFunc`, between
`getLocks(i, j)` and `freeLocks(i, j)`: the grid is modified in place. -/
def updateCellV3 (fb : FrameBehavior) (num_rows num_cols rule colorMode : Nat) (grid : Grid)
    (i j : Nat) : Except Nat Grid :=
  match cellNewState fb num_rows num_cols rule grid i j with
  | .error e => .error e
  | .ok newState =>
    if colorMode = 0 ∨ newState = 0 then
      .ok (setCell grid i j newState)
    else if grid i j < NB_COLORS - 1 then
      .ok (setCell grid i j (uadd (grid i j) 1))
    else
      .ok grid

/-! ## `main`: argument check and row partition -/

/-- The argument check of `main` in Version1 and Version2, for an invocation with
three arguments (`argc == 4`).  The three arguments are the `int` values returned
by `atoi`; they are stored into the `unsigned int` globals and then compared.  A
rejected invocation is `return 1`; an accepted one continues with the stored
(num_cols, num_rows, num_threads). -/
def mainCheckArgs (a1 a2 a3 : Int) : Except Nat (Nat × Nat × Nat) :=
  let num_cols := toUnsigned a1
  let num_rows := toUnsigned a2
  let num_threads := toUnsigned a3
  if num_cols ≤ 5 ∨ num_rows ≤ 5 ∨ num_threads ≤ 0 ∨ num_threads > num_rows then
    .error 1
  else
    .ok (num_cols, num_rows, num_threads)

/-- The argument check of `main` in Version3 (no comparison of `num_threads`
with `num_rows`). -/
def mainCheckArgsV3 (a1 a2 a3 : Int) : Except Nat (Nat × Nat × Nat) :=
  let num_cols := toUnsigned a1
  let num_rows := toUnsigned a2
  let num_threads := toUnsigned a3
  if num_cols ≤ 5 ∨ num_rows ≤ 5 ∨ num_threads ≤ 0 then
    .error 1
  else
    .ok (num_cols, num_rows, num_threads)

/-- The body of the loop of `main` that fills `info[i]` (Version1) or
`thread_data[k]` (Version2). -/
def mainThreadInfo (num_rows num_threads i : Nat) : ThreadInfo :=
  let row_per_thread := num_rows / num_threads
  { index := i
    start_row := umul i row_per_thread
    end_row := if i = usub num_threads 1 then num_rows else umul (uadd i 1) row_per_thread }

/-- The array of `ThreadInfo` records that `main` computes. -/
def mainPartition (num_rows num_threads : Nat) : List ThreadInfo :=
  (List.range num_threads).map (mainThreadInfo num_rows num_threads)

/-- The passes of the partition workers of one generation, one worker after the
other in the order of the list (in the source the workers are threads; each reads
only `currentGrid` and writes only its own rows of `nextGrid`). -/
def runWorkers (fb : FrameBehavior) : List ThreadInfo → Globals → Except Nat Globals
  | [], w => .ok w
  | info :: rest, w =>
    match threadFuncVI fb info w with
    | .ok w1 => runWorkers fb rest w1
    | .error e => .error e

/-- The function `generationVI` of Version1 (`VERSION == MULTI_THREADED`): one
`threadFuncVI` per record of the partition, all joined, then `swapGrids`.  This is
also one generation of Version2, whose last worker to arrive calls `swapGrids`. -/
def generationVI (fb : FrameBehavior) (num_threads : Nat) (w : Globals) : Except Nat Globals :=
  match runWorkers fb (mainPartition w.num_rows num_threads) w with
  | .ok w1 => .ok (swapGrids w1)
  | .error e => .error e

/-! ## Events of a run -/

/-- The events that change the simulation state of the barrier versions: the keys
1 to 4 of `myKeyboard` (`rule = ...`), the keys c and b (`colorMode = !colorMode`),
the space bar (`resetGrid()`, with the values that `rand()` then yields) and the
computation of one generation. -/
inductive Event where
  | keyRule1
  | keyRule2
  | keyRule3
  | keyRule4
  | keyColor
  | keySpace (rand : Nat → Nat)
  | generation

/-- The effect of one event on the globals. -/
def applyEvent (fb : FrameBehavior) (ev : Event) (w : Globals) : Except Nat Globals :=
  match ev with
  | .keyRule1 => .ok { w with rule := GAME_OF_LIFE_RULE }
  | .keyRule2 => .ok { w with rule := CORAL_GROWTH_RULE }
  | .keyRule3 => .ok { w with rule := AMOEBA_RULE }
  | .keyRule4 => .ok { w with rule := MAZE_RULE }
  | .keyColor => .ok { w with colorMode := if w.colorMode = 0 then 1 else 0 }
  | .keySpace rand => .ok (resetGrid rand w)
  | .generation => oneGeneration fb w

/-- A run: the events in turn. -/
def runEvents (fb : FrameBehavior) : List Event → Globals → Except Nat Globals
  | [], w => .ok w
  | ev :: rest, w =>
    match applyEvent fb ev w with
    | .ok w1 => runEvents fb rest w1
    | .error e => .error e

/-! ## Closed forms of the loop bodies -/

/-- The rule ids for which the `switch` of `cellNewState` has a case. -/
def validRule (rule : Nat) : Prop :=
  rule = GAME_OF_LIFE_RULE ∨ rule = CORAL_GROWTH_RULE ∨ rule = AMOEBA_RULE ∨ rule = MAZE_RULE

instance (rule : Nat) : Decidable (validRule rule) := by
  unfold validRule; infer_instance

/-- The value `cellNewState` returns, when it returns. -/
def newStateOf (fb : FrameBehavior) (num_rows num_cols rule : Nat) (currentGrid : Grid)
    (i j : Nat) : Nat :=
  match cellNewState fb num_rows num_cols rule currentGrid i j with
  | .ok n => n
  | .error _ => 0

/-- The state stored for a cell whose old state is `old` and whose raw new state
is `newState` (the `if (colorMode == 0 || newState == 0) ... else ...` of the
loop bodies). -/
def storedState (colorMode newState old : Nat) : Nat :=
  if colorMode = 0 ∨ newState = 0 then newState
  else if old < NB_COLORS - 1 then uadd old 1
  else old

/-- The state a generation stores for cell (i, j). -/
def nextValue (fb : FrameBehavior) (num_rows num_cols rule colorMode : Nat) (currentGrid : Grid)
    (i j : Nat) : Nat :=
  storedState colorMode (newStateOf fb num_rows num_cols rule currentGrid i j) (currentGrid i j)

/-! ## Reference notions used to state the properties -/

/-- The eight neighbour positions (i+di, j+dj), (di, dj) ∈ {-1,0,1}² minus (0,0). -/
def neighbourOffsets : List (Int × Int) :=
  (List.product [-1, 0, 1] [-1, 0, 1]).filter (fun d => d ≠ (0, 0))

/-- The number of the eight neighbours of (i, j) whose state is non-zero. -/
def liveNeighbours (g : Grid) (i j : Nat) : Nat :=
  (neighbourOffsets.filter
    (fun d => g ((i : Int) + d.1).toNat ((j : Int) + d.2).toNat ≠ 0)).length

/-- The survive set of a rule (alive stays alive), as the rule table gives it. -/
def surviveSet (rule : Nat) : List Nat :=
  if rule = GAME_OF_LIFE_RULE then [2, 3]
  else if rule = CORAL_GROWTH_RULE then [4, 5, 6, 7, 8]
  else if rule = AMOEBA_RULE then [1, 3, 5, 8]
  else if rule = MAZE_RULE then [1, 2, 3, 4, 5]
  else []

/-- The birth set of a rule (dead becomes alive), as the rule table gives it. -/
def birthSet (rule : Nat) : List Nat :=
  if rule = GAME_OF_LIFE_RULE then [3]
  else if rule = CORAL_GROWTH_RULE then [3]
  else if rule = AMOEBA_RULE then [1, 3, 5, 8]
  else if rule = MAZE_RULE then [3]
  else []

/-- The contents of `nextGrid` after the rows `lo ≤ a < hi` have been computed. -/
def rowsWritten (fb : FrameBehavior) (w : Globals) (lo hi : Nat) : Grid :=
  fun a b =>
    if (lo ≤ a ∧ a < hi) ∧ b < w.num_cols then
      nextValue fb w.num_rows w.num_cols w.rule w.colorMode w.currentGrid a b
    else w.nextGrid a b

/-- The stored state `v` of a cell with old state `s` and raw new state `n`, as
the ageing rule describes it: 0 if `n = 0`; 1 if `n ≠ 0` and colour mode is off;
with colour mode on, `s + 1` below the maximum age and `s` at the maximum age. -/
def agingSpec (colorMode n s v : Nat) : Prop :=
  (n = 0 → v = 0) ∧
  (n ≠ 0 → colorMode = 0 → v = 1) ∧
  (n ≠ 0 → colorMode ≠ 0 → s < NB_COLORS - 1 → v = s + 1) ∧
  (n ≠ 0 → colorMode ≠ 0 → s = NB_COLORS - 1 → v = s)

/-- The cells of the horizontal blinker (r, c-1), (r, c), (r, c+1). -/
def horizontalBlinker (r c i j : Nat) : Prop := i = r ∧ (j = c - 1 ∨ j = c ∨ j = c + 1)

/-- The cells of the vertical blinker (r-1, c), (r, c), (r+1, c). -/
def verticalBlinker (r c i j : Nat) : Prop := j = c ∧ (i = r - 1 ∨ i = r ∨ i = r + 1)

instance (r c i j : Nat) : Decidable (horizontalBlinker r c i j) := by
  unfold horizontalBlinker; infer_instance

instance (r c i j : Nat) : Decidable (verticalBlinker r c i j) := by
  unfold verticalBlinker; infer_instance

/-- The Game of Life rule (B3/S23) applied at (i, j) to the set `P` of live cells. -/
def lifeStep (P : Nat → Nat → Prop) [∀ a b, Decidable (P a b)] (i j : Nat) : Nat :=
  let cnt : Int :=
    (if P (i - 1) (j - 1) then 1 else 0) + (if P (i - 1) j then 1 else 0) +
    (if P (i - 1) (j + 1) then 1 else 0) + (if P i (j - 1) then 1 else 0) +
    (if P i (j + 1) then 1 else 0) + (if P (i + 1) (j - 1) then 1 else 0) +
    (if P (i + 1) j then 1 else 0) + (if P (i + 1) (j + 1) then 1 else 0)
  if P i j then (if cnt = 3 ∨ cnt = 2 then 1 else 0) else (if cnt = 3 then 1 else 0)

/-- A 6 x 6 grid whose only live cells are the horizontal blinker (2,1), (2,2),
(2,3), the middle cell carrying the age 2. -/
def agedBlinker : Grid :=
  fun i j => if i = 2 ∧ j = 2 then 2 else if i = 2 ∧ (j = 1 ∨ j = 3) then 1 else 0

/-- A 6 x 6 grid of states 0 and 1 whose live cells are the vertical blinker (1,2),
(2,2), (3,2). -/
def youngVertical : Grid :=
  fun i j => if j = 2 ∧ (i = 1 ∨ i = 2 ∨ i = 3) then 1 else 0

/-- The grid invariant `0 ≤ state < NB_COLORS` on the cells of the grid. -/
def statesInRange (num_rows num_cols : Nat) (g : Grid) : Prop :=
  ∀ i j, i < num_rows → j < num_cols → g i j < NB_COLORS

/-- A cell on the border of the grid. -/
def onBorder (num_rows num_cols i j : Nat) : Prop :=
  i = 0 ∨ i + 1 = num_rows ∨ j = 0 ∨ j + 1 = num_cols

/-! ## Reference counts for the Wrapped and the Clipped border -/

/-- The number of non-zero cells among the eight toroidal neighbours
((i+di) mod num_rows, (j+dj) mod num_cols) of (i, j), (di, dj) ≠ (0, 0). -/
def liveToroidalNeighbours (num_rows num_cols : Nat) (g : Grid) (i j : Nat) : Nat :=
  (neighbourOffsets.filter
    (fun d => g (((i : Int) + d.1) % (num_rows : Int)).toNat
                (((j : Int) + d.2) % (num_cols : Int)).toNat ≠ 0)).length

/-- The position (x, y) lies inside [0, num_rows) x [0, num_cols). -/
def insideGrid (num_rows num_cols : Nat) (x y : Int) : Prop :=
  (0 ≤ x ∧ x < (num_rows : Int)) ∧ (0 ≤ y ∧ y < (num_cols : Int))

instance (num_rows num_cols : Nat) (x y : Int) : Decidable (insideGrid num_rows num_cols x y) := by
  unfold insideGrid; infer_instance

/-- The number of non-zero cells among those of the eight positions (i+di, j+dj)
that lie inside [0, num_rows) x [0, num_cols). -/
def liveClippedNeighbours (num_rows num_cols : Nat) (g : Grid) (i j : Nat) : Nat :=
  (neighbourOffsets.filter
    (fun d => insideGrid num_rows num_cols ((i : Int) + d.1) ((j : Int) + d.2)
      ∧ g ((i : Int) + d.1).toNat ((j : Int) + d.2).toNat ≠ 0)).length

/-- A 6 x 6 grid whose live cells are (0,1), (1,0) and (1,1): the dead corner (0,0)
has three live neighbours. -/
def cornerGrid : Grid :=
  fun i j => if (i = 0 ∧ j = 1) ∨ (i = 1 ∧ j = 0) ∨ (i = 1 ∧ j = 1) then 1 else 0

/-- One statement `if (guard && currentGrid[a][b] != 0) count++;` of the
`FRAME_CLIPPED` branch, on the pair of `count` and the cells read so far: the
operator `&&` reads the cell only when the guard holds. -/
def clippedStmt (guard : Bool) (currentGrid : Grid) (a b : Nat)
    (s : Int × List (Nat × Nat)) : Int × List (Nat × Nat) :=
  if guard then (if currentGrid a b ≠ 0 then s.1 + 1 else s.1, s.2 ++ [(a, b)]) else s

/-- The three statements of the `FRAME_CLIPPED` branch for the row `a` above or
below the cell: columns j-1 (if `j>0`), j, and j+1 (if `j<num_cols-1`). -/
def clippedRow (num_cols : Nat) (currentGrid : Grid) (a j : Nat)
    (s : Int × List (Nat × Nat)) : Int × List (Nat × Nat) :=
  clippedStmt (j < usub num_cols 1) currentGrid a (uadd j 1)
    (clippedStmt true currentGrid a j
      (clippedStmt (0 < j) currentGrid a (usub j 1) s))

/-- The `FRAME_CLIPPED` branch of `cellNewState` with the list of the cells of
`currentGrid` that it reads, statement by statement. -/
def clippedTrace (num_rows num_cols : Nat) (currentGrid : Grid) (i j : Nat) :
    Int × List (Nat × Nat) :=
  let s1 : Int × List (Nat × Nat) :=
    if 0 < i then clippedRow num_cols currentGrid (usub i 1) j (0, []) else (0, [])
  let s3 : Int × List (Nat × Nat) :=
    clippedStmt (j < usub num_cols 1) currentGrid i (uadd j 1)
      (clippedStmt (0 < j) currentGrid i (usub j 1) s1)
  if i < usub num_rows 1 then clippedRow num_cols currentGrid (uadd i 1) j s3 else s3

/-! ## `swapGrids` on the pointers, `faster` and `slower` -/

/-- The two allocated buffers and the two global pointers `currentGrid` and
`nextGrid`: `buffer a` is the contents of the array at address `a`. -/
structure GridPointers where
  buffer : Nat → Grid
  currentGrid : Nat
  nextGrid : Nat

/-- The function `swapGrids`, statement by statement:
`tempGrid = currentGrid; currentGrid = nextGrid; nextGrid = tempGrid;`. -/
def swapGridsPtr (m : GridPointers) : GridPointers :=
  let tempGrid := m.currentGrid
  let m1 : GridPointers := ⟨m.buffer, m.nextGrid, m.nextGrid⟩
  ⟨m1.buffer, m1.currentGrid, tempGrid⟩

/-- The grids that the two pointers designate, with the other globals. -/
def GridPointers.view (m : GridPointers) (num_rows num_cols rule colorMode : Nat) : Globals :=
  ⟨num_rows, num_cols, rule, colorMode, m.buffer m.currentGrid, m.buffer m.nextGrid⟩

/-- The function `faster` on the delay (`speed` in Version2, `stime` in Version3):
`if (speed > 11) speed = 9 * speed / 10;` in unsigned arithmetic. -/
def faster (speed : Nat) : Nat :=
  if speed > 11 then umul 9 speed / 10 else speed

/-- The function `slower`: `speed = 11 * speed / 10;` in unsigned arithmetic. -/
def slower (speed : Nat) : Nat :=
  umul 11 speed / 10

/-! ## The cell locks of the lock version (Version3) -/

/-- The sum `a + i` of an `unsigned int` a and an `int` i (`cell_locks[row + i]`):
`i` is converted to `unsigned int` and the sum is taken modulo `2^32`. -/
def uaddInt (a : Nat) (i : Int) : Nat := (((a : Int) + i) % (UINT_RANGE : Int)).toNat

/-- The pairs (i, j) of the two nested loops `for (int i = -1; i <= 1; i++)
for (int j = -1; j <= 1; j++)`, in the order of the iterations. -/
def lockOffsets : List (Int × Int) := List.product [-1, 0, 1] [-1, 0, 1]

/-- The function `getLocks(row, col)`: the cells whose lock `pthread_mutex_lock` is
called on, in the order of the calls. -/
def getLocks (num_rows num_cols row col : Nat) : List (Nat × Nat) :=
  if awayFromBorder num_rows num_cols row col then
    lockOffsets.map (fun d => (uaddInt row d.1, uaddInt col d.2))
  else [(row, col)]

/-- The function `freeLocks(row, col)`: the cells whose lock `pthread_mutex_unlock`
is called on, in the order of the calls. -/
def freeLocks (num_rows num_cols row col : Nat) : List (Nat × Nat) :=
  if awayFromBorder num_rows num_cols row col then
    lockOffsets.map (fun d => (uaddInt row d.1, uaddInt col d.2))
  else [(row, col)]

/-- The state of one `pthread_mutex_t` of `cell_locks`; `destroyed` stands for a mutex
that is not initialised, or not any more. -/
inductive Mutex where
  | unlocked
  | lockedBy (tid : Nat)
  | destroyed
deriving DecidableEq, Repr

/-- The array `cell_locks`, read at (row, column). -/
abbrev LockTable := Nat → Nat → Mutex

/-- The assignment of a state to the mutex of one cell. -/
def setMutex (t : LockTable) (p : Nat × Nat) (m : Mutex) : LockTable :=
  fun a b => if a = p.1 ∧ b = p.2 then m else t a b

/-- The call `pthread_mutex_lock(&cell_locks[p.1][p.2])` by worker `tid`: on an
unlocked mutex it returns with the mutex held; on a locked mutex it does not return
(`none`); on a destroyed mutex it fails without acquiring anything, and the caller,
which ignores the result, goes on. -/
def mutexLock (tid : Nat) (t : LockTable) (p : Nat × Nat) : Option LockTable :=
  match t p.1 p.2 with
  | .unlocked => some (setMutex t p (.lockedBy tid))
  | .lockedBy _ => none
  | .destroyed => some t

/-- The call `pthread_mutex_unlock(&cell_locks[p.1][p.2])` by worker `tid`. -/
def mutexUnlock (tid : Nat) (t : LockTable) (p : Nat × Nat) : LockTable :=
  match t p.1 p.2 with
  | .lockedBy owner => if owner = tid then setMutex t p .unlocked else t
  | _ => t

/-- The calls of `pthread_mutex_lock` on a list of cells, in turn. -/
def lockAll (tid : Nat) : List (Nat × Nat) → LockTable → Option LockTable
  | [], t => some t
  | p :: ps, t =>
    match mutexLock tid t p with
    | some t1 => lockAll tid ps t1
    | none => none

/-- The effect of `getLocks(row, col)`, called by worker `tid`, on `cell_locks`. -/
def getLocksRun (tid num_rows num_cols row col : Nat) (t : LockTable) : Option LockTable :=
  lockAll tid (getLocks num_rows num_cols row col) t

/-- The effect of `freeLocks(row, col)`, called by worker `tid`, on `cell_locks`. -/
def freeLocksRun (tid num_rows num_cols row col : Nat) (t : LockTable) : LockTable :=
  (freeLocks num_rows num_cols row col).foldl (mutexUnlock tid) t

/-- The lock of cell `p` is held by worker `tid`. -/
def holdsLock (tid : Nat) (t : LockTable) (p : Nat × Nat) : Prop :=
  t p.1 p.2 = .lockedBy tid

/-- The set {(r, c) : |r - i| ≤ 1, |c - j| ≤ 1} intersected with the grid bounds. -/
def inNeighbourhood (num_rows num_cols i j : Nat) (p : Nat × Nat) : Prop :=
  (i ≤ p.1 + 1 ∧ p.1 ≤ i + 1) ∧ (j ≤ p.2 + 1 ∧ p.2 ≤ j + 1) ∧ p.1 < num_rows ∧ p.2 < num_cols

/-- The row-major linear index `r * num_cols + c` of a cell. -/
def linearIndex (num_cols : Nat) (p : Nat × Nat) : Nat := p.1 * num_cols + p.2

/-- In the list `l` of lock calls, the lock of `p` is requested before that of `q`. -/
def acquiredBefore (l : List (Nat × Nat)) (p q : Nat × Nat) : Prop :=
  List.Sublist [p, q] l

/-- The outcome of one iteration of the `while (true)` loop of Version3's
`threadFunc`: the lock table between `getLocks` and `freeLocks`, and the grid and
the lock table at the end of the iteration. -/
structure IterationResult where
  duringUpdate : LockTable
  grid : Grid
  locks : LockTable

/-- One iteration of the `while (true)` loop of Version3's `threadFunc` by worker
`tid`, for the drawn cell (i, j): `getLocks(i, j)`, the update of the cell,
`freeLocks(i, j)`.  The result is `none` when a call of `pthread_mutex_lock` does
not return. -/
def threadFuncIteration (fb : FrameBehavior) (num_rows num_cols rule colorMode tid i j : Nat)
    (grid : Grid) (t : LockTable) : Option (Except Nat IterationResult) :=
  match getLocksRun tid num_rows num_cols i j t with
  | none => none
  | some t1 =>
    match updateCellV3 fb num_rows num_cols rule colorMode grid i j with
    | .error e => some (.error e)
    | .ok g1 => some (.ok ⟨t1, g1, freeLocksRun tid num_rows num_cols i j t1⟩)

/-! ## The lock version as an interleaving of `main` and the workers -/

/-- The call `pthread_mutex_destroy(&cell_locks[p.1][p.2])`: an unlocked mutex
becomes destroyed, a locked one is left as it is (the call fails). -/
def mutexDestroy (t : LockTable) (p : Nat × Nat) : LockTable :=
  match t p.1 p.2 with
  | .unlocked => setMutex t p .destroyed
  | _ => t

/-- The cells of the grid in the order of the loops
`for (i = 0; i < num_rows; i++) for (j = 0; j < num_cols; j++)`. -/
def gridCells (num_rows num_cols : Nat) : List (Nat × Nat) :=
  List.product (List.range num_rows) (List.range num_cols)

/-- The actions of Version3's `main` on threads and cell locks. -/
inductive MainAction where
  | initLock (p : Nat × Nat)
  | createThread (k : Nat)
  | destroyLock (p : Nat × Nat)
  | mainLoop
deriving DecidableEq, Repr

/-- The actions of Version3's `main`, in program order: `initializeApplication`
initialises every cell lock, the loop over `k` creates the worker threads, the
loops under `#if VERSION == MULTI_THREADED` destroy every cell lock, and
`glutMainLoop()` is entered. -/
def mainActionsV3 (num_rows num_cols num_threads : Nat) : List MainAction :=
  (gridCells num_rows num_cols).map MainAction.initLock
    ++ (List.range num_threads).map MainAction.createThread
    ++ (gridCells num_rows num_cols).map MainAction.destroyLock
    ++ [MainAction.mainLoop]

/-- Where a worker of Version3 stands in `threadFunc`. -/
inductive WorkerPc where
  | notCreated
  | drawing
  | locking (i j : Nat) (rest : List (Nat × Nat))
  | updating (i j : Nat)
  | unlocking (i j : Nat) (rest : List (Nat × Nat))
deriving DecidableEq, Repr

/-- The state of the lock version: the cell locks, the grid, the actions that
`main` has still to perform, and the position of every worker. -/
structure LockSystem where
  locks : LockTable
  grid : Grid
  main : List MainAction
  worker : Nat → WorkerPc

/-- Who takes the next step: `main`, or worker `k` (`draw` is the cell that the
random generator yields if the worker is at the top of its loop). -/
inductive Sched where
  | main
  | worker (k : Nat) (draw : Nat × Nat)

/-- One step of `main`: its next action. -/
def mainStep (s : LockSystem) : Option LockSystem :=
  match s.main with
  | [] => none
  | .initLock p :: rest => some ⟨setMutex s.locks p .unlocked, s.grid, rest, s.worker⟩
  | .createThread k :: rest =>
    some ⟨s.locks, s.grid, rest, fun n => if n = k then .drawing else s.worker n⟩
  | .destroyLock p :: rest => some ⟨mutexDestroy s.locks p, s.grid, rest, s.worker⟩
  | .mainLoop :: _ => none

/-- One step of worker `k` in `threadFunc`: drawing a cell and entering `getLocks`,
one call of `pthread_mutex_lock` (no step while the call blocks), the update of the
cell, one call of `pthread_mutex_unlock`, or the return to the top of the loop. -/
def workerStep (fb : FrameBehavior) (num_rows num_cols rule colorMode : Nat) (k : Nat)
    (draw : Nat × Nat) (s : LockSystem) : Option LockSystem :=
  let moveTo (pc : WorkerPc) (n : Nat) : WorkerPc := if n = k then pc else s.worker n
  match s.worker k with
  | .notCreated => none
  | .drawing =>
    if draw.1 < num_rows ∧ draw.2 < num_cols then
      some ⟨s.locks, s.grid, s.main,
        moveTo (.locking draw.1 draw.2 (getLocks num_rows num_cols draw.1 draw.2))⟩
    else none
  | .locking i j [] => some ⟨s.locks, s.grid, s.main, moveTo (.updating i j)⟩
  | .locking i j (p :: rest) =>
    match mutexLock k s.locks p with
    | none => none
    | some t => some ⟨t, s.grid, s.main, moveTo (.locking i j rest)⟩
  | .updating i j =>
    match updateCellV3 fb num_rows num_cols rule colorMode s.grid i j with
    | .error _ => none
    | .ok g => some ⟨s.locks, g, s.main,
        moveTo (.unlocking i j (freeLocks num_rows num_cols i j))⟩
  | .unlocking _ _ [] => some ⟨s.locks, s.grid, s.main, moveTo .drawing⟩
  | .unlocking i j (p :: rest) =>
    some ⟨mutexUnlock k s.locks p, s.grid, s.main, moveTo (.unlocking i j rest)⟩

/-- One step of the system. -/
def lockStep (fb : FrameBehavior) (num_rows num_cols rule colorMode : Nat)
    (c : Sched) (s : LockSystem) : Option LockSystem :=
  match c with
  | .main => mainStep s
  | .worker k draw => workerStep fb num_rows num_cols rule colorMode k draw s

/-- An execution: the steps of a schedule in turn (`none` if a scheduled step is
not enabled). -/
def lockRun (fb : FrameBehavior) (num_rows num_cols rule colorMode : Nat) :
    List Sched → LockSystem → Option LockSystem
  | [], s => some s
  | c :: cs, s =>
    match lockStep fb num_rows num_cols rule colorMode c s with
    | some s1 => lockRun fb num_rows num_cols rule colorMode cs s1
    | none => none

/-- The state in which `main` starts. -/
def lockSystemInit (num_rows num_cols num_threads : Nat) (grid : Grid) : LockSystem :=
  ⟨fun _ _ => .destroyed, grid, mainActionsV3 num_rows num_cols num_threads,
    fun _ => .notCreated⟩

/-- A schedule of the 6 x 6 grid with two workers: `main` runs up to
`glutMainLoop()` (36 initialisations, 2 thread creations, 36 destructions), then
worker 0 draws (2,2) and goes through `getLocks`, then worker 1 does the same. -/
def overlapSchedule : List Sched :=
  List.replicate 74 Sched.main
    ++ List.replicate 11 (Sched.worker 0 (2, 2))
    ++ List.replicate 11 (Sched.worker 1 (2, 2))

/-! ## The barrier of the persistent-thread version (Version2) as an interleaving -/

/-- Where a worker stands in Version2's `threadFunc`.  `compute` is the pair of nested
loops (the worker reads `currentGrid` and writes `nextGrid`); the other positions are
the statements of the barrier, each named after the statement that the worker executes
next; `release k` is the loop `for (k = 0; k < num_threads; k++)` at index `k`. -/
inductive BarrierPc where
  | compute
  | lockCounter
  | incDone
  | testDone
  | unlockLast
  | swap1
  | swap2
  | swap3
  | resetDone
  | incGeneration
  | release (k : Nat)
  | unlockOther
  | waitOwn
deriving DecidableEq, Repr

/-- The shared variables of Version2 that the barrier uses, with the position of
every worker.  `counter_lock` is the owner of the mutex, if it is locked; `lock k` tells
whether `thread_data[k].lock` is locked; `currentGrid`, `nextGrid` and `tempGrid` are the
addresses held by the two global pointers and by the local of `swapGrids`.  Two fields
are bookkeeping and are read by no step: `pass k` is the number of the generation that
worker `k` computes (or has computed and waits to leave), and `swaps` is the number of
calls of `swapGrids` that have completed. -/
structure BarrierState where
  pc : Nat → BarrierPc
  pass : Nat → Nat
  done : Nat
  counter_lock : Option Nat
  lock : Nat → Bool
  generation : Nat
  currentGrid : Nat
  nextGrid : Nat
  tempGrid : Nat
  swaps : Nat

/-- The state when `main` has created the workers: `done = 0`, `counter_lock`
unlocked, every `thread_data[k].lock` locked by `main`, every worker at the top of its
loop. -/
def barrierInit : BarrierState :=
  ⟨fun _ => .compute, fun _ => 0, 0, none, fun _ => true, 0, 0, 1, 0, 0⟩

/-- Worker `k` moves to the position `p`. -/
def BarrierState.goto (s : BarrierState) (k : Nat) (p : BarrierPc) : BarrierState :=
  ⟨fun n => if n = k then p else s.pc n, s.pass, s.done, s.counter_lock, s.lock,
    s.generation, s.currentGrid, s.nextGrid, s.tempGrid, s.swaps⟩

/-- Worker `k` starts its next pass over its rows. -/
def BarrierState.nextPass (s : BarrierState) (k : Nat) : BarrierState :=
  ⟨fun n => if n = k then .compute else s.pc n,
    fun n => if n = k then s.pass k + 1 else s.pass n, s.done, s.counter_lock, s.lock,
    s.generation, s.currentGrid, s.nextGrid, s.tempGrid, s.swaps⟩

/-- The next statement of worker `k` in `threadFunc` (Version2), with `num_threads`
workers; `none` when the worker is blocked in `pthread_mutex_lock`. -/
def barrierStep (num_threads k : Nat) (s : BarrierState) : Option BarrierState :=
  match s.pc k with
  | .compute => some (s.goto k .lockCounter)
  | .lockCounter =>
    match s.counter_lock with
    | none => some { s.goto k .incDone with counter_lock := some k }
    | some _ => none
  | .incDone => some { s.goto k .testDone with done := uadd s.done 1 }
  | .testDone =>
    if s.done = num_threads then some (s.goto k .unlockLast)
    else some (s.goto k .unlockOther)
  | .unlockLast => some { s.goto k .swap1 with counter_lock := none }
  | .swap1 => some { s.goto k .swap2 with tempGrid := s.currentGrid }
  | .swap2 => some { s.goto k .swap3 with currentGrid := s.nextGrid }
  | .swap3 => some { s.goto k .resetDone with nextGrid := s.tempGrid, swaps := s.swaps + 1 }
  | .resetDone => some { s.goto k .incGeneration with done := 0 }
  | .incGeneration => some { s.goto k (.release 0) with generation := s.generation + 1 }
  | .release j =>
    if j < num_threads then
      if j ≠ k then
        some { s.goto k (.release (uadd j 1)) with lock := fun n => if n = j then false else s.lock n }
      else some (s.goto k (.release (uadd j 1)))
    else some (s.nextPass k)
  | .unlockOther => some { s.goto k .waitOwn with counter_lock := none }
  | .waitOwn =>
    if s.lock k = false then
      some { s.nextPass k with lock := fun n => if n = k then true else s.lock n }
    else none

/-- The states that the `num_threads` workers can reach, under every interleaving of
their statements. -/
inductive BarrierReachable (num_threads : Nat) : BarrierState → Prop where
  | init : BarrierReachable num_threads barrierInit
  | step (k : Nat) (s s1 : BarrierState) (hk : k < num_threads)
      (hs : BarrierReachable num_threads s) (h : barrierStep num_threads k s = some s1) :
      BarrierReachable num_threads s1

/-- An execution: the workers of the list take one step each, in turn. -/
def barrierRun (num_threads : Nat) : List Nat → BarrierState → Option BarrierState
  | [], s => some s
  | k :: ks, s =>
    match barrierStep num_threads k s with
    | some s1 => barrierRun num_threads ks s1
    | none => none

/-- The state after the workers of the list have taken one step each, in turn, from
`barrierInit` (the initial state, if one of them was blocked at its turn). -/
def barrierStateAfter (num_threads : Nat) (ks : List Nat) : BarrierState :=
  (barrierRun num_threads ks barrierInit).getD barrierInit

/-- With two workers: worker 0 computes, increments `done` and goes to wait at its
lock (5 steps); worker 1 computes, finds `done == 2`, swaps, resets and releases worker
0 (13 steps); worker 0 leaves its lock (1 step). -/
def barrierRound : List Nat :=
  List.replicate 5 0 ++ List.replicate 13 1 ++ [0]

/-- The phases of the barrier: `pre L`, worker `L` has found `done == num_threads` and
has not finished `swapGrids`; `reset L`, it is about to reset `done`; `rel L j`, it is
about to increment `generation` (`j = 0`) or releases the other workers and is at index
`j` of its loop.  The phase in which no worker has found `done == num_threads` is
`rel num_threads num_threads`. -/
inductive BarrierPhase where
  | pre (L : Nat)
  | reset (L : Nat)
  | rel (L j : Nat)

/-- Worker `k` has incremented `done` in the current generation. -/
def counted (s : BarrierState) (k : Nat) : Bool :=
  match s.pc k with
  | .testDone => true
  | .unlockOther => true
  | .waitOwn => s.lock k && decide (s.pass k = s.swaps)
  | _ => false

/-- The number of `k < n` with `f k`. -/
def countUpTo (f : Nat → Bool) : Nat → Nat
  | 0 => 0
  | n + 1 => countUpTo f n + (if f n then 1 else 0)

/-- What holds of a worker that has not found `done == num_threads` and is not waiting
for a release of the previous generation. -/
def workerInv (s : BarrierState) (k : Nat) : Prop :=
  match s.pc k with
  | .compute => s.pass k = s.swaps ∧ s.lock k = true ∧ s.counter_lock ≠ some k
  | .lockCounter => s.pass k = s.swaps ∧ s.lock k = true ∧ s.counter_lock ≠ some k
  | .incDone => s.pass k = s.swaps ∧ s.lock k = true ∧ s.counter_lock = some k
  | .testDone => s.pass k = s.swaps ∧ s.lock k = true ∧ s.counter_lock = some k
  | .unlockOther => s.pass k = s.swaps ∧ s.lock k = true ∧ s.counter_lock = some k
  | .waitOwn => s.counter_lock ≠ some k
      ∧ ((s.lock k = true ∧ s.pass k = s.swaps) ∨ (s.lock k = false ∧ s.pass k + 1 = s.swaps))
  | _ => False

/-- Worker `k` waits at its own lock, which is locked, in the generation `gen`. -/
def waitingIn (s : BarrierState) (gen k : Nat) : Prop :=
  s.pc k = .waitOwn ∧ s.lock k = true ∧ s.pass k = gen ∧ s.counter_lock ≠ some k

/-- What holds of the worker `L` that has found `done == num_threads`, up to the end of
`swapGrids`. -/
def leaderPre (s : BarrierState) (L : Nat) : Prop :=
  s.pass L = s.swaps ∧ s.lock L = true
  ∧ ((s.pc L = .unlockLast ∧ s.counter_lock = some L)
    ∨ ((s.pc L = .swap1 ∨ s.pc L = .swap2 ∨ s.pc L = .swap3) ∧ s.counter_lock = none))

/-- What holds of the worker `L` after `swapGrids`, about to reset `done`. -/
def leaderReset (s : BarrierState) (L : Nat) : Prop :=
  s.pc L = .resetDone ∧ s.pass L + 1 = s.swaps ∧ s.lock L = true ∧ s.counter_lock = none

/-- What holds of the worker `L` that releases the others, at index `j`. -/
def leaderRel (s : BarrierState) (L j : Nat) : Prop :=
  ((s.pc L = .incGeneration ∧ j = 0) ∨ s.pc L = .release j)
  ∧ s.pass L + 1 = s.swaps ∧ s.lock L = true ∧ s.counter_lock ≠ some L

/-- The invariant of worker `k` in a phase. -/
def threadInv (ph : BarrierPhase) (s : BarrierState) (k : Nat) : Prop :=
  match ph with
  | .pre L => if k = L then leaderPre s L else waitingIn s s.swaps k
  | .reset L => if k = L then leaderReset s L else waitingIn s (s.swaps - 1) k ∧ 0 < s.swaps
  | .rel L j =>
    if k = L then leaderRel s L j
    else if j ≤ k then waitingIn s (s.swaps - 1) k ∧ 0 < s.swaps
    else workerInv s k

/-- The invariant of the shared variables in a phase. -/
def globalInv (num_threads : Nat) (ph : BarrierPhase) (s : BarrierState) : Prop :=
  match ph with
  | .pre L => L < num_threads ∧ s.done = num_threads
  | .reset L => L < num_threads ∧ s.done = num_threads
  | .rel L j => L ≤ num_threads ∧ j ≤ num_threads ∧ (L = num_threads → j = num_threads)
      ∧ s.done = countUpTo (counted s) num_threads

/-- The invariant of the barrier. -/
def BarrierInv (num_threads : Nat) (s : BarrierState) : Prop :=
  ∃ ph, globalInv num_threads ph s ∧ ∀ k, k < num_threads → threadInv ph s k

/-- States `s` and `s1` agree on the workers other than `k`, on `swaps`, and on which
of these workers owns `counter_lock`. -/
def othersSame (k : Nat) (s s1 : BarrierState) : Prop :=
  s1.swaps = s.swaps
  ∧ ∀ n, n ≠ k → s1.pc n = s.pc n ∧ s1.pass n = s.pass n ∧ s1.lock n = s.lock n
      ∧ (s1.counter_lock = some n ↔ s.counter_lock = some n)

/-- The action is a `pthread_mutex_init`. -/
def isInitLock : MainAction → Bool
  | .initLock _ => true
  | _ => false

/-- In a list of actions of `main`, no `pthread_mutex_init` comes after an action of
another kind. -/
def initsFirst : List MainAction → Prop
  | [] => True
  | a :: rest => if isInitLock a then initsFirst rest else ∀ b ∈ rest, isInitLock b = false

/-- The lock of cell `p` is held by worker `k`, or it is destroyed. -/
def ownedOrDestroyed (t : LockTable) (k : Nat) (p : Nat × Nat) : Prop :=
  t p.1 p.2 = .lockedBy k ∨ t p.1 p.2 = .destroyed

/-- What holds of the locks that worker `k` has passed in `getLocks`: inside
`getLocks(i, j)` the calls still to make are the end of the list of `getLocks`, and
every lock of the calls already made is held by the worker or destroyed; in the
update, so is every lock of the list. -/
def workerHolds (num_rows num_cols : Nat) (t : LockTable) (k : Nat) : WorkerPc → Prop
  | .locking i j rest =>
    ∃ pre, getLocks num_rows num_cols i j = pre ++ rest ∧ ∀ p ∈ pre, ownedOrDestroyed t k p
  | .updating i j => ∀ p ∈ getLocks num_rows num_cols i j, ownedOrDestroyed t k p
  | _ => True

/-- The invariant of the lock version: `main` initialises the locks before anything
else and before any worker exists, and every worker satisfies `workerHolds`. -/
def LockInv (num_rows num_cols : Nat) (s : LockSystem) : Prop :=
  initsFirst s.main
  ∧ ((∃ k, s.worker k ≠ .notCreated) → ∀ a ∈ s.main, isInitLock a = false)
  ∧ ∀ k, workerHolds num_rows num_cols s.locks k (s.worker k)

/-! ## Grids and loops used for the Amoeba rule and for the creation of the workers -/

/-- A 6 x 6 grid in which the dead cell (2,2) has seven live neighbours: every
neighbour but (3,3). -/
def sevenNeighbours : Grid :=
  fun i j =>
    if (1 ≤ i ∧ i ≤ 3) ∧ (1 ≤ j ∧ j ≤ 3) ∧ ¬ (i = 2 ∧ j = 2) ∧ ¬ (i = 3 ∧ j = 3) then 1 else 0

/-- A 6 x 6 grid in which the dead cell (2,2) has one live neighbour, (1,1). -/
def oneNeighbour : Grid :=
  fun i j => if i = 1 ∧ j = 1 then 1 else 0

/-- The loop of Version2's `main` that creates the workers, on the pair of
`numLiveThreads` and the codes written to `std::cerr`; the list holds the values
that the calls of `pthread_create` return, in turn:
`if (code < 0) std::cerr << ... << code; else numLiveThreads++;`. -/
def createLoopV2 : List Int → Nat × List Int → Nat × List Int
  | [], s => s
  | code :: rest, s =>
    if code < 0 then createLoopV2 rest (s.1, s.2 ++ [code])
    else createLoopV2 rest (uadd s.1 1, s.2)

/-- The creation loop of Version2's `main`, entered with `numLiveThreads = 0` and
nothing written. -/
def mainCreateThreads (codes : List Int) : Nat × List Int :=
  createLoopV2 codes (0, [])

/-! ## The barrier of Version2 as a step per arrival -/

/-- The variables that the barrier of Version2 changes: `done`, `generation` (an `int`;
the model is exact as long as it stays below `2^31`), the two grid pointers, and the
number of calls of `swapGrids` made so far (bookkeeping, read by no step). -/
structure BarrierCounters where
  done : Nat
  generation : Int
  grids : GridPointers
  swaps : Nat

/-- The barrier of Version2's `threadFunc`, from `pthread_mutex_lock(&counter_lock)` to
the end of the `if`, executed by the worker `index` as one step: `done++`, and if
`done == num_threads` then `swapGrids()`, `done = 0`, `generation++` and the loop that
unlocks `thread_data[k].lock` for every `k != index`.  The second component lists the
indices `k` of the locks that are unlocked, in the order of the loop. -/
def barrierArrival (num_threads index : Nat) (s : BarrierCounters) :
    BarrierCounters × List Nat :=
  let done := uadd s.done 1
  if done = num_threads then
    (⟨0, s.generation + 1, swapGridsPtr s.grids, s.swaps + 1⟩,
      (List.range num_threads).filter (fun k => k ≠ index))
  else (⟨done, s.generation, s.grids, s.swaps⟩, [])

/-- The arrivals of the workers whose indices the list gives, in turn. -/
def barrierArrivals (num_threads : Nat) : List Nat → BarrierCounters → BarrierCounters
  | [], s => s
  | index :: rest, s => barrierArrivals num_threads rest (barrierArrival num_threads index s).1

/-! ## The cells read and the subtractions evaluated by `cellNewState` -/

/-- The cells that the count of the branch "away from the border" reads, in the order
of the terms of the sum. -/
def interiorReads (i j : Nat) : List (Nat × Nat) :=
  [(usub i 1, usub j 1), (usub i 1, j), (usub i 1, uadd j 1),
   (i, usub j 1), (i, uadd j 1),
   (uadd i 1, usub j 1), (uadd i 1, j), (uadd i 1, uadd j 1)]

/-- The cells that the `FRAME_WRAPPED` branch reads, in the order of the expression. -/
def wrappedReads (num_rows num_cols i j : Nat) : List (Nat × Nat) :=
  let iM1 := usub (uadd i num_rows) 1 % num_rows
  let iP1 := uadd i 1 % num_rows
  let jM1 := usub (uadd j num_cols) 1 % num_cols
  let jP1 := uadd j 1 % num_cols
  [(iM1, jM1), (iM1, j), (iM1, jP1), (i, jM1), (i, jP1), (iP1, jM1), (iP1, j), (iP1, jP1)]

/-- The cells that the `FRAME_CLIPPED` branch reads, statement by statement (`&&`
reads the cell only when its first operand is true). -/
def clippedReads (num_rows num_cols i j : Nat) : List (Nat × Nat) :=
  (if 0 < i then
    (if 0 < j then [(usub i 1, usub j 1)] else []) ++ [(usub i 1, j)]
      ++ (if j < usub num_cols 1 then [(usub i 1, uadd j 1)] else [])
   else [])
  ++ (if 0 < j then [(i, usub j 1)] else [])
  ++ (if j < usub num_cols 1 then [(i, uadd j 1)] else [])
  ++ (if i < usub num_rows 1 then
    (if 0 < j then [(uadd i 1, usub j 1)] else []) ++ [(uadd i 1, j)]
      ++ (if j < usub num_cols 1 then [(uadd i 1, uadd j 1)] else [])
   else [])

/-- The cells of the grid that `cellNewState(i, j)` reads: those read for the count
(none in the `FRAME_DEAD` and `FRAME_RANDOM` branches), then `grid[i][j]`, which each of
the four cases of the `switch` reads once (the `default:` case reads nothing). -/
def cellNewStateReads (fb : FrameBehavior) (num_rows num_cols rule : Nat) (i j : Nat) :
    List (Nat × Nat) :=
  (if awayFromBorder num_rows num_cols i j then interiorReads i j
   else
    match fb with
    | .FRAME_DEAD => []
    | .FRAME_RANDOM _ => []
    | .FRAME_CLIPPED => clippedReads num_rows num_cols i j
    | .FRAME_WRAPPED => wrappedReads num_rows num_cols i j)
  ++ (if validRule rule then [(i, j)] else [])

/-- The values `x` of the subtractions `x - 1` that the guard
`i>0 && i<num_rows-1 && j>0 && j<num_cols-1` evaluates (`&&` stops at the first
operand that is false). -/
def guardMinuends (num_rows num_cols i j : Nat) : List Nat :=
  if 0 < i then num_rows :: (if i < usub num_rows 1 ∧ 0 < j then [num_cols] else []) else []

/-- The values `x` of the subtractions `x - 1` in the sum of the branch "away from the
border": `i-1` and `j-1`, three times each. -/
def interiorMinuends (i j : Nat) : List Nat := [i, j, i, i, j, j]

/-- The values `x` of the subtractions `x - 1` that the `FRAME_CLIPPED` branch
evaluates, statement by statement (`&&` evaluates its second operand only when the
first is true). -/
def clippedMinuends (num_rows num_cols i j : Nat) : List Nat :=
  (if 0 < i then
    (if 0 < j then [i, j] else []) ++ [i, num_cols] ++ (if j < usub num_cols 1 then [i] else [])
   else [])
  ++ (if 0 < j then [j] else []) ++ [num_cols, num_rows]
  ++ (if i < usub num_rows 1 then (if 0 < j then [j] else []) ++ [num_cols] else [])

/-- The values `x` of all the subtractions `x - 1` that `cellNewState(i, j)`
evaluates. -/
def cellNewStateMinuends (fb : FrameBehavior) (num_rows num_cols i j : Nat) : List Nat :=
  guardMinuends num_rows num_cols i j ++
  (if awayFromBorder num_rows num_cols i j then interiorMinuends i j
   else
    match fb with
    | .FRAME_DEAD => []
    | .FRAME_RANDOM _ => []
    | .FRAME_CLIPPED => clippedMinuends num_rows num_cols i j
    | .FRAME_WRAPPED => [uadd i num_rows, uadd j num_cols])

/-- The cells of the grid that one update of (i, j) in Version3's `threadFunc` reads:
those that `cellNewState(i, j)` reads and, when `colorMode != 0` and the new state is
not 0, `grid[i][j]` in the comparison with `NB_COLORS-1` and again in `grid[i][j]++`. -/
def updateReadsV3 (fb : FrameBehavior) (num_rows num_cols rule colorMode : Nat) (grid : Grid)
    (i j : Nat) : List (Nat × Nat) :=
  cellNewStateReads fb num_rows num_cols rule i j ++
  (match cellNewState fb num_rows num_cols rule grid i j with
   | .error _ => []
   | .ok newState =>
     if colorMode = 0 ∨ newState = 0 then []
     else (i, j) :: (if grid i j < NB_COLORS - 1 then [(i, j)] else []))

/-- The cells of the grid that one update of (i, j) in Version3's `threadFunc`
writes. -/
def updateWritesV3 (fb : FrameBehavior) (num_rows num_cols rule colorMode : Nat) (grid : Grid)
    (i j : Nat) : List (Nat × Nat) :=
  match cellNewState fb num_rows num_cols rule grid i j with
  | .error _ => []
  | .ok newState =>
    if colorMode = 0 ∨ newState = 0 then [(i, j)]
    else if grid i j < NB_COLORS - 1 then [(i, j)] else []

/-! ## Arithmetic lemmas -/

theorem usub_one_eq (n : Nat) (h0 : 0 < n) (h : n < UINT_RANGE) : usub n 1 = n - 1 := by
  unfold usub UINT_RANGE at *; omega

theorem uadd_one_eq (n : Nat) (h : n + 1 < UINT_RANGE) : uadd n 1 = n + 1 := by
  unfold uadd UINT_RANGE at *; omega

theorem usub_one_lt (n : Nat) : usub n 1 < UINT_RANGE := by
  unfold usub UINT_RANGE; omega

theorem awayFromBorder_of_interior (num_rows num_cols i j : Nat)
    (hr : num_rows < UINT_RANGE) (hc : num_cols < UINT_RANGE)
    (hi : 0 < i ∧ i + 1 < num_rows) (hj : 0 < j ∧ j + 1 < num_cols) :
    awayFromBorder num_rows num_cols i j := by
  unfold awayFromBorder usub UINT_RANGE at *; omega

theorem not_awayFromBorder_of_onBorder (num_rows num_cols i j : Nat)
    (hr : num_rows < UINT_RANGE) (hc : num_cols < UINT_RANGE)
    (hb : onBorder num_rows num_cols i j) :
    ¬ awayFromBorder num_rows num_cols i j := by
  unfold awayFromBorder onBorder usub UINT_RANGE at *; omega

theorem neighbourOffsets_eq :
    neighbourOffsets = [(-1, -1), (-1, 0), (-1, 1), (0, -1), (0, 1), (1, -1), (1, 0), (1, 1)] := by
  decide

/-- Away from the border the positions read are i-1, i, i+1 and j-1, j, j+1. -/
theorem interiorCount_eq_sum (num_rows num_cols : Nat) (g : Grid) (i j : Nat)
    (h : awayFromBorder num_rows num_cols i j) :
    interiorCount g i j =
      alive (g (i - 1) (j - 1)) + alive (g (i - 1) j) + alive (g (i - 1) (j + 1)) +
      alive (g i (j - 1)) + alive (g i (j + 1)) +
      alive (g (i + 1) (j - 1)) + alive (g (i + 1) j) + alive (g (i + 1) (j + 1)) := by
  have hi1 : usub i 1 = i - 1 := by unfold awayFromBorder usub UINT_RANGE at *; omega
  have hj1 : usub j 1 = j - 1 := by unfold awayFromBorder usub UINT_RANGE at *; omega
  have hi2 : uadd i 1 = i + 1 := by unfold awayFromBorder usub uadd UINT_RANGE at *; omega
  have hj2 : uadd j 1 = j + 1 := by unfold awayFromBorder usub uadd UINT_RANGE at *; omega
  simp only [interiorCount, hi1, hi2, hj1, hj2]

theorem liveNeighbours_eq_sum (g : Grid) (i j : Nat) (hi : 0 < i) (hj : 0 < j) :
    ((liveNeighbours g i j : Nat) : Int) =
      alive (g (i - 1) (j - 1)) + alive (g (i - 1) j) + alive (g (i - 1) (j + 1)) +
      alive (g i (j - 1)) + alive (g i (j + 1)) +
      alive (g (i + 1) (j - 1)) + alive (g (i + 1) j) + alive (g (i + 1) (j + 1)) := by
  have a1 : ((i : Int) + -1).toNat = i - 1 := by omega
  have a2 : ((i : Int) + 0).toNat = i := by omega
  have a3 : ((i : Int) + 1).toNat = i + 1 := by omega
  have b1 : ((j : Int) + -1).toNat = j - 1 := by omega
  have b2 : ((j : Int) + 0).toNat = j := by omega
  have b3 : ((j : Int) + 1).toNat = j + 1 := by omega
  unfold liveNeighbours
  rw [neighbourOffsets_eq, ← List.countP_eq_length_filter]
  simp only [List.countP_cons, List.countP_nil, a1, a2, a3, b1, b2, b3, alive]
  simp only [decide_eq_true_eq]
  push_cast
  ring

/-! ## The rule switch -/

theorem applyRule_ok (rule cell : Nat) (count : Int) (h : validRule rule) :
    ∃ n, applyRule rule cell count = .ok n ∧ n ≤ 1 := by
  unfold validRule GAME_OF_LIFE_RULE CORAL_GROWTH_RULE AMOEBA_RULE MAZE_RULE at h
  rcases h with h | h | h | h <;> subst h <;>
    simp only [applyRule, GAME_OF_LIFE_RULE, CORAL_GROWTH_RULE, AMOEBA_RULE, MAZE_RULE,
      Nat.reduceEqDiff, if_true, if_false, OfNat.ofNat_ne_one, Nat.succ_ne_self,
      Except.ok.injEq, exists_eq_left', reduceIte] <;>
    split_ifs <;> omega

theorem cellNewState_ok (fb : FrameBehavior) (num_rows num_cols rule : Nat) (g : Grid)
    (i j : Nat) (h : validRule rule) :
    cellNewState fb num_rows num_cols rule g i j
      = .ok (newStateOf fb num_rows num_cols rule g i j)
    ∧ newStateOf fb num_rows num_cols rule g i j ≤ 1 := by
  obtain ⟨n, hn, hle⟩ := applyRule_ok rule (g i j) (neighbourCount fb num_rows num_cols g i j) h
  have hc : cellNewState fb num_rows num_cols rule g i j = .ok n := hn
  simp only [newStateOf, hc]
  exact ⟨trivial, hle⟩

/-! ## The loops -/

theorem updateCell_ok (fb : FrameBehavior) (i j : Nat) (w : Globals) (h : validRule w.rule) :
    updateCell fb i j w = .ok ⟨w.num_rows, w.num_cols, w.rule, w.colorMode, w.currentGrid,
      setCell w.nextGrid i j
        (nextValue fb w.num_rows w.num_cols w.rule w.colorMode w.currentGrid i j)⟩ := by
  have hc := (cellNewState_ok fb w.num_rows w.num_cols w.rule w.currentGrid i j h).1
  simp only [updateCell, hc, nextValue, storedState]
  split_ifs <;> rfl

theorem updateRow_loop (fb : FrameBehavior) (nr nc rl cm : Nat) (cur : Grid) (i : Nat)
    (h : validRule rl) (n : Nat) :
    ∀ (lo : Nat) (nxt : Grid),
    forLoopM (updateCell fb i) lo n ⟨nr, nc, rl, cm, cur, nxt⟩ = .ok ⟨nr, nc, rl, cm, cur,
      fun a b => if a = i ∧ lo ≤ b ∧ b < lo + n then nextValue fb nr nc rl cm cur a b
        else nxt a b⟩ := by
  induction n with
  | zero =>
    intro lo nxt
    simp only [forLoopM]
    congr 2
    funext a b
    have : ¬ (a = i ∧ lo ≤ b ∧ b < lo + 0) := by omega
    simp only [this, if_false]
  | succ n ih =>
    intro lo nxt
    simp only [forLoopM, updateCell_ok fb i lo ⟨nr, nc, rl, cm, cur, nxt⟩ h]
    rw [ih (lo + 1)]
    congr 2
    funext a b
    simp only [setCell]
    split_ifs <;> first
      | rfl
      | (exfalso; omega)
      | (have hab : a = i ∧ b = lo := by omega
         rw [hab.1, hab.2])

theorem updateRow_ok (fb : FrameBehavior) (nr nc rl cm : Nat) (cur nxt : Grid) (i : Nat)
    (h : validRule rl) :
    updateRow fb i ⟨nr, nc, rl, cm, cur, nxt⟩ = .ok ⟨nr, nc, rl, cm, cur,
      fun a b => if a = i ∧ b < nc then nextValue fb nr nc rl cm cur a b else nxt a b⟩ := by
  unfold updateRow
  rw [updateRow_loop fb nr nc rl cm cur i h nc 0 nxt]
  congr 2
  funext a b
  simp only [Nat.zero_le, true_and, Nat.zero_add]

theorem rows_loop (fb : FrameBehavior) (nr nc rl cm : Nat) (cur : Grid) (h : validRule rl)
    (n : Nat) :
    ∀ (lo : Nat) (nxt : Grid),
    forLoopM (updateRow fb) lo n ⟨nr, nc, rl, cm, cur, nxt⟩ = .ok ⟨nr, nc, rl, cm, cur,
      fun a b => if (lo ≤ a ∧ a < lo + n) ∧ b < nc then nextValue fb nr nc rl cm cur a b
        else nxt a b⟩ := by
  induction n with
  | zero =>
    intro lo nxt
    simp only [forLoopM]
    congr 2
    funext a b
    have : ¬ ((lo ≤ a ∧ a < lo + 0) ∧ b < nc) := by omega
    simp only [this, if_false]
  | succ n ih =>
    intro lo nxt
    simp only [forLoopM, updateRow_ok fb nr nc rl cm cur nxt lo h]
    rw [ih (lo + 1)]
    congr 2
    funext a b
    split_ifs <;> first
      | rfl
      | (exfalso; omega)

theorem threadFuncVI_ok (fb : FrameBehavior) (info : ThreadInfo) (w : Globals)
    (h : validRule w.rule) :
    threadFuncVI fb info w = .ok ⟨w.num_rows, w.num_cols, w.rule, w.colorMode, w.currentGrid,
      rowsWritten fb w info.start_row info.end_row⟩ := by
  cases w with
  | mk nr nc rl cm cur nxt =>
  unfold threadFuncVI rowsWritten
  rw [rows_loop fb nr nc rl cm cur h]
  congr 2
  funext a b
  have : (info.start_row ≤ a ∧ a < info.start_row + (info.end_row - info.start_row))
      ↔ (info.start_row ≤ a ∧ a < info.end_row) := by omega
  simp only [this]

theorem oneGeneration_ok (fb : FrameBehavior) (w : Globals) (h : validRule w.rule) :
    oneGeneration fb w = .ok ⟨w.num_rows, w.num_cols, w.rule, w.colorMode,
      rowsWritten fb w 0 w.num_rows, w.currentGrid⟩ := by
  cases w with
  | mk nr nc rl cm cur nxt =>
  unfold oneGeneration rowsWritten
  simp only
  rw [rows_loop fb nr nc rl cm cur h]
  simp only [swapGrids]
  congr 2
  funext a b
  simp only [Nat.zero_le, true_and, Nat.zero_add]

/-! ## The rule table (C1) and the neighbour count (C3) -/

theorem liveNeighbours_le (g : Grid) (i j : Nat) : liveNeighbours g i j ≤ 8 := by
  unfold liveNeighbours
  refine le_trans (List.length_filter_le _ _) ?_
  rw [neighbourOffsets_eq]
  simp only [List.length_cons, List.length_nil]
  omega

theorem neighbourCount_interior_eq (fb : FrameBehavior) (num_rows num_cols : Nat) (g : Grid)
    (i j : Nat) (h : awayFromBorder num_rows num_cols i j) :
    neighbourCount fb num_rows num_cols g i j = ((liveNeighbours g i j : Nat) : Int) := by
  have hi : 0 < i := h.1
  have hj : 0 < j := h.2.2.1
  simp only [neighbourCount, h, if_true]
  rw [interiorCount_eq_sum num_rows num_cols g i j h, liveNeighbours_eq_sum g i j hi hj]

/-- C1: for an interior cell and each of the four rule ids, `cellNewState` returns 1
exactly when the cell is alive and its live-neighbour count lies in the survive set
of the rule, or the cell is dead and the count lies in the birth set, and 0
otherwise (GameOfLife S{2,3}/B{3}, CoralGrowth S{4..8}/B{3}, Amoeba
S{1,3,5,8}/B{1,3,5,8}, Maze S{1..5}/B{3}). -/
theorem cellNewState_interior_rule_table (fb : FrameBehavior) (num_rows num_cols rule : Nat)
    (g : Grid) (i j : Nat)
    (hr : num_rows < UINT_RANGE) (hc : num_cols < UINT_RANGE)
    (hi : 0 < i ∧ i < num_rows - 1) (hj : 0 < j ∧ j < num_cols - 1)
    (hrule : validRule rule) :
    cellNewState fb num_rows num_cols rule g i j =
      .ok (if (g i j ≠ 0 ∧ liveNeighbours g i j ∈ surviveSet rule) ∨
              (g i j = 0 ∧ liveNeighbours g i j ∈ birthSet rule) then 1 else 0) := by
  have hab : awayFromBorder num_rows num_cols i j :=
    awayFromBorder_of_interior num_rows num_cols i j hr hc ⟨hi.1, by omega⟩ ⟨hj.1, by omega⟩
  have hle := liveNeighbours_le g i j
  simp only [cellNewState, neighbourCount_interior_eq fb num_rows num_cols g i j hab]
  generalize liveNeighbours g i j = n at hle ⊢
  unfold validRule GAME_OF_LIFE_RULE CORAL_GROWTH_RULE AMOEBA_RULE MAZE_RULE at hrule
  rcases hrule with h | h | h | h <;> subst h <;> by_cases hz : g i j = 0 <;>
    interval_cases n <;>
    simp [applyRule, surviveSet, birthSet, GAME_OF_LIFE_RULE, CORAL_GROWTH_RULE, AMOEBA_RULE,
      MAZE_RULE, hz]

theorem cellNewState_interior_rule_table_witness :
    cellNewState .FRAME_DEAD 6 6 AMOEBA_RULE (fun a b => if a = 2 ∧ b = 3 then 4 else 0) 3 3 =
      .ok (if ((fun a b => if a = 2 ∧ b = 3 then 4 else 0 : Grid) 3 3 ≠ 0 ∧
                liveNeighbours (fun a b => if a = 2 ∧ b = 3 then 4 else 0) 3 3
                  ∈ surviveSet AMOEBA_RULE) ∨
              ((fun a b => if a = 2 ∧ b = 3 then 4 else 0 : Grid) 3 3 = 0 ∧
                liveNeighbours (fun a b => if a = 2 ∧ b = 3 then 4 else 0) 3 3
                  ∈ birthSet AMOEBA_RULE) then 1 else 0) :=
  cellNewState_interior_rule_table .FRAME_DEAD 6 6 AMOEBA_RULE _ 3 3
    (by decide) (by decide) (by decide) (by decide) (by decide)

/-- C3: for an interior cell the neighbour count computed by `cellNewState` is the
number of the eight neighbours (i+di, j+dj) whose state is non-zero; it lies
between 0 and 8, does not count the cell itself, and depends on the neighbours
only through zero / non-zero. -/
theorem neighbourCount_interior (fb : FrameBehavior) (num_rows num_cols : Nat) (g : Grid)
    (i j : Nat)
    (hr : num_rows < UINT_RANGE) (hc : num_cols < UINT_RANGE)
    (hi : 0 < i ∧ i < num_rows - 1) (hj : 0 < j ∧ j < num_cols - 1) :
    neighbourCount fb num_rows num_cols g i j = ((liveNeighbours g i j : Nat) : Int)
    ∧ 0 ≤ neighbourCount fb num_rows num_cols g i j
    ∧ neighbourCount fb num_rows num_cols g i j ≤ 8
    ∧ (∀ v, neighbourCount fb num_rows num_cols (setCell g i j v) i j
          = neighbourCount fb num_rows num_cols g i j)
    ∧ (∀ g2 : Grid, (∀ a b, g2 a b = 0 ↔ g a b = 0) →
          neighbourCount fb num_rows num_cols g2 i j
            = neighbourCount fb num_rows num_cols g i j) := by
  have hab : awayFromBorder num_rows num_cols i j :=
    awayFromBorder_of_interior num_rows num_cols i j hr hc ⟨hi.1, by omega⟩ ⟨hj.1, by omega⟩
  have hle := liveNeighbours_le g i j
  have heq := neighbourCount_interior_eq fb num_rows num_cols g i j hab
  refine ⟨heq, by omega, by omega, ?_, ?_⟩
  · intro v
    simp only [neighbourCount, hab, if_true]
    rw [interiorCount_eq_sum num_rows num_cols _ i j hab,
      interiorCount_eq_sum num_rows num_cols _ i j hab]
    have h1 : i - 1 ≠ i := by omega
    have h2 : i + 1 ≠ i := by omega
    have h3 : j - 1 ≠ j := by omega
    have h4 : j + 1 ≠ j := by omega
    simp only [setCell, h1, h2, h3, h4, false_and, and_false, if_false]
  · intro g2 hg
    simp only [neighbourCount, hab, if_true]
    have hal : ∀ a b, alive (g2 a b) = alive (g a b) := by
      intro a b
      simp only [alive, ne_eq, hg a b]
    simp only [interiorCount, hal]

theorem neighbourCount_interior_witness :
    neighbourCount .FRAME_DEAD 6 7 (fun a b => if a = 2 ∧ b = 3 then 4 else 0) 3 3
      = ((liveNeighbours (fun a b => if a = 2 ∧ b = 3 then 4 else 0) 3 3 : Nat) : Int) :=
  (neighbourCount_interior .FRAME_DEAD 6 7 (fun a b => if a = 2 ∧ b = 3 then 4 else 0) 3 3
    (by decide) (by decide) (by decide) (by decide)).1

/-! ## The Dead border (C2) -/

theorem applyRule_sentinel (rule cell : Nat) (h : validRule rule) :
    applyRule rule cell (-1) = .ok 0 := by
  unfold validRule GAME_OF_LIFE_RULE CORAL_GROWTH_RULE AMOEBA_RULE MAZE_RULE at h
  rcases h with h | h | h | h <;> subst h <;>
    simp [applyRule, GAME_OF_LIFE_RULE, CORAL_GROWTH_RULE, AMOEBA_RULE, MAZE_RULE]

theorem newStateOf_border_dead (num_rows num_cols rule : Nat) (g : Grid) (i j : Nat)
    (hr : num_rows < UINT_RANGE) (hc : num_cols < UINT_RANGE) (hrule : validRule rule)
    (hb : onBorder num_rows num_cols i j) :
    neighbourCount .FRAME_DEAD num_rows num_cols g i j = -1
    ∧ cellNewState .FRAME_DEAD num_rows num_cols rule g i j = .ok 0
    ∧ newStateOf .FRAME_DEAD num_rows num_cols rule g i j = 0 := by
  have hnot := not_awayFromBorder_of_onBorder num_rows num_cols i j hr hc hb
  have h1 : neighbourCount .FRAME_DEAD num_rows num_cols g i j = -1 := by
    simp only [neighbourCount, hnot, if_false]
  have h2 : cellNewState .FRAME_DEAD num_rows num_cols rule g i j = .ok 0 := by
    simp only [cellNewState, h1, applyRule_sentinel rule (g i j) hrule]
  refine ⟨h1, h2, ?_⟩
  simp only [newStateOf, h2]

theorem storedState_zero (colorMode old : Nat) : storedState colorMode 0 old = 0 := by
  simp [storedState]

/-- C2: with the Dead border policy, for every grid, every rule id in {1,2,3,4},
either colour mode and every cell on the border, the count is the sentinel -1, which
satisfies no birth or survival threshold of any rule, and the state that a
generation step (`oneGeneration`, a partition worker owning the row, or the in-place
update of the lock version) stores for the cell is 0. -/
theorem border_cell_dies (w : Globals) (i j : Nat)
    (hr : w.num_rows < UINT_RANGE) (hc : w.num_cols < UINT_RANGE)
    (hrule : validRule w.rule) (hi : i < w.num_rows) (hj : j < w.num_cols)
    (hb : i = 0 ∨ i = w.num_rows - 1 ∨ j = 0 ∨ j = w.num_cols - 1) :
    neighbourCount .FRAME_DEAD w.num_rows w.num_cols w.currentGrid i j = -1
    ∧ (∀ cell, applyRule w.rule cell (-1) = .ok 0)
    ∧ (∃ w1, oneGeneration .FRAME_DEAD w = .ok w1 ∧ w1.currentGrid i j = 0)
    ∧ (∀ info : ThreadInfo, info.start_row ≤ i → i < info.end_row →
        ∃ w1, threadFuncVI .FRAME_DEAD info w = .ok w1 ∧ w1.nextGrid i j = 0)
    ∧ (∃ g1, updateCellV3 .FRAME_DEAD w.num_rows w.num_cols w.rule w.colorMode w.currentGrid i j
          = .ok g1 ∧ g1 i j = 0) := by
  have hb2 : onBorder w.num_rows w.num_cols i j := by unfold onBorder; omega
  obtain ⟨h1, h2, h3⟩ :=
    newStateOf_border_dead w.num_rows w.num_cols w.rule w.currentGrid i j hr hc hrule hb2
  have hv : nextValue .FRAME_DEAD w.num_rows w.num_cols w.rule w.colorMode w.currentGrid i j
      = 0 := by
    simp only [nextValue, h3, storedState_zero]
  refine ⟨h1, fun cell => applyRule_sentinel w.rule cell hrule, ?_, ?_, ?_⟩
  · refine ⟨_, oneGeneration_ok .FRAME_DEAD w hrule, ?_⟩
    have hin : (0 ≤ i ∧ i < w.num_rows) ∧ j < w.num_cols := ⟨⟨Nat.zero_le _, hi⟩, hj⟩
    simp only [rowsWritten, hin, and_self, if_true, hv]
  · intro info hlo hhi
    refine ⟨_, threadFuncVI_ok .FRAME_DEAD info w hrule, ?_⟩
    have hin : (info.start_row ≤ i ∧ i < info.end_row) ∧ j < w.num_cols := ⟨⟨hlo, hhi⟩, hj⟩
    simp only [rowsWritten, hin, and_self, if_true, hv]
  · refine ⟨setCell w.currentGrid i j 0, ?_, ?_⟩
    · simp only [updateCellV3, h2, or_true, if_true]
    · simp only [setCell, and_self, if_true]

theorem border_cell_dies_witness :
    ∃ w1, oneGeneration .FRAME_DEAD ⟨6, 7, MAZE_RULE, 1, fun _ _ => 3, fun _ _ => 0⟩ = .ok w1
      ∧ w1.currentGrid 5 2 = 0 :=
  (border_cell_dies ⟨6, 7, MAZE_RULE, 1, fun _ _ => 3, fun _ _ => 0⟩ 5 2
    (by decide) (by decide) (by decide) (by decide) (by decide) (by decide)).2.2.1

/-! ## Ageing (C4) -/

theorem validRule_of_cellNewState_ok (fb : FrameBehavior) (num_rows num_cols rule : Nat)
    (g : Grid) (i j n : Nat) (h : cellNewState fb num_rows num_cols rule g i j = .ok n) :
    validRule rule := by
  by_contra hv
  unfold validRule at hv
  push_neg at hv
  obtain ⟨h1, h2, h3, h4⟩ := hv
  simp [cellNewState, applyRule, h1, h2, h3, h4] at h

theorem agingSpec_storedState (colorMode n s : Nat) (hn : n ≤ 1) (hs : s < NB_COLORS) :
    agingSpec colorMode n s (storedState colorMode n s) := by
  unfold agingSpec storedState uadd UINT_RANGE NB_COLORS at *
  refine ⟨?_, ?_, ?_, ?_⟩
  · intro h; simp [h]
  · intro h1 h2; simp only [h2, true_or, if_true]; omega
  · intro h1 h2 h3
    have : ¬ (colorMode = 0 ∨ n = 0) := by omega
    simp only [this, if_false, h3, if_true]
    omega
  · intro h1 h2 h3
    have : ¬ (colorMode = 0 ∨ n = 0) := by omega
    have h4 : ¬ (s < 6 - 1) := by omega
    simp only [this, if_false, h4]

/-- C4: for a cell with old state `s < NB_COLORS` for which `cellNewState` returns
the raw new state `n`, the state stored by a generation step (`oneGeneration`, a
partition worker owning the row, and the in-place update of the lock version) is 0
if `n = 0`; 1 if `n ≠ 0` and colour mode is off; and with colour mode on, `s + 1`
when `s < NB_COLORS - 1` and `s` when `s = NB_COLORS - 1`. -/
theorem stored_state_ageing (fb : FrameBehavior) (w : Globals) (i j n : Nat)
    (hi : i < w.num_rows) (hj : j < w.num_cols)
    (hs : w.currentGrid i j < NB_COLORS)
    (hn : cellNewState fb w.num_rows w.num_cols w.rule w.currentGrid i j = .ok n) :
    (∃ w1, oneGeneration fb w = .ok w1
        ∧ agingSpec w.colorMode n (w.currentGrid i j) (w1.currentGrid i j))
    ∧ (∀ info : ThreadInfo, info.start_row ≤ i → i < info.end_row →
        ∃ w1, threadFuncVI fb info w = .ok w1
          ∧ agingSpec w.colorMode n (w.currentGrid i j) (w1.nextGrid i j))
    ∧ (∃ g1, updateCellV3 fb w.num_rows w.num_cols w.rule w.colorMode w.currentGrid i j = .ok g1
        ∧ agingSpec w.colorMode n (w.currentGrid i j) (g1 i j)) := by
  have hrule := validRule_of_cellNewState_ok fb _ _ _ _ _ _ _ hn
  obtain ⟨hok, hle⟩ := cellNewState_ok fb w.num_rows w.num_cols w.rule w.currentGrid i j hrule
  have hnn : newStateOf fb w.num_rows w.num_cols w.rule w.currentGrid i j = n := by
    simp only [newStateOf, hn]
  rw [hnn] at hle
  have hspec := agingSpec_storedState w.colorMode n (w.currentGrid i j) hle hs
  have hv : nextValue fb w.num_rows w.num_cols w.rule w.colorMode w.currentGrid i j
      = storedState w.colorMode n (w.currentGrid i j) := by
    simp only [nextValue, hnn]
  refine ⟨?_, ?_, ?_⟩
  · refine ⟨_, oneGeneration_ok fb w hrule, ?_⟩
    have hin : (0 ≤ i ∧ i < w.num_rows) ∧ j < w.num_cols := ⟨⟨Nat.zero_le _, hi⟩, hj⟩
    simp only [rowsWritten, hin, and_self, if_true, hv]
    exact hspec
  · intro info hlo hhi
    refine ⟨_, threadFuncVI_ok fb info w hrule, ?_⟩
    have hin : (info.start_row ≤ i ∧ i < info.end_row) ∧ j < w.num_cols := ⟨⟨hlo, hhi⟩, hj⟩
    simp only [rowsWritten, hin, and_self, if_true, hv]
    exact hspec
  · by_cases hc : w.colorMode = 0 ∨ n = 0
    · refine ⟨setCell w.currentGrid i j n, ?_, ?_⟩
      · simp only [updateCellV3, hn, hc, if_true]
      · have : storedState w.colorMode n (w.currentGrid i j) = n := by
          simp only [storedState, hc, if_true]
        rw [this] at hspec
        simpa only [setCell, and_self, if_true] using hspec
    · by_cases hlt : w.currentGrid i j < NB_COLORS - 1
      · refine ⟨setCell w.currentGrid i j (uadd (w.currentGrid i j) 1), ?_, ?_⟩
        · simp only [updateCellV3, hn, hc, hlt, if_true, if_false]
        · have : storedState w.colorMode n (w.currentGrid i j) = uadd (w.currentGrid i j) 1 := by
            simp only [storedState, hc, hlt, if_true, if_false]
          rw [this] at hspec
          simpa only [setCell, and_self, if_true] using hspec
      · refine ⟨w.currentGrid, ?_, ?_⟩
        · simp only [updateCellV3, hn, hc, hlt, if_false]
        · have : storedState w.colorMode n (w.currentGrid i j) = w.currentGrid i j := by
            simp only [storedState, hc, hlt, if_false]
          rw [this] at hspec
          exact hspec

theorem stored_state_ageing_witness :
    ∃ w1, oneGeneration .FRAME_DEAD
        ⟨6, 6, GAME_OF_LIFE_RULE, 1, fun a b => if a = 2 ∧ 1 ≤ b ∧ b ≤ 3 then 5 else 0,
          fun _ _ => 0⟩ = .ok w1
      ∧ agingSpec 1 1 5 (w1.currentGrid 2 2) :=
  (stored_state_ageing .FRAME_DEAD
    ⟨6, 6, GAME_OF_LIFE_RULE, 1, fun a b => if a = 2 ∧ 1 ≤ b ∧ b ≤ 3 then 5 else 0,
      fun _ _ => 0⟩ 2 2 1 (by decide) (by decide) (by decide) (by rfl)).1

/-! ## The row partition (C6, C7) -/

theorem mainThreadInfo_eq (num_rows num_threads k : Nat)
    (hT : 0 < num_threads) (hTR : num_threads ≤ num_rows) (hR : num_rows < UINT_RANGE)
    (hk : k < num_threads) :
    (mainThreadInfo num_rows num_threads k).start_row = k * (num_rows / num_threads)
    ∧ (mainThreadInfo num_rows num_threads k).end_row
        = if k = num_threads - 1 then num_rows else (k + 1) * (num_rows / num_threads) := by
  have hq : num_threads * (num_rows / num_threads) ≤ num_rows := Nat.mul_div_le _ _
  have h1 : k * (num_rows / num_threads) ≤ num_threads * (num_rows / num_threads) :=
    Nat.mul_le_mul_right _ (by omega)
  have h2 : (k + 1) * (num_rows / num_threads) ≤ num_threads * (num_rows / num_threads) :=
    Nat.mul_le_mul_right _ (by omega)
  have h3 : usub num_threads 1 = num_threads - 1 := by unfold usub UINT_RANGE at *; omega
  have h4 : uadd k 1 = k + 1 := by unfold uadd UINT_RANGE at *; omega
  have h5 : umul k (num_rows / num_threads) = k * (num_rows / num_threads) := by
    unfold umul
    exact Nat.mod_eq_of_lt (by omega)
  have h6 : umul (k + 1) (num_rows / num_threads) = (k + 1) * (num_rows / num_threads) := by
    unfold umul
    exact Nat.mod_eq_of_lt (by omega)
  simp only [mainThreadInfo, h3, h4, h5, h6, and_self]

theorem partition_bounds (num_rows num_threads k : Nat)
    (hT : 0 < num_threads) (hTR : num_threads ≤ num_rows) (hR : num_rows < UINT_RANGE)
    (hk : k < num_threads) :
    (mainThreadInfo num_rows num_threads k).start_row
        + num_rows / num_threads ≤ (mainThreadInfo num_rows num_threads k).end_row
    ∧ (mainThreadInfo num_rows num_threads k).end_row ≤ num_rows
    ∧ 0 < num_rows / num_threads
    ∧ (k + 1 < num_threads → (mainThreadInfo num_rows num_threads k).end_row
        = (mainThreadInfo num_rows num_threads (k + 1)).start_row)
    ∧ (k + 1 < num_threads → (mainThreadInfo num_rows num_threads k).end_row
        = (mainThreadInfo num_rows num_threads k).start_row + num_rows / num_threads)
    ∧ (k + 1 = num_threads → (mainThreadInfo num_rows num_threads k).end_row = num_rows)
    ∧ (k + 1 = num_threads → (mainThreadInfo num_rows num_threads k).end_row
        = (mainThreadInfo num_rows num_threads k).start_row
          + (num_rows / num_threads + num_rows % num_threads)) := by
  obtain ⟨hs, he⟩ := mainThreadInfo_eq num_rows num_threads k hT hTR hR hk
  have hq : num_threads * (num_rows / num_threads) ≤ num_rows := Nat.mul_div_le _ _
  have hqpos : 0 < num_rows / num_threads := Nat.div_pos hTR hT
  have hdm : num_threads * (num_rows / num_threads) + num_rows % num_threads = num_rows :=
    Nat.div_add_mod _ _
  have hsucc : (k + 1) * (num_rows / num_threads)
      = k * (num_rows / num_threads) + num_rows / num_threads := Nat.succ_mul _ _
  have h2 : (k + 1) * (num_rows / num_threads) ≤ num_threads * (num_rows / num_threads) :=
    Nat.mul_le_mul_right _ (by omega)
  rw [hs, he]
  by_cases hlast : k = num_threads - 1
  · have hk1 : k + 1 = num_threads := by omega
    have h3 : (k + 1) * (num_rows / num_threads)
        = num_threads * (num_rows / num_threads) := by rw [hk1]
    simp only [hlast, if_true]
    rw [← hlast]
    refine ⟨by omega, le_refl _, hqpos, by omega, by omega, fun _ => trivial, by omega⟩
  · simp only [hlast, if_false]
    refine ⟨by omega, by omega, hqpos, ?_, by omega, by omega, by omega⟩
    intro hk1
    exact ((mainThreadInfo_eq num_rows num_threads (k + 1) hT hTR hR hk1).1).symm

theorem partition_start_mono (num_rows num_threads : Nat)
    (hT : 0 < num_threads) (hTR : num_threads ≤ num_rows) (hR : num_rows < UINT_RANGE)
    (k1 k2 : Nat) (h12 : k1 < k2) (hk2 : k2 < num_threads) :
    (mainThreadInfo num_rows num_threads k1).end_row
      ≤ (mainThreadInfo num_rows num_threads k2).start_row := by
  have hk1 : k1 < num_threads := by omega
  obtain ⟨_, he⟩ := mainThreadInfo_eq num_rows num_threads k1 hT hTR hR hk1
  obtain ⟨hs, _⟩ := mainThreadInfo_eq num_rows num_threads k2 hT hTR hR hk2
  have hne : ¬ (k1 = num_threads - 1) := by omega
  rw [he, hs]
  simp only [hne, if_false]
  exact Nat.mul_le_mul_right _ (by omega)

theorem partition_exists (num_rows num_threads : Nat)
    (hT : 0 < num_threads) (hTR : num_threads ≤ num_rows) (hR : num_rows < UINT_RANGE)
    (r : Nat) (hr : r < num_rows) :
    ∃ k, k < num_threads ∧ (mainThreadInfo num_rows num_threads k).start_row ≤ r
      ∧ r < (mainThreadInfo num_rows num_threads k).end_row := by
  have hqpos : 0 < num_rows / num_threads := Nat.div_pos hTR hT
  have hlow : r / (num_rows / num_threads) * (num_rows / num_threads) ≤ r :=
    Nat.div_mul_le_self _ _
  have hhigh : r < (num_rows / num_threads) * (r / (num_rows / num_threads) + 1) :=
    Nat.lt_mul_div_succ r hqpos
  by_cases hcase : r / (num_rows / num_threads) < num_threads - 1
  · have hk : r / (num_rows / num_threads) < num_threads := by omega
    obtain ⟨hs, he⟩ := mainThreadInfo_eq num_rows num_threads _ hT hTR hR hk
    have hne : ¬ (r / (num_rows / num_threads) = num_threads - 1) := by omega
    refine ⟨r / (num_rows / num_threads), hk, ?_, ?_⟩
    · rw [hs]; exact hlow
    · rw [he]
      simp only [hne, if_false]
      rw [Nat.mul_comm]; exact hhigh
  · have hk : num_threads - 1 < num_threads := by omega
    obtain ⟨hs, he⟩ := mainThreadInfo_eq num_rows num_threads _ hT hTR hR hk
    refine ⟨num_threads - 1, hk, ?_, ?_⟩
    · rw [hs]
      have : (num_threads - 1) * (num_rows / num_threads)
          ≤ r / (num_rows / num_threads) * (num_rows / num_threads) :=
        Nat.mul_le_mul_right _ (by omega)
      omega
    · rw [he]
      simp only [if_true]
      exact hr

/-- C6: for `0 < num_threads ≤ num_rows` the row ranges `[start_row, end_row)` that
`main` computes for the workers 0 .. num_threads-1 cover `[0, num_rows)` exactly
once: every row belongs to exactly one range, no range contains a row beyond
`num_rows`, consecutive ranges are adjacent, the first range starts at row 0 and the
last ends at `num_rows`. -/
theorem partition_covers_once (num_rows num_threads : Nat)
    (hT : 0 < num_threads) (hTR : num_threads ≤ num_rows) (hR : num_rows < UINT_RANGE) :
    (mainPartition num_rows num_threads).length = num_threads
    ∧ (∀ k, k < num_threads →
        (mainPartition num_rows num_threads)[k]? = some (mainThreadInfo num_rows num_threads k))
    ∧ (∀ r, r < num_rows → ∃! k, k < num_threads
        ∧ (mainThreadInfo num_rows num_threads k).start_row ≤ r
        ∧ r < (mainThreadInfo num_rows num_threads k).end_row)
    ∧ (∀ k r, k < num_threads → (mainThreadInfo num_rows num_threads k).start_row ≤ r →
        r < (mainThreadInfo num_rows num_threads k).end_row → r < num_rows)
    ∧ (∀ k, k + 1 < num_threads → (mainThreadInfo num_rows num_threads k).end_row
        = (mainThreadInfo num_rows num_threads (k + 1)).start_row)
    ∧ (mainThreadInfo num_rows num_threads 0).start_row = 0
    ∧ (mainThreadInfo num_rows num_threads (num_threads - 1)).end_row = num_rows := by
  refine ⟨?_, ?_, ?_, ?_, ?_, ?_, ?_⟩
  · simp only [mainPartition, List.length_map, List.length_range]
  · intro k hk
    simp only [mainPartition, List.getElem?_map, List.getElem?_range hk, Option.map_some']
  · intro r hr
    obtain ⟨k, hk, hlo, hhi⟩ := partition_exists num_rows num_threads hT hTR hR r hr
    refine ⟨k, ⟨hk, hlo, hhi⟩, ?_⟩
    rintro k2 ⟨hk2, hlo2, hhi2⟩
    by_contra hne
    rcases Nat.lt_or_gt_of_ne hne with hlt | hgt
    · have := partition_start_mono num_rows num_threads hT hTR hR k2 k hlt hk
      omega
    · have := partition_start_mono num_rows num_threads hT hTR hR k k2 hgt hk2
      omega
  · intro k r hk _ hhi
    have := (partition_bounds num_rows num_threads k hT hTR hR hk).2.1
    omega
  · intro k hk
    exact (partition_bounds num_rows num_threads k hT hTR hR (by omega)).2.2.2.1 hk
  · have := (mainThreadInfo_eq num_rows num_threads 0 hT hTR hR hT).1
    omega
  · exact (partition_bounds num_rows num_threads (num_threads - 1) hT hTR hR
      (by omega)).2.2.2.2.2.1 (by omega)

theorem partition_covers_once_witness :
    (mainPartition 10 3).length = 3
    ∧ (∀ k, k < 3 → (mainPartition 10 3)[k]? = some (mainThreadInfo 10 3 k))
    ∧ (∀ r, r < 10 → ∃! k, k < 3 ∧ (mainThreadInfo 10 3 k).start_row ≤ r
        ∧ r < (mainThreadInfo 10 3 k).end_row)
    ∧ (∀ k r, k < 3 → (mainThreadInfo 10 3 k).start_row ≤ r →
        r < (mainThreadInfo 10 3 k).end_row → r < 10)
    ∧ (∀ k, k + 1 < 3 → (mainThreadInfo 10 3 k).end_row = (mainThreadInfo 10 3 (k + 1)).start_row)
    ∧ (mainThreadInfo 10 3 0).start_row = 0
    ∧ (mainThreadInfo 10 3 (3 - 1)).end_row = 10 :=
  partition_covers_once 10 3 (by decide) (by decide) (by decide)

/-- C7: for `0 < num_threads ≤ num_rows` every partition that `main` computes is
non-empty; every worker except the last owns exactly `num_rows / num_threads` rows
and the last worker owns `num_rows / num_threads + num_rows % num_threads` rows. -/
theorem partition_sizes (num_rows num_threads k : Nat)
    (hT : 0 < num_threads) (hTR : num_threads ≤ num_rows) (hR : num_rows < UINT_RANGE)
    (hk : k < num_threads) :
    (mainThreadInfo num_rows num_threads k).start_row
        < (mainThreadInfo num_rows num_threads k).end_row
    ∧ (k ≠ num_threads - 1 →
        (mainThreadInfo num_rows num_threads k).end_row
          - (mainThreadInfo num_rows num_threads k).start_row = num_rows / num_threads)
    ∧ (k = num_threads - 1 →
        (mainThreadInfo num_rows num_threads k).end_row
          - (mainThreadInfo num_rows num_threads k).start_row
          = num_rows / num_threads + num_rows % num_threads) := by
  obtain ⟨h1, _, h3, _, h5, _, h7⟩ := partition_bounds num_rows num_threads k hT hTR hR hk
  refine ⟨by omega, ?_, ?_⟩
  · intro hne
    have := h5 (by omega)
    omega
  · intro he
    have := h7 (by omega)
    omega

theorem partition_sizes_witness :
    (mainThreadInfo 10 3 2).start_row < (mainThreadInfo 10 3 2).end_row
    ∧ (2 ≠ 3 - 1 →
        (mainThreadInfo 10 3 2).end_row - (mainThreadInfo 10 3 2).start_row = 10 / 3)
    ∧ (2 = 3 - 1 →
        (mainThreadInfo 10 3 2).end_row - (mainThreadInfo 10 3 2).start_row = 10 / 3 + 10 % 3) :=
  partition_sizes 10 3 2 (by decide) (by decide) (by decide) (by decide)

/-! ## The partitioned generation -/

theorem runWorkers_ok (fb : FrameBehavior) (nr nc rl cm : Nat) (cur : Grid)
    (h : validRule rl) (infos : List ThreadInfo) :
    ∀ nxt : Grid, ∃ nxt1 : Grid,
      runWorkers fb infos ⟨nr, nc, rl, cm, cur, nxt⟩ = .ok ⟨nr, nc, rl, cm, cur, nxt1⟩
      ∧ (∀ a b, (∃ info ∈ infos, info.start_row ≤ a ∧ a < info.end_row) → b < nc →
          nxt1 a b = nextValue fb nr nc rl cm cur a b)
      ∧ (∀ a b, ¬ ((∃ info ∈ infos, info.start_row ≤ a ∧ a < info.end_row) ∧ b < nc) →
          nxt1 a b = nxt a b) := by
  induction infos with
  | nil =>
    intro nxt
    refine ⟨nxt, rfl, ?_, fun _ _ _ => rfl⟩
    intro a b hex
    obtain ⟨info, hmem, _⟩ := hex
    cases hmem
  | cons info rest ih =>
    intro nxt
    have hstep := threadFuncVI_ok fb info ⟨nr, nc, rl, cm, cur, nxt⟩ h
    obtain ⟨nxt1, hrun, hin, hout⟩ :=
      ih (rowsWritten fb ⟨nr, nc, rl, cm, cur, nxt⟩ info.start_row info.end_row)
    refine ⟨nxt1, ?_, ?_, ?_⟩
    · simp only [runWorkers, hstep, hrun]
    · intro a b hex hb
      by_cases hrest : ∃ info2 ∈ rest, info2.start_row ≤ a ∧ a < info2.end_row
      · exact hin a b hrest hb
      · rw [hout a b (fun hc => hrest hc.1)]
        obtain ⟨info2, hmem, hlo, hhi⟩ := hex
        rcases List.mem_cons.1 hmem with heq | hmem2
        · subst heq
          have hrange : (info2.start_row ≤ a ∧ a < info2.end_row) ∧ b < nc := ⟨⟨hlo, hhi⟩, hb⟩
          simp only [rowsWritten, hrange, and_self, if_true]
        · exact absurd ⟨info2, hmem2, hlo, hhi⟩ hrest
    · intro a b hnot
      have hnrest : ¬ ((∃ info2 ∈ rest, info2.start_row ≤ a ∧ a < info2.end_row) ∧ b < nc) := by
        rintro ⟨⟨info2, hmem2, hr2⟩, hb⟩
        exact hnot ⟨⟨info2, List.mem_cons_of_mem _ hmem2, hr2⟩, hb⟩
      rw [hout a b hnrest]
      have hnhead : ¬ ((info.start_row ≤ a ∧ a < info.end_row) ∧ b < nc) := by
        rintro ⟨hr2, hb⟩
        exact hnot ⟨⟨info, List.mem_cons_self _ _, hr2⟩, hb⟩
      simp only [rowsWritten, hnhead, if_false]

theorem mem_mainPartition (num_rows num_threads : Nat) (info : ThreadInfo) :
    info ∈ mainPartition num_rows num_threads
      ↔ ∃ k, k < num_threads ∧ info = mainThreadInfo num_rows num_threads k := by
  simp only [mainPartition, List.mem_map, List.mem_range]
  constructor
  · rintro ⟨k, hk, rfl⟩; exact ⟨k, hk, rfl⟩
  · rintro ⟨k, hk, rfl⟩; exact ⟨k, hk, rfl⟩

/-- For `0 < num_threads ≤ num_rows` the partitioned generation computes the same
globals as `oneGeneration`. -/
theorem generationVI_eq_oneGeneration (fb : FrameBehavior) (num_threads : Nat) (w : Globals)
    (hrule : validRule w.rule) (hT : 0 < num_threads) (hTR : num_threads ≤ w.num_rows)
    (hR : w.num_rows < UINT_RANGE) :
    generationVI fb num_threads w = oneGeneration fb w := by
  cases w with
  | mk nr nc rl cm cur nxt =>
  simp only at hrule hTR hR
  obtain ⟨nxt1, hrun, hin, hout⟩ :=
    runWorkers_ok fb nr nc rl cm cur hrule (mainPartition nr num_threads) nxt
  rw [oneGeneration_ok fb _ hrule]
  simp only [generationVI, hrun, swapGrids]
  congr 2
  funext a b
  by_cases hc : a < nr ∧ b < nc
  · obtain ⟨k, hk, hlo, hhi⟩ := partition_exists nr num_threads hT hTR hR a hc.1
    have hrange : (0 ≤ a ∧ a < nr) ∧ b < nc := ⟨⟨Nat.zero_le _, hc.1⟩, hc.2⟩
    rw [hin a b ⟨_, (mem_mainPartition nr num_threads _).2 ⟨k, hk, rfl⟩, hlo, hhi⟩ hc.2]
    simp only [rowsWritten, hrange, and_self, if_true]
  · have hnot : ¬ ((∃ info ∈ mainPartition nr num_threads,
        info.start_row ≤ a ∧ a < info.end_row) ∧ b < nc) := by
      rintro ⟨⟨info, hmem, hlo, hhi⟩, hb⟩
      obtain ⟨k, hk, rfl⟩ := (mem_mainPartition nr num_threads info).1 hmem
      have := (partition_bounds nr num_threads k hT hTR hR hk).2.1
      exact hc ⟨by omega, hb⟩
    have hrange : ¬ ((0 ≤ a ∧ a < nr) ∧ b < nc) := fun h => hc ⟨h.1.2, h.2⟩
    rw [hout a b hnot]
    simp only [rowsWritten, hrange, if_false]

/-! ## The grid invariant (C5) -/

theorem fill_cols_loop (rand : Nat → Nat) (i : Nat) (n : Nat) :
    ∀ (lo : Nat) (g : Grid) (k : Nat),
    forLoop (fun j (s : Grid × Nat) => (setCell s.1 i j (rand s.2 % 2), s.2 + 1)) lo n (g, k)
      = (fun a b => if a = i ∧ lo ≤ b ∧ b < lo + n then rand (k + (b - lo)) % 2 else g a b,
         k + n) := by
  induction n with
  | zero =>
    intro lo g k
    simp only [forLoop, Prod.mk.injEq, Nat.add_zero, and_true]
    funext a b
    have : ¬ (a = i ∧ lo ≤ b ∧ b < lo) := by omega
    simp only [this, if_false]
  | succ n ih =>
    intro lo g k
    simp only [forLoop]
    rw [ih (lo + 1)]
    simp only [Prod.mk.injEq]
    refine ⟨?_, by omega⟩
    funext a b
    simp only [setCell]
    split_ifs <;> first
      | rfl
      | (exfalso; omega)
      | (congr 2; omega)

theorem fill_rows_loop (rand : Nat → Nat) (nc : Nat) (n : Nat) :
    ∀ (lo : Nat) (g : Grid) (k : Nat),
    forLoop (fun i (s : Grid × Nat) =>
        forLoop (fun j (s : Grid × Nat) => (setCell s.1 i j (rand s.2 % 2), s.2 + 1)) 0 nc s)
        lo n (g, k)
      = (fun a b => if (lo ≤ a ∧ a < lo + n) ∧ b < nc then rand (k + (a - lo) * nc + b) % 2
                    else g a b,
         k + n * nc) := by
  induction n with
  | zero =>
    intro lo g k
    simp only [forLoop, Prod.mk.injEq, Nat.zero_mul, Nat.add_zero, and_true]
    funext a b
    have : ¬ ((lo ≤ a ∧ a < lo) ∧ b < nc) := by omega
    simp only [this, if_false]
  | succ n ih =>
    intro lo g k
    simp only [forLoop]
    rw [fill_cols_loop rand lo nc 0 g k, ih (lo + 1)]
    simp only [Prod.mk.injEq]
    refine ⟨?_, by ring⟩
    funext a b
    split_ifs <;> first
      | rfl
      | (exfalso; omega)
      | (congr 2
         have h3 : a - lo = (a - (lo + 1)) + 1 := by omega
         rw [h3]; ring)
      | (congr 2
         have h3 : a - lo = 0 := by omega
         rw [h3]; omega)

theorem fillRandom_eq (rand : Nat → Nat) (num_rows num_cols : Nat) (g : Grid) :
    fillRandom rand num_rows num_cols g
      = (fun a b => if a < num_rows ∧ b < num_cols then rand (a * num_cols + b) % 2 else g a b,
         num_rows * num_cols) := by
  unfold fillRandom
  rw [fill_rows_loop rand num_cols num_rows 0 g 0]
  simp only [Nat.zero_le, true_and, Nat.zero_add, Nat.sub_zero]

theorem storedState_lt (colorMode n s : Nat) (hn : n ≤ 1) (hs : s < NB_COLORS) :
    storedState colorMode n s < NB_COLORS := by
  unfold storedState uadd UINT_RANGE NB_COLORS at *
  split_ifs <;> omega

theorem nextValue_lt (fb : FrameBehavior) (num_rows num_cols rule colorMode : Nat) (g : Grid)
    (i j : Nat) (hrule : validRule rule) (hs : g i j < NB_COLORS) :
    nextValue fb num_rows num_cols rule colorMode g i j < NB_COLORS :=
  storedState_lt colorMode _ _ (cellNewState_ok fb num_rows num_cols rule g i j hrule).2 hs

theorem resetGrid_fields (rand : Nat → Nat) (w : Globals) :
    (resetGrid rand w).num_rows = w.num_rows ∧ (resetGrid rand w).num_cols = w.num_cols
    ∧ (resetGrid rand w).rule = w.rule ∧ (resetGrid rand w).colorMode = w.colorMode
    ∧ (∀ a b, a < w.num_rows → b < w.num_cols →
        (resetGrid rand w).currentGrid a b = rand (a * w.num_cols + b) % 2) := by
  refine ⟨rfl, rfl, rfl, rfl, ?_⟩
  intro a b ha hb
  simp only [resetGrid, swapGrids, fillRandom_eq, ha, hb, and_self, if_true]

theorem resetGridV3_cells (rand : Nat → Nat) (num_rows num_cols : Nat) (g : Grid) (a b : Nat)
    (ha : a < num_rows) (hb : b < num_cols) :
    resetGridV3 rand num_rows num_cols g a b = rand (a * num_cols + b) % 2 := by
  simp only [resetGridV3, fillRandom_eq, ha, hb, and_self, if_true]

theorem oneGeneration_statesInRange (fb : FrameBehavior) (w : Globals)
    (hrule : validRule w.rule)
    (hinv : statesInRange w.num_rows w.num_cols w.currentGrid) :
    ∃ w1, oneGeneration fb w = .ok w1 ∧ w1.num_rows = w.num_rows ∧ w1.num_cols = w.num_cols
      ∧ w1.rule = w.rule ∧ w1.colorMode = w.colorMode
      ∧ statesInRange w.num_rows w.num_cols w1.currentGrid := by
  refine ⟨_, oneGeneration_ok fb w hrule, rfl, rfl, rfl, rfl, ?_⟩
  intro i j hi hj
  have hin : (0 ≤ i ∧ i < w.num_rows) ∧ j < w.num_cols := ⟨⟨Nat.zero_le _, hi⟩, hj⟩
  simp only [rowsWritten, hin, and_self, if_true]
  exact nextValue_lt fb _ _ _ _ _ i j hrule (hinv i j hi hj)

theorem updateCellV3_statesInRange (fb : FrameBehavior) (num_rows num_cols rule colorMode : Nat)
    (g : Grid) (i j : Nat) (hrule : validRule rule)
    (hi : i < num_rows) (hj : j < num_cols)
    (hinv : statesInRange num_rows num_cols g) :
    ∃ g1, updateCellV3 fb num_rows num_cols rule colorMode g i j = .ok g1
      ∧ statesInRange num_rows num_cols g1 := by
  obtain ⟨hok, hle⟩ := cellNewState_ok fb num_rows num_cols rule g i j hrule
  have hs := hinv i j hi hj
  simp only [updateCellV3, hok]
  split_ifs with h1 h2
  · refine ⟨_, rfl, ?_⟩
    intro a b ha hb
    simp only [setCell]
    split_ifs
    · unfold NB_COLORS; omega
    · exact hinv a b ha hb
  · refine ⟨_, rfl, ?_⟩
    intro a b ha hb
    simp only [setCell]
    split_ifs
    · unfold uadd UINT_RANGE NB_COLORS at *; omega
    · exact hinv a b ha hb
  · exact ⟨_, rfl, hinv⟩

theorem applyEvent_statesInRange (fb : FrameBehavior) (ev : Event) (w : Globals)
    (hrule : validRule w.rule)
    (hinv : statesInRange w.num_rows w.num_cols w.currentGrid) :
    ∃ w1, applyEvent fb ev w = .ok w1 ∧ w1.num_rows = w.num_rows ∧ w1.num_cols = w.num_cols
      ∧ validRule w1.rule ∧ statesInRange w.num_rows w.num_cols w1.currentGrid := by
  cases ev with
  | keyRule1 => exact ⟨_, rfl, rfl, rfl, Or.inl rfl, hinv⟩
  | keyRule2 => exact ⟨_, rfl, rfl, rfl, Or.inr (Or.inl rfl), hinv⟩
  | keyRule3 => exact ⟨_, rfl, rfl, rfl, Or.inr (Or.inr (Or.inl rfl)), hinv⟩
  | keyRule4 => exact ⟨_, rfl, rfl, rfl, Or.inr (Or.inr (Or.inr rfl)), hinv⟩
  | keyColor => exact ⟨_, rfl, rfl, rfl, hrule, hinv⟩
  | keySpace rand =>
    obtain ⟨h1, h2, h3, _, h5⟩ := resetGrid_fields rand w
    refine ⟨_, rfl, h1, h2, by rw [h3]; exact hrule, ?_⟩
    intro a b ha hb
    rw [h5 a b ha hb]
    unfold NB_COLORS; omega
  | generation =>
    obtain ⟨w1, h1, h2, h3, h4, _, h6⟩ := oneGeneration_statesInRange fb w hrule hinv
    exact ⟨w1, h1, h2, h3, by rw [h4]; exact hrule, h6⟩

theorem runEvents_statesInRange (fb : FrameBehavior) (evs : List Event) :
    ∀ w : Globals, validRule w.rule → statesInRange w.num_rows w.num_cols w.currentGrid →
    ∃ w1, runEvents fb evs w = .ok w1 ∧ statesInRange w.num_rows w.num_cols w1.currentGrid := by
  induction evs with
  | nil => intro w _ hinv; exact ⟨w, rfl, hinv⟩
  | cons ev rest ih =>
    intro w hrule hinv
    obtain ⟨w1, h1, h2, h3, h4, h5⟩ := applyEvent_statesInRange fb ev w hrule hinv
    have hinv1 : statesInRange w1.num_rows w1.num_cols w1.currentGrid := by
      rw [h2, h3]; exact h5
    obtain ⟨w2, h6, h7⟩ := ih w1 h4 hinv1
    refine ⟨w2, ?_, ?_⟩
    · simp only [runEvents, h1, h6]
    · rw [h2, h3] at h7; exact h7

/-- C5: `0 ≤ state < NB_COLORS` is an invariant of the grid.  After `resetGrid`, for
every sequence of `rand()` values, every cell is 0 or 1; and if the invariant holds
for the current grid it holds after a generation step of the barrier versions
(`oneGeneration`, and the partitioned `generationVI`), after a single in-place cell
update of the lock version, and after any run of generations, rule keys, colour-mode
toggles and resets, for every rule id in {1,2,3,4} and either colour mode. -/
theorem grid_states_invariant (fb : FrameBehavior) (w : Globals) (rand : Nat → Nat)
    (evs : List Event) (num_threads i j : Nat) (hi : i < w.num_rows) (hj : j < w.num_cols)
    (hrule : validRule w.rule) :
    ((∀ a b, a < w.num_rows → b < w.num_cols → (resetGrid rand w).currentGrid a b ≤ 1)
      ∧ statesInRange w.num_rows w.num_cols (resetGrid rand w).currentGrid)
    ∧ ((∀ a b, a < w.num_rows → b < w.num_cols →
          resetGridV3 rand w.num_rows w.num_cols w.currentGrid a b ≤ 1)
      ∧ statesInRange w.num_rows w.num_cols
          (resetGridV3 rand w.num_rows w.num_cols w.currentGrid))
    ∧ (statesInRange w.num_rows w.num_cols w.currentGrid →
        (∃ w1, oneGeneration fb w = .ok w1
            ∧ statesInRange w.num_rows w.num_cols w1.currentGrid)
        ∧ (0 < num_threads → num_threads ≤ w.num_rows → w.num_rows < UINT_RANGE →
            ∃ w1, generationVI fb num_threads w = .ok w1
              ∧ statesInRange w.num_rows w.num_cols w1.currentGrid)
        ∧ (∃ g1, updateCellV3 fb w.num_rows w.num_cols w.rule w.colorMode w.currentGrid i j
              = .ok g1 ∧ statesInRange w.num_rows w.num_cols g1)
        ∧ (∃ w1, runEvents fb evs w = .ok w1
            ∧ statesInRange w.num_rows w.num_cols w1.currentGrid)) := by
  have hreset : ∀ a b, a < w.num_rows → b < w.num_cols →
      (resetGrid rand w).currentGrid a b ≤ 1 := by
    intro a b ha hb
    rw [(resetGrid_fields rand w).2.2.2.2 a b ha hb]
    omega
  have hreset3 : ∀ a b, a < w.num_rows → b < w.num_cols →
      resetGridV3 rand w.num_rows w.num_cols w.currentGrid a b ≤ 1 := by
    intro a b ha hb
    rw [resetGridV3_cells rand _ _ _ a b ha hb]
    omega
  refine ⟨⟨hreset, ?_⟩, ⟨hreset3, ?_⟩, ?_⟩
  · intro a b ha hb
    have := hreset a b ha hb
    unfold NB_COLORS; omega
  · intro a b ha hb
    have := hreset3 a b ha hb
    unfold NB_COLORS; omega
  · intro hinv
    obtain ⟨w1, h1, _, _, _, _, h6⟩ := oneGeneration_statesInRange fb w hrule hinv
    refine ⟨⟨w1, h1, h6⟩, ?_, updateCellV3_statesInRange fb _ _ _ _ _ i j hrule hi hj hinv,
      runEvents_statesInRange fb evs w hrule hinv⟩
    intro hT hTR hR
    rw [generationVI_eq_oneGeneration fb num_threads w hrule hT hTR hR]
    exact ⟨w1, h1, h6⟩

theorem grid_states_invariant_witness :
    (∃ w1, oneGeneration .FRAME_DEAD ⟨6, 7, CORAL_GROWTH_RULE, 1, fun _ _ => 5, fun _ _ => 9⟩
        = .ok w1 ∧ statesInRange 6 7 w1.currentGrid)
    ∧ (0 < 4 → 4 ≤ 6 → 6 < UINT_RANGE →
        ∃ w1, generationVI .FRAME_DEAD 4 ⟨6, 7, CORAL_GROWTH_RULE, 1, fun _ _ => 5, fun _ _ => 9⟩
          = .ok w1 ∧ statesInRange 6 7 w1.currentGrid)
    ∧ (∃ g1, updateCellV3 .FRAME_DEAD 6 7 CORAL_GROWTH_RULE 1 (fun _ _ => 5) 2 3 = .ok g1
        ∧ statesInRange 6 7 g1)
    ∧ (∃ w1, runEvents .FRAME_DEAD [.generation, .keyColor, .generation]
          ⟨6, 7, CORAL_GROWTH_RULE, 1, fun _ _ => 5, fun _ _ => 9⟩ = .ok w1
        ∧ statesInRange 6 7 w1.currentGrid) :=
  (grid_states_invariant .FRAME_DEAD ⟨6, 7, CORAL_GROWTH_RULE, 1, fun _ _ => 5, fun _ _ => 9⟩
    (fun k => k) [.generation, .keyColor, .generation] 4 2 3
    (by decide) (by decide) (by decide)).2.2 (fun _ _ _ _ => show 5 < NB_COLORS by decide)

/-! ## The argument check of `main` (C8) and the exit statuses (C9) -/

theorem toUnsigned_of_nonneg (x : Int) (h0 : 0 ≤ x) (h1 : x < 2147483648) :
    ((toUnsigned x : Nat) : Int) = x := by
  unfold toUnsigned UINT_RANGE
  omega

/-- For arguments that `atoi` returns as non-negative values the check of Version1
and Version2 rejects exactly when `num_cols ≤ 5`, `num_rows ≤ 5`, `num_threads ≤ 0`
or `num_threads > num_rows`, and the check of Version3 exactly when one of the first
three holds. -/
theorem mainCheckArgs_nonneg (a1 a2 a3 : Int)
    (h1 : 0 ≤ a1 ∧ a1 < 2147483648) (h2 : 0 ≤ a2 ∧ a2 < 2147483648)
    (h3 : 0 ≤ a3 ∧ a3 < 2147483648) :
    (mainCheckArgs a1 a2 a3 = .error 1 ↔ (a1 ≤ 5 ∨ a2 ≤ 5 ∨ a3 ≤ 0 ∨ a3 > a2))
    ∧ (mainCheckArgsV3 a1 a2 a3 = .error 1 ↔ (a1 ≤ 5 ∨ a2 ≤ 5 ∨ a3 ≤ 0)) := by
  have e1 := toUnsigned_of_nonneg a1 h1.1 h1.2
  have e2 := toUnsigned_of_nonneg a2 h2.1 h2.2
  have e3 := toUnsigned_of_nonneg a3 h3.1 h3.2
  constructor
  · simp only [mainCheckArgs]
    split_ifs with hc
    · simp only [true_iff]; omega
    · simp only [reduceCtorEq, false_iff]; omega
  · simp only [mainCheckArgsV3]
    split_ifs with hc
    · simp only [true_iff]; omega
    · simp only [reduceCtorEq, false_iff]; omega

/-- C8 (evaluation at the failing input): for the `atoi` values (-1, 10, 3) the
condition of the claim holds (`num_cols = -1 ≤ 5`), yet the check of Version1 and
Version2 accepts the invocation with `num_cols = 4294967295`; likewise Version3
accepts (-1, 10, -1) with 4294967295 columns and 4294967295 threads. -/
theorem mainCheckArgs_accepts_negative :
    ((-1 : Int) ≤ 5 ∨ (10 : Int) ≤ 5 ∨ (3 : Int) ≤ 0 ∨ (3 : Int) > 10)
    ∧ mainCheckArgs (-1) 10 3 = .ok (4294967295, 10, 3)
    ∧ ((-1 : Int) ≤ 5 ∨ (10 : Int) ≤ 5 ∨ (-1 : Int) ≤ 0)
    ∧ mainCheckArgsV3 (-1) 10 (-1) = .ok (4294967295, 10, 4294967295) := by
  refine ⟨by decide, by rfl, by decide, by rfl⟩

theorem mainCheckArgs_status (a1 a2 a3 : Int) (e : Nat) :
    (mainCheckArgs a1 a2 a3 = .error e → e = 1)
    ∧ (mainCheckArgsV3 a1 a2 a3 = .error e → e = 1) := by
  constructor
  · intro h
    simp only [mainCheckArgs] at h
    split_ifs at h
    · simpa using h.symm
  · intro h
    simp only [mainCheckArgsV3] at h
    split_ifs at h
    · simpa using h.symm

/-- C9: for every rule id outside {1,2,3,4} and every cell, `cellNewState` returns
no state: it ends the process with exit status 5, which is non-zero and differs
from the status 1 with which `main` rejects its arguments; for every rule id in
{1,2,3,4} it returns a state. -/
theorem cellNewState_exit_status (fb : FrameBehavior) (num_rows num_cols rule : Nat)
    (g : Grid) (i j : Nat) :
    (¬ validRule rule →
        cellNewState fb num_rows num_cols rule g i j = .error 5
        ∧ (5 : Nat) ≠ 0
        ∧ (∀ (a1 a2 a3 : Int) (e : Nat), mainCheckArgs a1 a2 a3 = .error e → e = 1 ∧ e ≠ 5)
        ∧ (∀ (a1 a2 a3 : Int) (e : Nat), mainCheckArgsV3 a1 a2 a3 = .error e → e = 1 ∧ e ≠ 5))
    ∧ (validRule rule → ∃ n, cellNewState fb num_rows num_cols rule g i j = .ok n) := by
  constructor
  · intro hv
    have hv2 := hv
    unfold validRule at hv2
    push_neg at hv2
    obtain ⟨h1, h2, h3, h4⟩ := hv2
    refine ⟨by simp [cellNewState, applyRule, h1, h2, h3, h4], by decide, ?_, ?_⟩
    · intro a1 a2 a3 e he
      have := (mainCheckArgs_status a1 a2 a3 e).1 he
      omega
    · intro a1 a2 a3 e he
      have := (mainCheckArgs_status a1 a2 a3 e).2 he
      omega
  · intro hv
    exact ⟨_, (cellNewState_ok fb num_rows num_cols rule g i j hv).1⟩

theorem cellNewState_exit_status_witness :
    cellNewState .FRAME_DEAD 6 7 0 (fun _ _ => 1) 2 3 = .error 5
    ∧ (∃ n, cellNewState .FRAME_DEAD 6 7 MAZE_RULE (fun _ _ => 1) 2 3 = .ok n) :=
  ⟨((cellNewState_exit_status .FRAME_DEAD 6 7 0 (fun _ _ => 1) 2 3).1 (by decide)).1,
   (cellNewState_exit_status .FRAME_DEAD 6 7 MAZE_RULE (fun _ _ => 1) 2 3).2 (by decide)⟩

/-! ## The blinker (C10) -/

theorem lifeStep_horizontal (r c i j : Nat) (hr : 2 ≤ r) (hc : 2 ≤ c) (hi : 0 < i)
    (hj : 0 < j) :
    lifeStep (horizontalBlinker r c) i j = if verticalBlinker r c i j then 1 else 0 := by
  unfold lifeStep horizontalBlinker verticalBlinker
  simp only
  have hrow : i + 1 < r ∨ i + 1 = r ∨ i = r ∨ i = r + 1 ∨ r + 1 < i := by omega
  have hcol : j + 2 < c ∨ j + 2 = c ∨ j + 1 = c ∨ j = c ∨ j = c + 1 ∨ j = c + 2 ∨ c + 2 < j := by
    omega
  rcases hrow with h | h | h | h | h <;> rcases hcol with k | k | k | k | k | k | k <;>
    simp (disch := omega) only [if_pos, if_neg]

theorem lifeStep_vertical (r c i j : Nat) (hr : 2 ≤ r) (hc : 2 ≤ c) (hi : 0 < i)
    (hj : 0 < j) :
    lifeStep (verticalBlinker r c) i j = if horizontalBlinker r c i j then 1 else 0 := by
  unfold lifeStep horizontalBlinker verticalBlinker
  simp only
  have hcol : j + 1 < c ∨ j + 1 = c ∨ j = c ∨ j = c + 1 ∨ c + 1 < j := by omega
  have hrow : i + 2 < r ∨ i + 2 = r ∨ i + 1 = r ∨ i = r ∨ i = r + 1 ∨ i = r + 2 ∨ r + 2 < i := by
    omega
  rcases hrow with h | h | h | h | h | h | h <;> rcases hcol with k | k | k | k | k <;>
    simp (disch := omega) only [if_pos, if_neg]

theorem nextValue_gol_off (fb : FrameBehavior) (nr nc : Nat) (g : Grid) (i j : Nat) :
    nextValue fb nr nc GAME_OF_LIFE_RULE 0 g i j =
      if g i j ≠ 0 then
        (if neighbourCount fb nr nc g i j = 3 ∨ neighbourCount fb nr nc g i j = 2 then 1 else 0)
      else (if neighbourCount fb nr nc g i j = 3 then 1 else 0) := by
  simp only [nextValue, storedState, newStateOf, cellNewState, applyRule, true_or, if_true]

theorem alive_of_pattern (nr nc : Nat) (g : Grid) (P : Nat → Nat → Prop)
    [∀ a b, Decidable (P a b)]
    (H : ∀ a b, a < nr → b < nc → (g a b ≠ 0 ↔ P a b)) (a b : Nat) (ha : a < nr) (hb : b < nc) :
    alive (g a b) = if P a b then 1 else 0 := by
  unfold alive
  by_cases hp : P a b
  · simp only [(H a b ha hb).2 hp, hp, if_true, ne_eq, not_false_eq_true]
  · have : ¬ (g a b ≠ 0) := fun h => hp ((H a b ha hb).1 h)
    simp only [this, hp, if_false]

theorem wrappedCount_le_one (nr nc : Nat) (g : Grid) (i j : Nat) :
    wrappedCount nr nc g i j = 0 ∨ wrappedCount nr nc g i j = 1 := by
  have key : ∀ a b : Nat, ((cne a b : Nat) : Int) = 0 ∨ ((cne a b : Nat) : Int) = 1 := by
    intro a b
    unfold cne
    split_ifs
    · right; rfl
    · left; rfl
  exact key _ _

/-- One Game of Life generation in black-and-white mode, under the Dead or the
Wrapped border branch, on a grid whose live cells are the set `P`, none of them on
the border. -/
theorem gol_step_pattern (fb : FrameBehavior)
    (hfb : fb = .FRAME_DEAD ∨ fb = .FRAME_WRAPPED) (nr nc : Nat)
    (hnr : nr < UINT_RANGE) (hnc : nc < UINT_RANGE) (g : Grid)
    (P : Nat → Nat → Prop) [∀ a b, Decidable (P a b)]
    (H : ∀ a b, a < nr → b < nc → (g a b ≠ 0 ↔ P a b))
    (hPb : ∀ a b, a < nr → b < nc → ¬ awayFromBorder nr nc a b → ¬ P a b)
    (i j : Nat) (hi : i < nr) (hj : j < nc) :
    nextValue fb nr nc GAME_OF_LIFE_RULE 0 g i j
      = if awayFromBorder nr nc i j then lifeStep P i j else 0 := by
  rw [nextValue_gol_off]
  by_cases hab : awayFromBorder nr nc i j
  · have hb : 0 < i ∧ i + 1 < nr ∧ 0 < j ∧ j + 1 < nc := by
      unfold awayFromBorder usub UINT_RANGE at *; omega
    have hal := alive_of_pattern nr nc g P H
    have hself : (g i j ≠ 0) = P i j := propext (H i j hi hj)
    simp only [neighbourCount, hab, if_true]
    rw [interiorCount_eq_sum nr nc g i j hab]
    rw [hal (i - 1) (j - 1) (by omega) (by omega), hal (i - 1) j (by omega) hj,
      hal (i - 1) (j + 1) (by omega) (by omega), hal i (j - 1) hi (by omega),
      hal i (j + 1) hi (by omega), hal (i + 1) (j - 1) (by omega) (by omega),
      hal (i + 1) j (by omega) hj, hal (i + 1) (j + 1) (by omega) (by omega)]
    simp only [lifeStep, hself]
  · have hdead : ¬ (g i j ≠ 0) := fun h => hPb i j hi hj hab ((H i j hi hj).1 h)
    simp only [hdead, hab, if_false]
    rcases hfb with hfb | hfb <;> subst hfb
    · simp only [neighbourCount, hab, if_false]
      rfl
    · simp only [neighbourCount, hab, if_false]
      rcases wrappedCount_le_one nr nc g i j with h | h <;> rw [h] <;> rfl

theorem pattern_step (fb : FrameBehavior)
    (hfb : fb = .FRAME_DEAD ∨ fb = .FRAME_WRAPPED) (nr nc : Nat)
    (hnr : nr < UINT_RANGE) (hnc : nc < UINT_RANGE) (g : Grid)
    (P Q : Nat → Nat → Prop) [∀ a b, Decidable (P a b)] [∀ a b, Decidable (Q a b)]
    (H : ∀ a b, a < nr → b < nc → (g a b ≠ 0 ↔ P a b))
    (hPb : ∀ a b, a < nr → b < nc → ¬ awayFromBorder nr nc a b → ¬ P a b)
    (hQb : ∀ a b, a < nr → b < nc → ¬ awayFromBorder nr nc a b → ¬ Q a b)
    (hstep : ∀ a b, 0 < a → 0 < b → lifeStep P a b = if Q a b then 1 else 0)
    (i j : Nat) (hi : i < nr) (hj : j < nc) :
    nextValue fb nr nc GAME_OF_LIFE_RULE 0 g i j = if Q i j then 1 else 0 := by
  rw [gol_step_pattern fb hfb nr nc hnr hnc g P H hPb i j hi hj]
  by_cases hab : awayFromBorder nr nc i j
  · simp only [hab, if_true]
    exact hstep i j hab.1 hab.2.2.1
  · simp only [hab, if_false, hQb i j hi hj hab]

theorem blinker_inside (nr nc r c : Nat) (hnr : nr < UINT_RANGE) (hnc : nc < UINT_RANGE)
    (hr : 2 ≤ r ∧ r ≤ nr - 3) (hc : 2 ≤ c ∧ c ≤ nc - 3) (h5r : 5 < nr) (h5c : 5 < nc)
    (a b : Nat) (hab : ¬ awayFromBorder nr nc a b) :
    ¬ horizontalBlinker r c a b ∧ ¬ verticalBlinker r c a b := by
  unfold awayFromBorder usub UINT_RANGE horizontalBlinker verticalBlinker at *
  omega

/-- Two Game of Life generations in black-and-white mode from a grid whose live
cells are the horizontal blinker at (r, c). -/
theorem blinker_generations (fb : FrameBehavior) (w : Globals) (r c : Nat)
    (hfb : fb = .FRAME_DEAD ∨ fb = .FRAME_WRAPPED)
    (hnr : 5 < w.num_rows ∧ w.num_rows < UINT_RANGE)
    (hnc : 5 < w.num_cols ∧ w.num_cols < UINT_RANGE)
    (hr : 2 ≤ r ∧ r ≤ w.num_rows - 3) (hc : 2 ≤ c ∧ c ≤ w.num_cols - 3)
    (hrule : w.rule = GAME_OF_LIFE_RULE) (hcm : w.colorMode = 0)
    (hlive : ∀ i j, i < w.num_rows → j < w.num_cols →
      (w.currentGrid i j ≠ 0 ↔ horizontalBlinker r c i j)) :
    ∃ w1 w2, oneGeneration fb w = .ok w1 ∧ oneGeneration fb w1 = .ok w2
      ∧ (∀ i j, i < w.num_rows → j < w.num_cols →
          w1.currentGrid i j = if verticalBlinker r c i j then 1 else 0)
      ∧ (∀ i j, i < w.num_rows → j < w.num_cols →
          w2.currentGrid i j = if horizontalBlinker r c i j then 1 else 0) := by
  cases w with
  | mk nr nc rl cm cur nxt =>
  simp only at hnr hnc hr hc hrule hcm hlive
  subst hrule hcm
  have hvalid : validRule GAME_OF_LIFE_RULE := Or.inl rfl
  have hin : ∀ a b, a < nr → b < nc → ¬ awayFromBorder nr nc a b →
      ¬ horizontalBlinker r c a b ∧ ¬ verticalBlinker r c a b :=
    fun a b _ _ hab => blinker_inside nr nc r c hnr.2 hnc.2 hr hc hnr.1 hnc.1 a b hab
  have h1 : ∀ i j, i < nr → j < nc →
      rowsWritten fb ⟨nr, nc, GAME_OF_LIFE_RULE, 0, cur, nxt⟩ 0 nr i j
        = if verticalBlinker r c i j then 1 else 0 := by
    intro i j hi hj
    have hrange : (0 ≤ i ∧ i < nr) ∧ j < nc := ⟨⟨Nat.zero_le _, hi⟩, hj⟩
    simp only [rowsWritten, hrange, and_self, if_true]
    exact pattern_step fb hfb nr nc hnr.2 hnc.2 cur (horizontalBlinker r c)
      (verticalBlinker r c) hlive (fun a b ha hb hab => (hin a b ha hb hab).1)
      (fun a b ha hb hab => (hin a b ha hb hab).2)
      (fun a b ha hb => lifeStep_horizontal r c a b hr.1 hc.1 ha hb) i j hi hj
  have hlive1 : ∀ i j, i < nr → j < nc →
      (rowsWritten fb ⟨nr, nc, GAME_OF_LIFE_RULE, 0, cur, nxt⟩ 0 nr i j ≠ 0
        ↔ verticalBlinker r c i j) := by
    intro i j hi hj
    rw [h1 i j hi hj]
    split_ifs with hv
    · simp only [ne_eq, one_ne_zero, not_false_eq_true, hv]
    · simp only [ne_eq, not_true_eq_false, hv]
  refine ⟨_, _, oneGeneration_ok fb _ hvalid, oneGeneration_ok fb _ hvalid, h1, ?_⟩
  intro i j hi hj
  have hrange : (0 ≤ i ∧ i < nr) ∧ j < nc := ⟨⟨Nat.zero_le _, hi⟩, hj⟩
  simp only [rowsWritten, hrange, and_self, if_true]
  exact pattern_step fb hfb nr nc hnr.2 hnc.2 _ (verticalBlinker r c)
    (horizontalBlinker r c) hlive1 (fun a b ha hb hab => (hin a b ha hb hab).2)
    (fun a b ha hb hab => (hin a b ha hb hab).1)
    (fun a b ha hb => lifeStep_vertical r c a b hr.1 hc.1 ha hb) i j hi hj

/-- C10 (as amended): for a grid with `num_rows > 5` and `num_cols > 5` whose only
live cells are the horizontal blinker (r,c-1), (r,c), (r,c+1), `2 ≤ r ≤ num_rows-3`,
`2 ≤ c ≤ num_cols-3`, under the GameOfLife rule with colour mode off and the Dead or
the Wrapped border branch, one generation yields exactly the vertical blinker
(r-1,c), (r,c), (r+1,c) and two generations yield the horizontal blinker again, every
live cell in state 1: the live cells are those of the original grid, and the grid is
the original grid whenever its live cells had state 1. -/
theorem blinker_period_two (fb : FrameBehavior) (w : Globals) (r c : Nat)
    (hfb : fb = .FRAME_DEAD ∨ fb = .FRAME_WRAPPED)
    (hnr : 5 < w.num_rows ∧ w.num_rows < UINT_RANGE)
    (hnc : 5 < w.num_cols ∧ w.num_cols < UINT_RANGE)
    (hr : 2 ≤ r ∧ r ≤ w.num_rows - 3) (hc : 2 ≤ c ∧ c ≤ w.num_cols - 3)
    (hrule : w.rule = GAME_OF_LIFE_RULE) (hcm : w.colorMode = 0)
    (hlive : ∀ i j, i < w.num_rows → j < w.num_cols →
      (w.currentGrid i j ≠ 0 ↔ horizontalBlinker r c i j)) :
    ∃ w1 w2, oneGeneration fb w = .ok w1 ∧ oneGeneration fb w1 = .ok w2
      ∧ (∀ i j, i < w.num_rows → j < w.num_cols →
          w1.currentGrid i j = if verticalBlinker r c i j then 1 else 0)
      ∧ (∀ i j, i < w.num_rows → j < w.num_cols →
          w2.currentGrid i j = if horizontalBlinker r c i j then 1 else 0)
      ∧ (∀ i j, i < w.num_rows → j < w.num_cols →
          (w2.currentGrid i j ≠ 0 ↔ w.currentGrid i j ≠ 0))
      ∧ ((∀ i j, i < w.num_rows → j < w.num_cols → w.currentGrid i j ≤ 1) →
          ∀ i j, i < w.num_rows → j < w.num_cols → w2.currentGrid i j = w.currentGrid i j) := by
  obtain ⟨w1, w2, h1, h2, h3, h4⟩ :=
    blinker_generations fb w r c hfb hnr hnc hr hc hrule hcm hlive
  refine ⟨w1, w2, h1, h2, h3, h4, ?_, ?_⟩
  · intro i j hi hj
    rw [h4 i j hi hj, hlive i j hi hj]
    split_ifs with hb
    · simp only [ne_eq, one_ne_zero, not_false_eq_true, hb]
    · simp only [ne_eq, not_true_eq_false, hb]
  · intro hle i j hi hj
    rw [h4 i j hi hj]
    have hl := hlive i j hi hj
    have := hle i j hi hj
    split_ifs with hb
    · have : w.currentGrid i j ≠ 0 := hl.2 hb
      omega
    · have : ¬ (w.currentGrid i j ≠ 0) := fun h => hb (hl.1 h)
      omega

theorem agedBlinker_live (i j : Nat) :
    agedBlinker i j ≠ 0 ↔ horizontalBlinker 2 2 i j := by
  unfold agedBlinker horizontalBlinker
  split_ifs <;> omega

theorem blinker_period_two_witness :
    ∃ w1 w2, oneGeneration .FRAME_WRAPPED
        ⟨7, 8, GAME_OF_LIFE_RULE, 0, fun i j => if i = 3 ∧ (j = 2 ∨ j = 3 ∨ j = 4) then 1 else 0,
          fun _ _ => 0⟩ = .ok w1
      ∧ oneGeneration .FRAME_WRAPPED w1 = .ok w2
      ∧ (∀ i j, i < 7 → j < 8 → w1.currentGrid i j = if verticalBlinker 3 3 i j then 1 else 0)
      ∧ (∀ i j, i < 7 → j < 8 → w2.currentGrid i j = if horizontalBlinker 3 3 i j then 1 else 0)
      ∧ (∀ i j, i < 7 → j < 8 →
          (w2.currentGrid i j ≠ 0
            ↔ (fun i j => if i = 3 ∧ (j = 2 ∨ j = 3 ∨ j = 4) then 1 else 0 : Grid) i j ≠ 0))
      ∧ ((∀ i j, i < 7 → j < 8 →
            (fun i j => if i = 3 ∧ (j = 2 ∨ j = 3 ∨ j = 4) then 1 else 0 : Grid) i j ≤ 1) →
          ∀ i j, i < 7 → j < 8 → w2.currentGrid i j
            = (fun i j => if i = 3 ∧ (j = 2 ∨ j = 3 ∨ j = 4) then 1 else 0 : Grid) i j) :=
  blinker_period_two .FRAME_WRAPPED
    ⟨7, 8, GAME_OF_LIFE_RULE, 0, fun i j => if i = 3 ∧ (j = 2 ∨ j = 3 ∨ j = 4) then 1 else 0,
      fun _ _ => 0⟩ 3 3 (Or.inr rfl) (by decide) (by decide) (by decide) (by decide) rfl rfl
    (by
      intro i j _ _
      simp only [horizontalBlinker]
      split_ifs <;> omega)

/-- C10 (counterexample to the claim as stated): on the 6 x 6 grid `agedBlinker`, whose
only live cells are the horizontal blinker (2,1), (2,2), (2,3) with states 1, 2, 1,
under GameOfLife with colour mode off and the Dead border, two generations store
the state 1 at (2,2), where the original grid has the state 2: the grid after two
generations is not the original grid.  The grid `agedBlinker` is the one that the
vertical blinker of states 1 becomes after one generation in colour mode. -/
theorem blinker_aged_not_restored :
    (∀ i j, i < 6 → j < 6 → (agedBlinker i j ≠ 0 ↔ horizontalBlinker 2 2 i j))
    ∧ (∃ w1 w2,
        oneGeneration .FRAME_DEAD ⟨6, 6, GAME_OF_LIFE_RULE, 0, agedBlinker, fun _ _ => 0⟩ = .ok w1
        ∧ oneGeneration .FRAME_DEAD w1 = .ok w2
        ∧ w2.currentGrid 2 2 = 1 ∧ agedBlinker 2 2 = 2
        ∧ w2.currentGrid 2 2 ≠ agedBlinker 2 2)
    ∧ (∃ w0, runEvents .FRAME_DEAD [.keyColor, .generation, .keyColor]
          ⟨6, 6, GAME_OF_LIFE_RULE, 0, youngVertical, fun _ _ => 0⟩ = .ok w0
        ∧ w0.colorMode = 0 ∧ w0.rule = GAME_OF_LIFE_RULE
        ∧ ∀ i, i < 6 → ∀ j, j < 6 → w0.currentGrid i j = agedBlinker i j) := by
  refine ⟨fun i j _ _ => agedBlinker_live i j, ?_, ?_⟩
  · obtain ⟨w1, w2, h1, h2, _, h4⟩ :=
      blinker_generations .FRAME_DEAD ⟨6, 6, GAME_OF_LIFE_RULE, 0, agedBlinker, fun _ _ => 0⟩ 2 2
        (Or.inl rfl) (by decide) (by decide) (by decide) (by decide) rfl rfl
        (fun i j _ _ => agedBlinker_live i j)
    have h5 : w2.currentGrid 2 2 = 1 := by
      rw [h4 2 2 (by decide) (by decide)]
      decide
    refine ⟨w1, w2, h1, h2, h5, rfl, ?_⟩
    rw [h5]
    decide
  · refine ⟨_, rfl, rfl, rfl, ?_⟩
    decide

/-! ## The Wrapped border (C11) -/

/-- C11 (evaluation at the failing input): on the 6 x 6 grid `cornerGrid` the border
cell (0,0) has three non-zero toroidal neighbours, but the count of the Wrapped
branch is 1 (the value of the chain of `!=` comparisons), so that `cellNewState`
under GameOfLife returns 0 for a dead cell with three live neighbours. -/
theorem wrapped_count_is_not_the_sum :
    ¬ awayFromBorder 6 6 0 0
    ∧ liveToroidalNeighbours 6 6 cornerGrid 0 0 = 3
    ∧ neighbourCount .FRAME_WRAPPED 6 6 cornerGrid 0 0 = 1
    ∧ cornerGrid 0 0 = 0
    ∧ cellNewState .FRAME_WRAPPED 6 6 GAME_OF_LIFE_RULE cornerGrid 0 0 = .ok 0 := by
  refine ⟨by decide, by decide, by decide, by decide, by rfl⟩

/-! ## The Clipped border (C12) -/

theorem inc_ite (c : Prop) [Decidable c] (x : Int) :
    (if c then x + 1 else x) = x + (if c then 1 else 0) := by
  split_ifs <;> simp

theorem clippedTrace_fst (num_rows num_cols : Nat) (g : Grid) (i j : Nat) :
    (clippedTrace num_rows num_cols g i j).1 = clippedCount num_rows num_cols g i j := by
  by_cases h1 : 0 < i <;> by_cases h2 : 0 < j <;> by_cases h3 : j < usub num_cols 1 <;>
    by_cases h4 : i < usub num_rows 1 <;>
    simp [clippedTrace, clippedRow, clippedStmt, clippedCount, h1, h2, h3, h4]

theorem clippedTrace_reads (num_rows num_cols : Nat) (g : Grid) (i j : Nat)
    (hr : num_rows < UINT_RANGE) (hc : num_cols < UINT_RANGE)
    (hi : i < num_rows) (hj : j < num_cols) (p : Nat × Nat)
    (hp : p ∈ (clippedTrace num_rows num_cols g i j).2) :
    (p.1 < num_rows ∧ p.2 < num_cols)
    ∧ (p.1 + 1 = i ∨ p.1 = i ∨ p.1 = i + 1) ∧ (p.2 + 1 = j ∨ p.2 = j ∨ p.2 = j + 1)
    ∧ p ≠ (i, j) := by
  have e1 : 0 < i → usub i 1 = i - 1 := by intro h; unfold usub UINT_RANGE at *; omega
  have e2 : 0 < j → usub j 1 = j - 1 := by intro h; unfold usub UINT_RANGE at *; omega
  have e3 : usub num_rows 1 = num_rows - 1 := by unfold usub UINT_RANGE at *; omega
  have e4 : usub num_cols 1 = num_cols - 1 := by unfold usub UINT_RANGE at *; omega
  have e5 : uadd i 1 = i + 1 := by unfold uadd UINT_RANGE at *; omega
  have e6 : uadd j 1 = j + 1 := by unfold uadd UINT_RANGE at *; omega
  obtain ⟨a, b⟩ := p
  simp only [clippedTrace, clippedRow, clippedStmt, e3, e4, e5, e6] at hp
  by_cases h1 : 0 < i <;> by_cases h2 : 0 < j <;> by_cases h3 : j < num_cols - 1 <;>
    by_cases h4 : i < num_rows - 1 <;>
    simp [h1, h2, h3, h4] at hp <;>
    (try rw [e1 h1] at hp) <;> (try rw [e2 h2] at hp) <;>
    simp only [Prod.mk.injEq, ne_eq] <;> omega

theorem axis_minus (n k : Nat) (hk : k < n) :
    (0 ≤ (k : Int) + -1 ∧ (k : Int) + -1 < (n : Int)) ↔ 0 < k := by omega

theorem axis_zero (n k : Nat) (hk : k < n) :
    (0 ≤ (k : Int) + 0 ∧ (k : Int) + 0 < (n : Int)) ↔ True := by
  simp only [iff_true]; omega

theorem axis_plus (n k : Nat) (hk : k < n) :
    (0 ≤ (k : Int) + 1 ∧ (k : Int) + 1 < (n : Int)) ↔ k < n - 1 := by omega

theorem toNat_offsets (k : Nat) :
    ((k : Int) + -1).toNat = k - 1 ∧ ((k : Int) + 0).toNat = k ∧ ((k : Int) + 1).toNat = k + 1 := by
  refine ⟨by omega, by omega, by omega⟩

theorem liveClippedNeighbours_eq_sum (num_rows num_cols : Nat) (g : Grid) (i j : Nat)
    (hi : i < num_rows) (hj : j < num_cols) :
    ((liveClippedNeighbours num_rows num_cols g i j : Nat) : Int) =
      (if (0 < i ∧ 0 < j) ∧ g (i - 1) (j - 1) ≠ 0 then 1 else 0)
      + (if 0 < i ∧ g (i - 1) j ≠ 0 then 1 else 0)
      + (if (0 < i ∧ j < num_cols - 1) ∧ g (i - 1) (j + 1) ≠ 0 then 1 else 0)
      + (if 0 < j ∧ g i (j - 1) ≠ 0 then 1 else 0)
      + (if j < num_cols - 1 ∧ g i (j + 1) ≠ 0 then 1 else 0)
      + (if (i < num_rows - 1 ∧ 0 < j) ∧ g (i + 1) (j - 1) ≠ 0 then 1 else 0)
      + (if i < num_rows - 1 ∧ g (i + 1) j ≠ 0 then 1 else 0)
      + (if (i < num_rows - 1 ∧ j < num_cols - 1) ∧ g (i + 1) (j + 1) ≠ 0 then 1 else 0) := by
  obtain ⟨a1, a2, a3⟩ := toNat_offsets i
  obtain ⟨b1, b2, b3⟩ := toNat_offsets j
  unfold liveClippedNeighbours
  rw [neighbourOffsets_eq, ← List.countP_eq_length_filter]
  simp only [List.countP_cons, List.countP_nil, decide_eq_true_eq, insideGrid,
    axis_minus num_rows i hi, axis_zero num_rows i hi, axis_plus num_rows i hi,
    axis_minus num_cols j hj, axis_zero num_cols j hj, axis_plus num_cols j hj,
    a1, a2, a3, b1, b2, b3, true_and, and_true]
  push_cast
  ring

theorem clippedCount_eq_sum (num_rows num_cols : Nat) (g : Grid) (i j : Nat)
    (hr : num_rows < UINT_RANGE) (hc : num_cols < UINT_RANGE)
    (hi : i < num_rows) (hj : j < num_cols) :
    clippedCount num_rows num_cols g i j =
      (if (0 < i ∧ 0 < j) ∧ g (i - 1) (j - 1) ≠ 0 then 1 else 0)
      + (if 0 < i ∧ g (i - 1) j ≠ 0 then 1 else 0)
      + (if (0 < i ∧ j < num_cols - 1) ∧ g (i - 1) (j + 1) ≠ 0 then 1 else 0)
      + (if 0 < j ∧ g i (j - 1) ≠ 0 then 1 else 0)
      + (if j < num_cols - 1 ∧ g i (j + 1) ≠ 0 then 1 else 0)
      + (if (i < num_rows - 1 ∧ 0 < j) ∧ g (i + 1) (j - 1) ≠ 0 then 1 else 0)
      + (if i < num_rows - 1 ∧ g (i + 1) j ≠ 0 then 1 else 0)
      + (if (i < num_rows - 1 ∧ j < num_cols - 1) ∧ g (i + 1) (j + 1) ≠ 0 then 1 else 0) := by
  have e1 : 0 < i → usub i 1 = i - 1 := by intro h; unfold usub UINT_RANGE at *; omega
  have e2 : 0 < j → usub j 1 = j - 1 := by intro h; unfold usub UINT_RANGE at *; omega
  have e3 : usub num_rows 1 = num_rows - 1 := by unfold usub UINT_RANGE at *; omega
  have e4 : usub num_cols 1 = num_cols - 1 := by unfold usub UINT_RANGE at *; omega
  have e5 : uadd i 1 = i + 1 := by unfold uadd UINT_RANGE at *; omega
  have e6 : uadd j 1 = j + 1 := by unfold uadd UINT_RANGE at *; omega
  simp only [clippedCount, e3, e4, e5, e6]
  by_cases h1 : 0 < i <;> by_cases h2 : 0 < j <;> by_cases h3 : j < num_cols - 1 <;>
    by_cases h4 : i < num_rows - 1 <;>
    simp only [h1, h2, h3, h4, if_true, if_false, true_and, false_and, and_true, and_false,
      and_self, inc_ite, zero_add, add_zero] <;>
    (try rw [e1 h1]) <;> (try rw [e2 h2])

theorem guarded_term (c : Prop) [Decidable c] (x y : Nat) (h : c → x = y) :
    (if c ∧ x ≠ 0 then (1 : Int) else 0) = (if c ∧ y ≠ 0 then 1 else 0) := by
  by_cases hc : c
  · rw [h hc]
  · simp only [hc, false_and, if_false]

/-- C12: in the Clipped border branch, for a grid with `num_rows, num_cols > 5` and a
border cell (i, j), the computed count is the number of non-zero cells among those of
the eight positions (i+di, j+dj) that lie inside the grid; every cell the branch
reads lies inside the grid and is one of the eight neighbours, so that cells outside
the grid contribute nothing. -/
theorem clipped_border_count (num_rows num_cols : Nat) (g : Grid) (i j : Nat)
    (hr : 5 < num_rows ∧ num_rows < UINT_RANGE) (hc : 5 < num_cols ∧ num_cols < UINT_RANGE)
    (hi : i < num_rows) (hj : j < num_cols)
    (hb : i = 0 ∨ i = num_rows - 1 ∨ j = 0 ∨ j = num_cols - 1) :
    neighbourCount .FRAME_CLIPPED num_rows num_cols g i j
      = ((liveClippedNeighbours num_rows num_cols g i j : Nat) : Int)
    ∧ (clippedTrace num_rows num_cols g i j).1
      = neighbourCount .FRAME_CLIPPED num_rows num_cols g i j
    ∧ (∀ p ∈ (clippedTrace num_rows num_cols g i j).2,
        (p.1 < num_rows ∧ p.2 < num_cols)
        ∧ (p.1 + 1 = i ∨ p.1 = i ∨ p.1 = i + 1) ∧ (p.2 + 1 = j ∨ p.2 = j ∨ p.2 = j + 1)
        ∧ p ≠ (i, j))
    ∧ (∀ g2 : Grid, (∀ a b, a < num_rows → b < num_cols → g2 a b = g a b) →
        neighbourCount .FRAME_CLIPPED num_rows num_cols g2 i j
          = neighbourCount .FRAME_CLIPPED num_rows num_cols g i j) := by
  have hnot : ¬ awayFromBorder num_rows num_cols i j :=
    not_awayFromBorder_of_onBorder num_rows num_cols i j hr.2 hc.2
      (by unfold onBorder; omega)
  have hcount : ∀ g1 : Grid, neighbourCount .FRAME_CLIPPED num_rows num_cols g1 i j
      = clippedCount num_rows num_cols g1 i j := by
    intro g1
    simp only [neighbourCount, hnot, if_false]
  refine ⟨?_, ?_, ?_, ?_⟩
  · rw [hcount, clippedCount_eq_sum num_rows num_cols g i j hr.2 hc.2 hi hj,
      liveClippedNeighbours_eq_sum num_rows num_cols g i j hi hj]
  · rw [hcount, clippedTrace_fst]
  · intro p hp
    exact clippedTrace_reads num_rows num_cols g i j hr.2 hc.2 hi hj p hp
  · intro g2 hg
    rw [hcount, hcount, clippedCount_eq_sum num_rows num_cols g2 i j hr.2 hc.2 hi hj,
      clippedCount_eq_sum num_rows num_cols g i j hr.2 hc.2 hi hj]
    rw [guarded_term (0 < i ∧ 0 < j) (g2 (i - 1) (j - 1)) (g (i - 1) (j - 1))
        (fun _ => hg _ _ (by omega) (by omega)),
      guarded_term (0 < i) (g2 (i - 1) j) (g (i - 1) j) (fun _ => hg _ _ (by omega) hj),
      guarded_term (0 < i ∧ j < num_cols - 1) (g2 (i - 1) (j + 1)) (g (i - 1) (j + 1))
        (fun h => hg _ _ (by omega) (by omega)),
      guarded_term (0 < j) (g2 i (j - 1)) (g i (j - 1)) (fun _ => hg _ _ hi (by omega)),
      guarded_term (j < num_cols - 1) (g2 i (j + 1)) (g i (j + 1))
        (fun h => hg _ _ hi (by omega)),
      guarded_term (i < num_rows - 1 ∧ 0 < j) (g2 (i + 1) (j - 1)) (g (i + 1) (j - 1))
        (fun h => hg _ _ (by omega) (by omega)),
      guarded_term (i < num_rows - 1) (g2 (i + 1) j) (g (i + 1) j)
        (fun h => hg _ _ (by omega) hj),
      guarded_term (i < num_rows - 1 ∧ j < num_cols - 1) (g2 (i + 1) (j + 1)) (g (i + 1) (j + 1))
        (fun h => hg _ _ (by omega) (by omega))]

theorem clipped_border_count_witness :
    neighbourCount .FRAME_CLIPPED 6 7 cornerGrid 0 0
      = ((liveClippedNeighbours 6 7 cornerGrid 0 0 : Nat) : Int)
    ∧ (clippedTrace 6 7 cornerGrid 0 0).1 = neighbourCount .FRAME_CLIPPED 6 7 cornerGrid 0 0
    ∧ (∀ p ∈ (clippedTrace 6 7 cornerGrid 0 0).2,
        (p.1 < 6 ∧ p.2 < 7)
        ∧ (p.1 + 1 = 0 ∨ p.1 = 0 ∨ p.1 = 0 + 1) ∧ (p.2 + 1 = 0 ∨ p.2 = 0 ∨ p.2 = 0 + 1)
        ∧ p ≠ (0, 0))
    ∧ (∀ g2 : Grid, (∀ a b, a < 6 → b < 7 → g2 a b = cornerGrid a b) →
        neighbourCount .FRAME_CLIPPED 6 7 g2 0 0
          = neighbourCount .FRAME_CLIPPED 6 7 cornerGrid 0 0) :=
  clipped_border_count 6 7 cornerGrid 0 0 (by decide) (by decide) (by decide) (by decide)
    (by decide)

/-! ## The frame of a worker pass (C13) -/

/-- C13: one pass of a partition worker over its rows `[start_row, end_row)` leaves
every cell of `currentGrid` unchanged, changes `nextGrid` only in the rows
`start_row .. end_row-1`, and every value it writes is computed from `currentGrid`
alone: it is the same whatever `nextGrid` holds, and also after the passes of any
other workers of the same generation, which leave `currentGrid` as it was right
after the previous swap. -/
theorem worker_pass_frame (fb : FrameBehavior) (info : ThreadInfo) (w : Globals)
    (hrule : validRule w.rule) :
    ∃ w1, threadFuncVI fb info w = .ok w1
      ∧ w1.currentGrid = w.currentGrid
      ∧ (∀ a b, ¬ (info.start_row ≤ a ∧ a < info.end_row) → w1.nextGrid a b = w.nextGrid a b)
      ∧ (∀ a b, info.start_row ≤ a → a < info.end_row → b < w.num_cols →
          w1.nextGrid a b
            = nextValue fb w.num_rows w.num_cols w.rule w.colorMode w.currentGrid a b)
      ∧ (∀ nxt2 : Grid, ∃ w2,
          threadFuncVI fb info
            ⟨w.num_rows, w.num_cols, w.rule, w.colorMode, w.currentGrid, nxt2⟩ = .ok w2
          ∧ w2.currentGrid = w.currentGrid
          ∧ ∀ a b, info.start_row ≤ a → a < info.end_row → b < w.num_cols →
              w2.nextGrid a b = w1.nextGrid a b)
      ∧ (∀ others : List ThreadInfo, ∃ w3 w4,
          runWorkers fb others w = .ok w3 ∧ w3.currentGrid = w.currentGrid
          ∧ threadFuncVI fb info w3 = .ok w4 ∧ w4.currentGrid = w.currentGrid
          ∧ ∀ a b, info.start_row ≤ a → a < info.end_row → b < w.num_cols →
              w4.nextGrid a b = w1.nextGrid a b) := by
  cases w with
  | mk nr nc rl cm cur nxt =>
  simp only at hrule
  have hwritten : ∀ (nxt0 : Grid) (a b : Nat), info.start_row ≤ a → a < info.end_row → b < nc →
      rowsWritten fb ⟨nr, nc, rl, cm, cur, nxt0⟩ info.start_row info.end_row a b
        = nextValue fb nr nc rl cm cur a b := by
    intro nxt0 a b h1 h2 h3
    have hin : (info.start_row ≤ a ∧ a < info.end_row) ∧ b < nc := ⟨⟨h1, h2⟩, h3⟩
    simp only [rowsWritten, hin, and_self, if_true]
  refine ⟨_, threadFuncVI_ok fb info _ hrule, rfl, ?_, ?_, ?_, ?_⟩
  · intro a b hnot
    have hout : ¬ ((info.start_row ≤ a ∧ a < info.end_row) ∧ b < nc) := fun h => hnot h.1
    simp only [rowsWritten, hout, if_false]
  · intro a b h1 h2 h3
    exact hwritten nxt a b h1 h2 h3
  · intro nxt2
    refine ⟨_, threadFuncVI_ok fb info _ hrule, rfl, ?_⟩
    intro a b h1 h2 h3
    simp only []
    rw [hwritten nxt2 a b h1 h2 h3, hwritten nxt a b h1 h2 h3]
  · intro others
    obtain ⟨nxt1, hrun, _, _⟩ := runWorkers_ok fb nr nc rl cm cur hrule others nxt
    refine ⟨_, _, hrun, rfl, threadFuncVI_ok fb info _ hrule, rfl, ?_⟩
    intro a b h1 h2 h3
    simp only []
    rw [hwritten nxt1 a b h1 h2 h3, hwritten nxt a b h1 h2 h3]

theorem worker_pass_frame_witness :
    ∃ w1, threadFuncVI .FRAME_DEAD ⟨1, 3, 6⟩ ⟨10, 8, MAZE_RULE, 1, youngVertical, agedBlinker⟩
        = .ok w1
      ∧ w1.currentGrid = youngVertical
      ∧ (∀ a b, ¬ (3 ≤ a ∧ a < 6) → w1.nextGrid a b = agedBlinker a b) :=
  (worker_pass_frame .FRAME_DEAD ⟨1, 3, 6⟩ ⟨10, 8, MAZE_RULE, 1, youngVertical, agedBlinker⟩
    (by decide)).elim (fun w1 h => ⟨w1, h.1, h.2.1, h.2.2.1⟩)

/-! ## `swapGrids` (C19) -/

/-- C19: `swapGrids` exchanges the roles of the two buffers without touching any
cell: afterwards `currentGrid` is the buffer that was `nextGrid` and `nextGrid` the
buffer that was `currentGrid`, the contents of both buffers are unchanged, and two
consecutive calls restore the original state. -/
theorem swapGrids_exchange (m : GridPointers) (num_rows num_cols rule colorMode : Nat) :
    (swapGridsPtr m).currentGrid = m.nextGrid
    ∧ (swapGridsPtr m).nextGrid = m.currentGrid
    ∧ (swapGridsPtr m).buffer = m.buffer
    ∧ swapGridsPtr (swapGridsPtr m) = m
    ∧ (swapGridsPtr m).view num_rows num_cols rule colorMode
        = swapGrids (m.view num_rows num_cols rule colorMode)
    ∧ (∀ w : Globals, (swapGrids w).currentGrid = w.nextGrid
        ∧ (swapGrids w).nextGrid = w.currentGrid
        ∧ swapGrids (swapGrids w) = w) := by
  refine ⟨rfl, rfl, rfl, rfl, rfl, fun w => ⟨rfl, rfl, rfl⟩⟩

/-! ## The delay (C20) -/

theorem faster_bounds (d : Nat) (h10 : 10 ≤ d) (h9 : 9 * d < UINT_RANGE) :
    10 ≤ faster d ∧ faster d ≤ d ∧ (d ≤ 11 → faster d = d)
    ∧ (11 < d → faster d = 9 * d / 10 ∧ faster d < d) := by
  unfold faster umul UINT_RANGE at *
  split_ifs with h
  · rw [Nat.mod_eq_of_lt h9]
    refine ⟨by omega, by omega, by omega, fun _ => ⟨rfl, by omega⟩⟩
  · refine ⟨by omega, by omega, fun _ => rfl, by omega⟩

theorem faster_iterate_bounds (d0 : Nat) (h10 : 10 ≤ d0) (h9 : 9 * d0 < UINT_RANGE) (n : Nat) :
    10 ≤ faster^[n] d0 ∧ faster^[n] d0 ≤ d0 := by
  induction n with
  | zero => exact ⟨h10, le_refl _⟩
  | succ n ih =>
    rw [Function.iterate_succ_apply']
    have h9n : 9 * faster^[n] d0 < UINT_RANGE := by unfold UINT_RANGE at *; omega
    have := faster_bounds (faster^[n] d0) ih.1 h9n
    exact ⟨this.1, by omega⟩

/-- The part of the delay contract that the code meets: for every delay `d ≥ 10` with
`9*d < 2^32`, `faster` leaves a delay of at least 10: it leaves `d` unchanged when
`d ≤ 11` and otherwise sets it to `⌊9*d/10⌋ < d`; `slower` sets the delay to
`⌊11*d/10⌋` whenever the product `11*d` does not wrap (`11*d < 2^32`); and from the
initial delays 5000 (Version2) and 100 (Version3) no sequence of `faster` calls brings
the delay below 10. -/
theorem delay_bounds (d n : Nat) (h10 : 10 ≤ d) (h9 : 9 * d < UINT_RANGE) :
    10 ≤ faster d
    ∧ (d ≤ 11 → faster d = d)
    ∧ (11 < d → faster d = 9 * d / 10 ∧ faster d < d)
    ∧ (11 * d < UINT_RANGE → slower d = 11 * d / 10)
    ∧ 10 ≤ faster^[n] 5000 ∧ 10 ≤ faster^[n] 100 := by
  obtain ⟨h1, _, h3, h4⟩ := faster_bounds d h10 h9
  refine ⟨h1, h3, h4, ?_, ?_, ?_⟩
  · intro h11
    unfold slower umul
    rw [Nat.mod_eq_of_lt h11]
  · exact (faster_iterate_bounds 5000 (by decide) (by decide) n).1
  · exact (faster_iterate_bounds 100 (by decide) (by decide) n).1

theorem delay_bounds_witness :
    10 ≤ faster 12
    ∧ (12 ≤ 11 → faster 12 = 12)
    ∧ (11 < 12 → faster 12 = 9 * 12 / 10 ∧ faster 12 < 12)
    ∧ (11 * 12 < UINT_RANGE → slower 12 = 11 * 12 / 10)
    ∧ 10 ≤ faster^[40] 5000 ∧ 10 ≤ faster^[40] 100 :=
  delay_bounds 12 40 (by decide) (by decide)

set_option maxRecDepth 20000 in
/-- C20 (evaluation at the failing input): the delay 421138854, reached from the
initial 5000 by 119 calls of `slower`, satisfies `d ≥ 10` and `9*d < 2^32`, but the
product `11*d` wraps modulo `2^32` and `slower` sets the delay to 33756009, not to
`⌊11*d/10⌋ = 463252739`. -/
theorem slower_overflow_in_range :
    slower^[119] 5000 = 421138854
    ∧ 10 ≤ 421138854 ∧ 9 * 421138854 < UINT_RANGE
    ∧ slower 421138854 = 33756009
    ∧ 11 * 421138854 / 10 = 463252739
    ∧ slower 421138854 ≠ 11 * 421138854 / 10 := by
  refine ⟨by decide, by decide, by decide, by rfl, by rfl, by decide⟩

/-! ## `getLocks` (C14, C15, C16) -/

theorem lockOffsets_eq :
    lockOffsets
      = [(-1, -1), (-1, 0), (-1, 1), (0, -1), (0, 0), (0, 1), (1, -1), (1, 0), (1, 1)] := by
  decide

theorem getLocks_interior (num_rows num_cols row col : Nat)
    (h : awayFromBorder num_rows num_cols row col) :
    getLocks num_rows num_cols row col
      = [(row - 1, col - 1), (row - 1, col), (row - 1, col + 1),
         (row, col - 1), (row, col), (row, col + 1),
         (row + 1, col - 1), (row + 1, col), (row + 1, col + 1)] := by
  have r1 : uaddInt row (-1) = row - 1 := by
    unfold awayFromBorder usub uaddInt UINT_RANGE at *; omega
  have r2 : uaddInt row 0 = row := by
    unfold awayFromBorder usub uaddInt UINT_RANGE at *; omega
  have r3 : uaddInt row 1 = row + 1 := by
    unfold awayFromBorder usub uaddInt UINT_RANGE at *; omega
  have c1 : uaddInt col (-1) = col - 1 := by
    unfold awayFromBorder usub uaddInt UINT_RANGE at *; omega
  have c2 : uaddInt col 0 = col := by
    unfold awayFromBorder usub uaddInt UINT_RANGE at *; omega
  have c3 : uaddInt col 1 = col + 1 := by
    unfold awayFromBorder usub uaddInt UINT_RANGE at *; omega
  simp only [getLocks, h, if_true, lockOffsets_eq, List.map_cons, List.map_nil, r1, r2, r3,
    c1, c2, c3]

theorem getLocks_border (num_rows num_cols row col : Nat)
    (h : ¬ awayFromBorder num_rows num_cols row col) :
    getLocks num_rows num_cols row col = [(row, col)] := by
  simp only [getLocks, h, if_false]

theorem lockAll_unlocked (tid : Nat) (l : List (Nat × Nat)) (hnd : l.Nodup) :
    ∀ t : LockTable, (∀ p ∈ l, t p.1 p.2 = .unlocked) →
    ∃ t1, lockAll tid l t = some t1 ∧ (∀ p ∈ l, t1 p.1 p.2 = .lockedBy tid)
      ∧ (∀ p, p ∉ l → t1 p.1 p.2 = t p.1 p.2) := by
  induction l with
  | nil =>
    intro t _
    exact ⟨t, rfl, fun p hp => absurd hp (List.not_mem_nil p), fun _ _ => rfl⟩
  | cons q qs ih =>
    intro t hfree
    obtain ⟨hq, hqs⟩ := List.nodup_cons.1 hnd
    have hstep : mutexLock tid t q = some (setMutex t q (.lockedBy tid)) := by
      simp only [mutexLock, hfree q (List.mem_cons_self _ _)]
    have hfree1 : ∀ p ∈ qs, (setMutex t q (.lockedBy tid)) p.1 p.2 = .unlocked := by
      intro p hp
      have hne : ¬ (p.1 = q.1 ∧ p.2 = q.2) := by
        rintro ⟨h1, h2⟩
        exact hq (by rwa [show q = p from Prod.ext h1.symm h2.symm])
      simp only [setMutex, hne, if_false]
      exact hfree p (List.mem_cons_of_mem _ hp)
    obtain ⟨t1, hrun, hin, hout⟩ := ih hqs _ hfree1
    refine ⟨t1, ?_, ?_, ?_⟩
    · simp only [lockAll, hstep, hrun]
    · intro p hp
      rcases List.mem_cons.1 hp with rfl | hp2
      · rw [hout p hq]
        simp only [setMutex, and_self, if_true]
      · exact hin p hp2
    · intro p hp
      have hpq : p ≠ q := fun h => hp (h ▸ List.mem_cons_self _ _)
      have hp2 : p ∉ qs := fun h => hp (List.mem_cons_of_mem _ h)
      rw [hout p hp2]
      have hne : ¬ (p.1 = q.1 ∧ p.2 = q.2) := by
        rintro ⟨h1, h2⟩
        exact hpq (Prod.ext h1 h2)
      simp only [setMutex, hne, if_false]

theorem getLocks_nodup (num_rows num_cols row col : Nat) :
    (getLocks num_rows num_cols row col).Nodup := by
  by_cases h : awayFromBorder num_rows num_cols row col
  · rw [getLocks_interior num_rows num_cols row col h]
    have h1 : 0 < row := h.1
    have h2 : 0 < col := h.2.2.1
    simp only [List.nodup_cons, List.mem_cons, Prod.mk.injEq, List.mem_singleton,
      List.not_mem_nil, List.nodup_nil, not_false_eq_true, and_true, not_or]
    omega
  · rw [getLocks_border num_rows num_cols row col h]
    exact List.nodup_singleton _

theorem mem_getLocks_interior (num_rows num_cols row col : Nat)
    (h : awayFromBorder num_rows num_cols row col) (p : Nat × Nat) :
    p ∈ getLocks num_rows num_cols row col
      ↔ (row ≤ p.1 + 1 ∧ p.1 ≤ row + 1) ∧ (col ≤ p.2 + 1 ∧ p.2 ≤ col + 1) := by
  rw [getLocks_interior num_rows num_cols row col h]
  have h1 : 0 < row := h.1
  have h2 : 0 < col := h.2.2.1
  obtain ⟨a, b⟩ := p
  simp only [List.mem_cons, Prod.mk.injEq, List.mem_singleton, List.not_mem_nil, or_false]
  omega

theorem getLocksRun_holds (tid num_rows num_cols row col : Nat) (t : LockTable)
    (hfree : ∀ p ∈ getLocks num_rows num_cols row col, t p.1 p.2 = .unlocked)
    (hnone : ∀ p, ¬ holdsLock tid t p) :
    ∃ t1, getLocksRun tid num_rows num_cols row col t = some t1
      ∧ ∀ p, holdsLock tid t1 p ↔ p ∈ getLocks num_rows num_cols row col := by
  obtain ⟨t1, hrun, hin, hout⟩ :=
    lockAll_unlocked tid _ (getLocks_nodup num_rows num_cols row col) t hfree
  refine ⟨t1, hrun, ?_⟩
  intro p
  constructor
  · intro hp
    by_contra hmem
    have := hout p hmem
    exact hnone p (by unfold holdsLock at *; rw [← this]; exact hp)
  · intro hp
    exact hin p hp

theorem updateCellV3_ok (fb : FrameBehavior) (num_rows num_cols rule colorMode : Nat)
    (g : Grid) (i j : Nat) (hrule : validRule rule) :
    ∃ g1, updateCellV3 fb num_rows num_cols rule colorMode g i j = .ok g1
      ∧ ∀ a b, ¬ (a = i ∧ b = j) → g1 a b = g a b := by
  obtain ⟨hok, _⟩ := cellNewState_ok fb num_rows num_cols rule g i j hrule
  simp only [updateCellV3, hok]
  split_ifs
  · exact ⟨_, rfl, fun a b hab => by simp only [setCell, hab, if_false]⟩
  · exact ⟨_, rfl, fun a b hab => by simp only [setCell, hab, if_false]⟩
  · exact ⟨_, rfl, fun _ _ _ => rfl⟩

theorem awayFromBorder_iff (num_rows num_cols row col : Nat)
    (hr : 0 < num_rows ∧ num_rows < UINT_RANGE) (hc : 0 < num_cols ∧ num_cols < UINT_RANGE) :
    awayFromBorder num_rows num_cols row col
      ↔ (0 < row ∧ row < num_rows - 1) ∧ (0 < col ∧ col < num_cols - 1) := by
  unfold awayFromBorder usub UINT_RANGE at *; omega

/-- The calls of `getLocks` and their effect on live locks: for a grid with
`num_rows, num_cols > 5` and an in-range cell (row, col), `getLocks(row, col)` calls
`pthread_mutex_lock` on exactly one lock, that of (row, col), when the cell is on the
border, and on exactly the nine locks of the cells (row+i, col+j), i, j in {-1,0,1},
each once, when the cell is interior; every lock it requests lies inside the grid;
and when these locks are unlocked the call returns with exactly these locks held by
the worker. -/
theorem getLocks_requests (tid num_rows num_cols row col : Nat) (t : LockTable)
    (hr : 5 < num_rows ∧ num_rows < UINT_RANGE) (hc : 5 < num_cols ∧ num_cols < UINT_RANGE)
    (hrow : row < num_rows) (hcol : col < num_cols)
    (hfree : ∀ p ∈ getLocks num_rows num_cols row col, t p.1 p.2 = .unlocked)
    (hnone : ∀ p, ¬ holdsLock tid t p) :
    ((row = 0 ∨ row = num_rows - 1 ∨ col = 0 ∨ col = num_cols - 1) →
        getLocks num_rows num_cols row col = [(row, col)])
    ∧ ((0 < row ∧ row < num_rows - 1) ∧ (0 < col ∧ col < num_cols - 1) →
        getLocks num_rows num_cols row col
          = [(row - 1, col - 1), (row - 1, col), (row - 1, col + 1),
             (row, col - 1), (row, col), (row, col + 1),
             (row + 1, col - 1), (row + 1, col), (row + 1, col + 1)]
        ∧ (getLocks num_rows num_cols row col).length = 9)
    ∧ (getLocks num_rows num_cols row col).Nodup
    ∧ (∀ p ∈ getLocks num_rows num_cols row col, p.1 < num_rows ∧ p.2 < num_cols)
    ∧ (∃ t1, getLocksRun tid num_rows num_cols row col t = some t1
        ∧ ∀ p, holdsLock tid t1 p ↔ p ∈ getLocks num_rows num_cols row col) := by
  have hiff := awayFromBorder_iff num_rows num_cols row col ⟨by omega, hr.2⟩ ⟨by omega, hc.2⟩
  refine ⟨?_, ?_, getLocks_nodup _ _ _ _, ?_,
    getLocksRun_holds tid num_rows num_cols row col t hfree hnone⟩
  · intro hb
    exact getLocks_border _ _ _ _ (fun h => by have := hiff.1 h; omega)
  · intro hint
    have h := hiff.2 hint
    rw [getLocks_interior _ _ _ _ h]
    exact ⟨rfl, rfl⟩
  · intro p hp
    by_cases h : awayFromBorder num_rows num_cols row col
    · have h1 := (mem_getLocks_interior _ _ _ _ h p).1 hp
      have h2 := hiff.1 h
      omega
    · rw [getLocks_border _ _ _ _ h] at hp
      rw [List.mem_singleton.1 hp]
      exact ⟨hrow, hcol⟩

theorem getLocks_requests_witness :
    (getLocks 6 7 2 3).Nodup
    ∧ (∀ p ∈ getLocks 6 7 2 3, p.1 < 6 ∧ p.2 < 7)
    ∧ (∃ t1, getLocksRun 0 6 7 2 3 (fun _ _ => .unlocked) = some t1
        ∧ ∀ p, holdsLock 0 t1 p ↔ p ∈ getLocks 6 7 2 3) :=
  (getLocks_requests 0 6 7 2 3 (fun _ _ => .unlocked) (by decide) (by decide) (by decide)
    (by decide) (fun _ _ => rfl) (fun _ h => by simp [holdsLock] at h)).2.2

/-- C15 (as amended): in one iteration of the lock version's worker for an in-range
cell (i, j), whose requested locks are unlocked when `getLocks(i, j)` is called, the
set of locks that the worker holds between `getLocks(i, j)` and `freeLocks(i, j)` is
the set {(r,c) : |r-i| ≤ 1, |c-j| ≤ 1} intersected with the grid bounds when (i, j)
is an interior cell, and is the single lock of (i, j) when (i, j) is on the border. -/
theorem locks_held_during_update (fb : FrameBehavior)
    (num_rows num_cols rule colorMode tid i j : Nat) (grid : Grid) (t : LockTable)
    (hr : 5 < num_rows ∧ num_rows < UINT_RANGE) (hc : 5 < num_cols ∧ num_cols < UINT_RANGE)
    (_hi : i < num_rows) (_hj : j < num_cols) (hrule : validRule rule)
    (hfree : ∀ p ∈ getLocks num_rows num_cols i j, t p.1 p.2 = .unlocked)
    (hnone : ∀ p, ¬ holdsLock tid t p) :
    ∃ res, threadFuncIteration fb num_rows num_cols rule colorMode tid i j grid t
        = some (.ok res)
      ∧ ((0 < i ∧ i < num_rows - 1) ∧ (0 < j ∧ j < num_cols - 1) →
          ∀ p, holdsLock tid res.duringUpdate p ↔ inNeighbourhood num_rows num_cols i j p)
      ∧ ((i = 0 ∨ i = num_rows - 1 ∨ j = 0 ∨ j = num_cols - 1) →
          ∀ p, holdsLock tid res.duringUpdate p ↔ p = (i, j)) := by
  have hiff := awayFromBorder_iff num_rows num_cols i j ⟨by omega, hr.2⟩ ⟨by omega, hc.2⟩
  obtain ⟨t1, hrun, hheld⟩ := getLocksRun_holds tid num_rows num_cols i j t hfree hnone
  obtain ⟨g1, hupd, _⟩ := updateCellV3_ok fb num_rows num_cols rule colorMode grid i j hrule
  refine ⟨⟨t1, g1, freeLocksRun tid num_rows num_cols i j t1⟩, ?_, ?_, ?_⟩
  · simp only [threadFuncIteration, hrun, hupd]
  · intro hint p
    have h := hiff.2 hint
    rw [hheld p, mem_getLocks_interior _ _ _ _ h p]
    unfold inNeighbourhood
    omega
  · intro hb p
    have h : ¬ awayFromBorder num_rows num_cols i j := fun h => by have := hiff.1 h; omega
    rw [hheld p, getLocks_border _ _ _ _ h, List.mem_singleton]

theorem locks_held_during_update_witness :
    ∃ res, threadFuncIteration .FRAME_DEAD 6 7 MAZE_RULE 1 0 2 3 youngVertical
        (fun _ _ => .unlocked) = some (.ok res)
      ∧ ((0 < 2 ∧ 2 < 6 - 1) ∧ (0 < 3 ∧ 3 < 7 - 1) →
          ∀ p, holdsLock 0 res.duringUpdate p ↔ inNeighbourhood 6 7 2 3 p)
      ∧ ((2 = 0 ∨ 2 = 6 - 1 ∨ 3 = 0 ∨ 3 = 7 - 1) →
          ∀ p, holdsLock 0 res.duringUpdate p ↔ p = (2, 3)) :=
  locks_held_during_update .FRAME_DEAD 6 7 MAZE_RULE 1 0 2 3 youngVertical
    (fun _ _ => .unlocked) (by decide) (by decide) (by decide) (by decide) (by decide)
    (fun _ _ => rfl) (fun _ h => by simp [holdsLock] at h)

/-- C15 (counterexample to the claim as stated): on a 6 x 6 grid with every lock
unlocked, the iteration of worker 0 for the border cell (0,0) holds, between
`getLocks(0,0)` and `freeLocks(0,0)`, the lock of (0,0) only: the cell (0,1) lies
in the neighbourhood {(r,c) : |r| ≤ 1, |c| ≤ 1} intersected with the grid, and its
lock is not held. -/
theorem border_update_holds_one_lock :
    ∃ res, threadFuncIteration .FRAME_DEAD 6 6 GAME_OF_LIFE_RULE 0 0 0 0 cornerGrid
        (fun _ _ => .unlocked) = some (.ok res)
      ∧ inNeighbourhood 6 6 0 0 (0, 1)
      ∧ ¬ holdsLock 0 res.duringUpdate (0, 1)
      ∧ holdsLock 0 res.duringUpdate (0, 0) := by
  refine ⟨_, rfl, ?_, ?_, ?_⟩
  · unfold inNeighbourhood; decide
  · unfold holdsLock; decide
  · unfold holdsLock; decide

theorem linearIndex_steps (num_cols row : Nat) (h : 0 < row) :
    (row - 1) * num_cols + num_cols = row * num_cols
    ∧ (row + 1) * num_cols = row * num_cols + num_cols := by
  constructor
  · have : row = (row - 1) + 1 := by omega
    conv_rhs => rw [this, Nat.succ_mul]
  · exact Nat.succ_mul _ _

theorem getLocks_sorted (num_rows num_cols row col : Nat)
    (hc : 3 ≤ num_cols ∧ num_cols < UINT_RANGE) :
    List.Pairwise (fun p q => linearIndex num_cols p < linearIndex num_cols q)
      (getLocks num_rows num_cols row col) := by
  by_cases h : awayFromBorder num_rows num_cols row col
  · rw [getLocks_interior _ _ _ _ h]
    have h1 : 0 < row := h.1
    have h2 : 0 < col := h.2.2.1
    have h3 : col + 1 < num_cols := by
      have := h.2.2.2
      unfold usub UINT_RANGE at *; omega
    obtain ⟨e1, e2⟩ := linearIndex_steps num_cols row h1
    simp only [List.pairwise_cons, List.mem_cons, List.mem_singleton, List.not_mem_nil,
      linearIndex, forall_eq_or_imp, forall_eq, IsEmpty.forall_iff, implies_true,
      List.Pairwise.nil, and_true, or_false]
    omega
  · rw [getLocks_border _ _ _ _ h]
    exact List.pairwise_singleton _ _

theorem acquiredBefore_iff_lt (num_cols : Nat) (l : List (Nat × Nat))
    (hs : List.Pairwise (fun p q => linearIndex num_cols p < linearIndex num_cols q) l)
    (p q : Nat × Nat) (hp : p ∈ l) (hq : q ∈ l) :
    acquiredBefore l p q ↔ linearIndex num_cols p < linearIndex num_cols q := by
  unfold acquiredBefore
  constructor
  · intro hsub
    have := hs.sublist hsub
    simpa using this
  · intro hlt
    induction l with
    | nil => cases hp
    | cons x xs ih =>
      obtain ⟨hx, hxs⟩ := List.pairwise_cons.1 hs
      rcases List.mem_cons.1 hp with rfl | hp2
      · rcases List.mem_cons.1 hq with rfl | hq2
        · omega
        · exact List.Sublist.cons₂ _ (List.singleton_sublist.2 hq2)
      · rcases List.mem_cons.1 hq with rfl | hq2
        · have := hx p hp2
          omega
        · exact List.Sublist.cons _ (ih hxs hp2 hq2)

/-- C16: for a grid with `num_cols ≥ 3` and an interior cell (row, col), the sequence
of locks that `getLocks(row, col)` requests is strictly increasing in the row-major
linear index `r * num_cols + c`; consequently, for any two cells and any two locks
common to their lock sets, both calls request those two locks in the same relative
order. -/
theorem getLocks_ascending (num_rows num_cols row col : Nat)
    (hr : num_rows < UINT_RANGE) (hc : 3 ≤ num_cols ∧ num_cols < UINT_RANGE)
    (hrow : 0 < row ∧ row < num_rows - 1) (hcol : 0 < col ∧ col < num_cols - 1) :
    (getLocks num_rows num_cols row col).length = 9
    ∧ List.Pairwise (fun p q => linearIndex num_cols p < linearIndex num_cols q)
        (getLocks num_rows num_cols row col)
    ∧ (∀ (r1 c1 r2 c2 : Nat) (p q : Nat × Nat),
        p ∈ getLocks num_rows num_cols r1 c1 → q ∈ getLocks num_rows num_cols r1 c1 →
        p ∈ getLocks num_rows num_cols r2 c2 → q ∈ getLocks num_rows num_cols r2 c2 →
        (acquiredBefore (getLocks num_rows num_cols r1 c1) p q
          ↔ acquiredBefore (getLocks num_rows num_cols r2 c2) p q)) := by
  have hab : awayFromBorder num_rows num_cols row col := by
    unfold awayFromBorder usub UINT_RANGE at *; omega
  refine ⟨?_, getLocks_sorted num_rows num_cols row col hc, ?_⟩
  · rw [getLocks_interior _ _ _ _ hab]
    rfl
  · intro r1 c1 r2 c2 p q hp1 hq1 hp2 hq2
    rw [acquiredBefore_iff_lt num_cols _ (getLocks_sorted num_rows num_cols r1 c1 hc) p q hp1 hq1,
      acquiredBefore_iff_lt num_cols _ (getLocks_sorted num_rows num_cols r2 c2 hc) p q hp2 hq2]

theorem getLocks_ascending_witness :
    (getLocks 6 7 2 3).length = 9
    ∧ List.Pairwise (fun p q => linearIndex 7 p < linearIndex 7 q) (getLocks 6 7 2 3)
    ∧ (∀ (r1 c1 r2 c2 : Nat) (p q : Nat × Nat),
        p ∈ getLocks 6 7 r1 c1 → q ∈ getLocks 6 7 r1 c1 →
        p ∈ getLocks 6 7 r2 c2 → q ∈ getLocks 6 7 r2 c2 →
        (acquiredBefore (getLocks 6 7 r1 c1) p q ↔ acquiredBefore (getLocks 6 7 r2 c2) p q)) :=
  getLocks_ascending 6 7 2 3 (by decide) (by decide) (by decide) (by decide)

/-! ## Mutual exclusion in the lock version (C18) -/

set_option maxRecDepth 100000 in
/-- C18 (evaluation at the failing input): on a 6 x 6 grid with two workers, after
`main` has run up to `glutMainLoop()` every cell lock is destroyed; worker 0 then
draws (2,2) and passes `getLocks(2,2)` without holding any lock, worker 1 does the
same, and both workers are between `getLocks(2,2)` and `freeLocks(2,2)` at the same
time, for the same cell. -/
theorem workers_overlap_after_destroy :
    ∃ s, lockRun .FRAME_DEAD 6 6 GAME_OF_LIFE_RULE 0 overlapSchedule
        (lockSystemInit 6 6 2 youngVertical) = some s
      ∧ s.worker 0 = .updating 2 2 ∧ s.worker 1 = .updating 2 2
      ∧ (2, 2) ∈ getLocks 6 6 2 2
      ∧ s.locks 2 2 = .destroyed
      ∧ s.main = [MainAction.mainLoop] := by
  refine ⟨_, rfl, ?_, ?_, ?_, ?_, ?_⟩ <;> decide

/-! ## The barrier invariant (C17) -/

theorem countUpTo_congr (f g : Nat → Bool) (n : Nat) (h : ∀ k, k < n → f k = g k) :
    countUpTo f n = countUpTo g n := by
  induction n with
  | zero => rfl
  | succ n ih =>
    simp only [countUpTo]
    rw [ih (fun k hk => h k (by omega)), h n (by omega)]

theorem countUpTo_le (f : Nat → Bool) (n : Nat) : countUpTo f n ≤ n := by
  induction n with
  | zero => exact le_refl _
  | succ n ih =>
    simp only [countUpTo]
    split_ifs <;> omega

theorem countUpTo_lt (f : Nat → Bool) (n k : Nat) (hk : k < n) (hf : f k = false) :
    countUpTo f n < n := by
  induction n with
  | zero => omega
  | succ n ih =>
    simp only [countUpTo]
    have hle := countUpTo_le f n
    by_cases hkn : k = n
    · subst hkn
      simp only [hf, Bool.false_eq_true, if_false]
      omega
    · have := ih (by omega)
      split_ifs <;> omega

theorem countUpTo_flip (f g : Nat → Bool) (n k : Nat) (hk : k < n)
    (hf : f k = false) (hg : g k = true) (h : ∀ m, m < n → m ≠ k → g m = f m) :
    countUpTo g n = countUpTo f n + 1 := by
  induction n with
  | zero => omega
  | succ n ih =>
    simp only [countUpTo]
    by_cases hkn : k = n
    · subst hkn
      rw [countUpTo_congr g f k (fun m hm => h m (by omega) (by omega))]
      simp only [hf, hg, Bool.false_eq_true, if_false, if_true]
    · rw [ih (by omega) (fun m hm hmk => h m (by omega) hmk), h n (by omega) (Ne.symm hkn)]
      omega

theorem countUpTo_zero (f : Nat → Bool) (n : Nat) (h : ∀ k, k < n → f k = false) :
    countUpTo f n = 0 := by
  induction n with
  | zero => rfl
  | succ n ih =>
    simp only [countUpTo]
    rw [ih (fun k hk => h k (by omega)), h n (by omega)]
    rfl

theorem workerInv_congr (s s1 : BarrierState) (n : Nat)
    (e1 : s1.pc n = s.pc n) (e2 : s1.pass n = s.pass n) (e3 : s1.lock n = s.lock n)
    (h1 : s1.swaps = s.swaps) (e4 : s1.counter_lock = some n ↔ s.counter_lock = some n) :
    workerInv s1 n ↔ workerInv s n := by
  unfold workerInv
  rw [e1, e2, e3, h1]
  cases s.pc n <;> simp only [ne_eq, e4]

theorem workerInv_frame (k : Nat) (s s1 : BarrierState) (h : othersSame k s s1) (n : Nat)
    (hn : n ≠ k) : workerInv s1 n ↔ workerInv s n := by
  obtain ⟨h1, h2⟩ := h
  obtain ⟨e1, e2, e3, e4⟩ := h2 n hn
  exact workerInv_congr s s1 n e1 e2 e3 h1 e4

theorem waitingIn_frame (k : Nat) (s s1 : BarrierState) (h : othersSame k s s1) (gen n : Nat)
    (hn : n ≠ k) : waitingIn s1 gen n ↔ waitingIn s gen n := by
  obtain ⟨h1, h2⟩ := h
  obtain ⟨e1, e2, e3, e4⟩ := h2 n hn
  unfold waitingIn
  rw [e1, e2, e3]
  simp only [ne_eq, e4]

theorem leaderRel_frame (k : Nat) (s s1 : BarrierState) (h : othersSame k s s1) (L j : Nat)
    (hn : L ≠ k) : leaderRel s1 L j ↔ leaderRel s L j := by
  obtain ⟨h1, h2⟩ := h
  obtain ⟨e1, e2, e3, e4⟩ := h2 L hn
  unfold leaderRel
  rw [e1, e2, e3, h1]
  simp only [ne_eq, e4]

theorem counted_frame (k : Nat) (s s1 : BarrierState) (h : othersSame k s s1) (n : Nat)
    (hn : n ≠ k) : counted s1 n = counted s n := by
  obtain ⟨h1, h2⟩ := h
  obtain ⟨e1, e2, e3, _⟩ := h2 n hn
  unfold counted
  rw [e1, e2, e3, h1]


theorem waitingIn_blocked (num_threads k gen : Nat) (s : BarrierState)
    (h : waitingIn s gen k) : barrierStep num_threads k s = none := by
  obtain ⟨h1, h2, _, _⟩ := h
  simp only [barrierStep, h1, h2, Bool.true_eq_false, if_false]

theorem waitingIn_of (s s1 : BarrierState) (n gen gen1 : Nat)
    (w : waitingIn s gen n) (hpc : s1.pc n = s.pc n) (hpass : s1.pass n = s.pass n)
    (hlock : s1.lock n = s.lock n) (hc : s1.counter_lock ≠ some n) (hgen : gen1 = gen) :
    waitingIn s1 gen1 n := by
  obtain ⟨w1, w2, w3, _⟩ := w
  exact ⟨by rw [hpc, w1], by rw [hlock, w2], by rw [hpass, w3, hgen], hc⟩

theorem barrierInv_step_pre (num_threads k L : Nat) (hk : k < num_threads)
    (s s1 : BarrierState) (hg : globalInv num_threads (.pre L) s)
    (ht : ∀ n, n < num_threads → threadInv (.pre L) s n)
    (hstep : barrierStep num_threads k s = some s1) : BarrierInv num_threads s1 := by
  have hkinv := ht k hk
  by_cases hkL : k = L
  · subst hkL
    simp only [threadInv, if_true] at hkinv
    obtain ⟨hpass, hlock, hcase⟩ := hkinv
    have hothers : ∀ n, n < num_threads → n ≠ k → waitingIn s s.swaps n := by
      intro n hn hnk
      have := ht n hn
      simpa only [threadInv, hnk, if_false] using this
    rcases hcase with ⟨hpc, hcl⟩ | ⟨hpc | hpc | hpc, hcl⟩ <;>
      simp only [barrierStep, hpc] at hstep <;>
      have hs := Option.some.inj hstep <;>
      subst hs
    · -- unlockLast
      refine ⟨.pre k, ⟨hk, hg.2⟩, ?_⟩
      intro n hn
      by_cases hnk : n = k
      · subst hnk
        simp only [threadInv, if_true]
        refine ⟨hpass, hlock, Or.inr ⟨Or.inl ?_, rfl⟩⟩
        simp [BarrierState.goto]
      · simp only [threadInv, hnk, if_false]
        exact waitingIn_of s _ n _ _ (hothers n hn hnk) (by simp [BarrierState.goto, hnk])
          rfl rfl (by simp) rfl
    · -- swap1
      refine ⟨.pre k, ⟨hk, hg.2⟩, ?_⟩
      intro n hn
      by_cases hnk : n = k
      · subst hnk
        simp only [threadInv, if_true]
        refine ⟨hpass, hlock, Or.inr ⟨Or.inr (Or.inl ?_), hcl⟩⟩
        simp [BarrierState.goto]
      · simp only [threadInv, hnk, if_false]
        exact waitingIn_of s _ n _ _ (hothers n hn hnk) (by simp [BarrierState.goto, hnk])
          rfl rfl (by simp [BarrierState.goto, hcl]) rfl
    · -- swap2
      refine ⟨.pre k, ⟨hk, hg.2⟩, ?_⟩
      intro n hn
      by_cases hnk : n = k
      · subst hnk
        simp only [threadInv, if_true]
        refine ⟨hpass, hlock, Or.inr ⟨Or.inr (Or.inr ?_), hcl⟩⟩
        simp [BarrierState.goto]
      · simp only [threadInv, hnk, if_false]
        exact waitingIn_of s _ n _ _ (hothers n hn hnk) (by simp [BarrierState.goto, hnk])
          rfl rfl (by simp [BarrierState.goto, hcl]) rfl
    · -- swap3
      refine ⟨.reset k, ⟨hk, hg.2⟩, ?_⟩
      intro n hn
      by_cases hnk : n = k
      · subst hnk
        simp only [threadInv, if_true]
        refine ⟨?_, ?_, hlock, hcl⟩
        · simp [BarrierState.goto]
        · show s.pass n + 1 = s.swaps + 1
          omega
      · simp only [threadInv, hnk, if_false]
        refine ⟨waitingIn_of s _ n _ _ (hothers n hn hnk) (by simp [BarrierState.goto, hnk])
          rfl rfl (by simp [BarrierState.goto, hcl]) ?_, ?_⟩
        · show s.swaps + 1 - 1 = s.swaps
          omega
        · show 0 < s.swaps + 1
          omega
  · have hw : waitingIn s s.swaps k := by
      simpa only [threadInv, hkL, if_false] using hkinv
    rw [waitingIn_blocked num_threads k _ s hw] at hstep
    cases hstep


theorem barrierInv_step_reset (num_threads k L : Nat) (hk : k < num_threads)
    (s s1 : BarrierState) (hg : globalInv num_threads (.reset L) s)
    (ht : ∀ n, n < num_threads → threadInv (.reset L) s n)
    (hstep : barrierStep num_threads k s = some s1) : BarrierInv num_threads s1 := by
  have hkinv := ht k hk
  by_cases hkL : k = L
  · subst hkL
    simp only [threadInv, if_true] at hkinv
    obtain ⟨hpc, hpass, hlock, hcl⟩ := hkinv
    have hothers : ∀ n, n < num_threads → n ≠ k →
        waitingIn s (s.swaps - 1) n ∧ 0 < s.swaps := by
      intro n hn hnk
      have := ht n hn
      simpa only [threadInv, hnk, if_false] using this
    simp only [barrierStep, hpc] at hstep
    have hs := Option.some.inj hstep
    subst hs
    refine ⟨.rel k 0, ⟨by omega, by omega, by omega, ?_⟩, ?_⟩
    · show 0 = countUpTo _ num_threads
      rw [countUpTo_zero]
      intro n hn
      by_cases hnk : n = k
      · subst hnk
        simp [counted, BarrierState.goto]
      · obtain ⟨⟨w1, w2, w3, _⟩, w5⟩ := hothers n hn hnk
        have hne : s.pass n ≠ s.swaps := by omega
        simp [counted, BarrierState.goto, hnk, w1, hne]
    · intro n hn
      by_cases hnk : n = k
      · subst hnk
        simp only [threadInv, if_true]
        refine ⟨Or.inl ⟨?_, rfl⟩, hpass, hlock, ?_⟩
        · simp [BarrierState.goto]
        · simp [BarrierState.goto, hcl]
      · simp only [threadInv, hnk, if_false, Nat.zero_le, if_true]
        obtain ⟨w, w5⟩ := hothers n hn hnk
        exact ⟨waitingIn_of s _ n _ _ w (by simp [BarrierState.goto, hnk]) rfl rfl
          (by simp [BarrierState.goto, hcl]) rfl, w5⟩
  · have hw : waitingIn s (s.swaps - 1) k := by
      have := hkinv
      simp only [threadInv, hkL, if_false] at this
      exact this.1
    rw [waitingIn_blocked num_threads k _ s hw] at hstep
    cases hstep

theorem rel_frame (num_threads L j k : Nat) (s s1 : BarrierState)
    (hsame : othersSame k s s1)
    (ht : ∀ n, n < num_threads → threadInv (.rel L j) s n) :
    ∀ n, n < num_threads → n ≠ k → threadInv (.rel L j) s1 n := by
  intro n hn hnk
  have h := ht n hn
  simp only [threadInv] at h ⊢
  by_cases hnL : n = L
  · subst hnL
    simp only [if_true] at h ⊢
    exact (leaderRel_frame k s s1 hsame n j hnk).2 h
  · simp only [hnL, if_false] at h ⊢
    by_cases hjn : j ≤ n
    · simp only [hjn, if_true] at h ⊢
      rw [hsame.1]
      exact ⟨(waitingIn_frame k s s1 hsame _ n hnk).2 h.1, h.2⟩
    · simp only [hjn, if_false] at h ⊢
      exact (workerInv_frame k s s1 hsame n hnk).2 h

theorem count_frame (num_threads k : Nat) (s s1 : BarrierState)
    (hsame : othersSame k s s1) (hk : counted s1 k = counted s k) :
    countUpTo (counted s1) num_threads = countUpTo (counted s) num_threads := by
  apply countUpTo_congr
  intro n _
  by_cases hnk : n = k
  · subst hnk; exact hk
  · exact counted_frame k s s1 hsame n hnk


theorem barrierInv_step_leader (num_threads k j : Nat) (hT : num_threads < UINT_RANGE)
    (hk : k < num_threads)
    (s s1 : BarrierState) (hg : globalInv num_threads (.rel k j) s)
    (ht : ∀ n, n < num_threads → threadInv (.rel k j) s n)
    (hstep : barrierStep num_threads k s = some s1) : BarrierInv num_threads s1 := by
  have hkinv := ht k hk
  simp only [threadInv, if_true] at hkinv
  obtain ⟨hpc, hpass, hlock, hcl⟩ := hkinv
  obtain ⟨_, hjT, _, hdone⟩ := hg
  have hckf : counted s k = false := by
    rcases hpc with ⟨hpc, _⟩ | hpc <;> simp [counted, hpc]
  rcases hpc with ⟨hpc, hj0⟩ | hpc
  · -- incGeneration
    subst hj0
    simp only [barrierStep, hpc] at hstep
    have hs := Option.some.inj hstep
    subst hs
    have hsame : othersSame k s
        { s.goto k (.release 0) with generation := s.generation + 1 } := by
      refine ⟨rfl, fun n hn => ⟨by simp [BarrierState.goto, hn], rfl, rfl, Iff.rfl⟩⟩
    refine ⟨.rel k 0, ⟨by omega, by omega, by omega, ?_⟩, ?_⟩
    · show s.done = countUpTo _ num_threads
      rw [hdone]
      exact (count_frame num_threads k s _ hsame
        (by rw [hckf]; simp [counted, BarrierState.goto])).symm
    · intro n hn
      by_cases hnk : n = k
      · subst hnk
        simp only [threadInv, if_true]
        exact ⟨Or.inr (by simp [BarrierState.goto]), hpass, hlock, hcl⟩
      · exact rel_frame num_threads k 0 k s _ hsame ht n hn hnk
  · -- release j
    simp only [barrierStep, hpc] at hstep
    by_cases hjlt : j < num_threads
    · have huadd : uadd j 1 = j + 1 := by unfold uadd UINT_RANGE at *; omega
      simp only [hjlt, if_true, huadd] at hstep
      by_cases hjk : j = k
      · -- the worker's own index: nothing is unlocked
        simp only [hjk, ne_eq, not_true_eq_false, if_false] at hstep
        have hs := Option.some.inj hstep
        subst hs
        subst hjk
        have hsame : othersSame j s (s.goto j (.release (j + 1))) := by
          refine ⟨rfl, fun n hn => ⟨by simp [BarrierState.goto, hn], rfl, rfl, Iff.rfl⟩⟩
        refine ⟨.rel j (j + 1), ⟨by omega, by omega, by omega, ?_⟩, ?_⟩
        · show s.done = countUpTo _ num_threads
          rw [hdone]
          exact (count_frame num_threads j s _ hsame
            (by rw [hckf]; simp [counted, BarrierState.goto])).symm
        · intro n hn
          by_cases hnk : n = j
          · subst hnk
            simp only [threadInv, if_true]
            exact ⟨Or.inr (by simp [BarrierState.goto]), hpass, hlock, hcl⟩
          · have h := rel_frame num_threads j j j s _ hsame ht n hn hnk
            simp only [threadInv, hnk, if_false] at h ⊢
            by_cases h1 : j + 1 ≤ n
            · have h2 : j ≤ n := by omega
              simpa only [h1, h2, if_true] using h
            · have h2 : ¬ j ≤ n := by omega
              simpa only [h1, h2, if_false] using h
      · -- the lock of worker j is unlocked
        simp only [ne_eq, hjk, not_false_eq_true, if_true] at hstep
        have hs := Option.some.inj hstep
        subst hs
        have hj := ht j hjlt
        simp only [threadInv, hjk, if_false, le_refl, if_true] at hj
        obtain ⟨⟨wj1, wj2, wj3, wj4⟩, wj5⟩ := hj
        refine ⟨.rel k (j + 1), ⟨by omega, by omega, by omega, ?_⟩, ?_⟩
        · show s.done = countUpTo _ num_threads
          rw [hdone]
          apply countUpTo_congr
          intro n _
          by_cases hnk : n = k
          · subst hnk
            rw [hckf]; simp [counted, BarrierState.goto]
          · by_cases hnj : n = j
            · subst hnj
              have hne : s.pass n ≠ s.swaps := by omega
              simp [counted, BarrierState.goto, hnk, wj1, hne]
            · simp [counted, BarrierState.goto, hnk, hnj]
        · intro n hn
          by_cases hnk : n = k
          · subst hnk
            simp only [threadInv, if_true]
            refine ⟨Or.inr (by simp [BarrierState.goto]), hpass, ?_, hcl⟩
            simp [BarrierState.goto, Ne.symm hjk, hlock]
          · have h := ht n hn
            simp only [threadInv, hnk, if_false] at h ⊢
            by_cases hnj : n = j
            · subst hnj
              have h1 : ¬ (n + 1 ≤ n) := by omega
              simp only [h1, if_false]
              simp only [workerInv, BarrierState.goto, hnk, if_false, wj1, if_true]
              exact ⟨wj4, Or.inr ⟨by simp, by omega⟩⟩
            · by_cases h1 : j + 1 ≤ n
              · have h2 : j ≤ n := by omega
                simp only [h1, h2, if_true] at h ⊢
                exact ⟨waitingIn_of s _ n _ _ h.1 (by simp [BarrierState.goto, hnk]) rfl
                  (by simp [hnj]) h.1.2.2.2 rfl, h.2⟩
              · have h2 : ¬ j ≤ n := by omega
                simp only [h1, h2, if_false] at h ⊢
                refine (workerInv_congr s _ n ?_ ?_ ?_ ?_ ?_).2 h
                · simp [BarrierState.goto, hnk]
                · rfl
                · simp [hnj]
                · rfl
                · exact Iff.rfl
    · -- the loop is over: the worker starts its next pass
      simp only [hjlt, if_false] at hstep
      have hs := Option.some.inj hstep
      subst hs
      have hsame : othersSame k s (s.nextPass k) := by
        refine ⟨rfl, fun n hn => ⟨by simp [BarrierState.nextPass, hn],
          by simp [BarrierState.nextPass, hn], rfl, Iff.rfl⟩⟩
      refine ⟨.rel num_threads num_threads, ⟨by omega, by omega, by omega, ?_⟩, ?_⟩
      · show s.done = countUpTo _ num_threads
        rw [hdone]
        exact (count_frame num_threads k s _ hsame
          (by rw [hckf]; simp [counted, BarrierState.nextPass])).symm
      · intro n hn
        have hnT : n ≠ num_threads := by omega
        have hnT2 : ¬ num_threads ≤ n := by omega
        simp only [threadInv, hnT, hnT2, if_false]
        by_cases hnk : n = k
        · subst hnk
          simp only [workerInv, BarrierState.nextPass, if_true]
          exact ⟨by omega, hlock, hcl⟩
        · have h := ht n hn
          have h2 : ¬ j ≤ n := by omega
          simp only [threadInv, hnk, h2, if_false] at h
          exact (workerInv_frame k s _ hsame n hnk).2 h

theorem rel_worker_keep (num_threads L j k : Nat) (s s1 : BarrierState)
    (hkL : k ≠ L) (hjk : k < j)
    (hg : globalInv num_threads (.rel L j) s)
    (ht : ∀ n, n < num_threads → threadInv (.rel L j) s n)
    (hsame : othersSame k s s1) (hw : workerInv s1 k)
    (hdone : s1.done = countUpTo (counted s1) num_threads) :
    BarrierInv num_threads s1 := by
  obtain ⟨g1, g2, g3, _⟩ := hg
  refine ⟨.rel L j, ⟨g1, g2, g3, hdone⟩, ?_⟩
  intro n hn
  by_cases hnk : n = k
  · subst hnk
    simp only [threadInv, hkL, if_false, Nat.not_le.2 hjk]
    exact hw
  · exact rel_frame num_threads L j k s s1 hsame ht n hn hnk

theorem barrierInv_step_worker (num_threads L j k : Nat) (hT : num_threads < UINT_RANGE)
    (hk : k < num_threads) (hkL : k ≠ L) (hjk : k < j) (s s1 : BarrierState)
    (hg : globalInv num_threads (.rel L j) s)
    (ht : ∀ n, n < num_threads → threadInv (.rel L j) s n)
    (hstep : barrierStep num_threads k s = some s1) : BarrierInv num_threads s1 := by
  have hw : workerInv s k := by
    have := ht k hk
    simpa only [threadInv, hkL, if_false, Nat.not_le.2 hjk] using this
  have hdone := hg.2.2.2
  unfold workerInv at hw
  cases hpc : s.pc k with
  | compute =>
    simp only [hpc] at hw
    simp only [barrierStep, hpc] at hstep
    have hs := Option.some.inj hstep
    subst hs
    have hsame : othersSame k s (s.goto k .lockCounter) :=
      ⟨rfl, fun n hn => ⟨by simp [BarrierState.goto, hn], rfl, rfl, Iff.rfl⟩⟩
    refine rel_worker_keep num_threads L j k s _ hkL hjk hg ht hsame ?_ ?_
    · simpa [workerInv, BarrierState.goto] using hw
    · show s.done = countUpTo _ num_threads
      rw [hdone]
      exact (count_frame num_threads k s _ hsame
        (by simp [counted, BarrierState.goto, hpc])).symm
  | lockCounter =>
    simp only [hpc] at hw
    simp only [barrierStep, hpc] at hstep
    cases hcl : s.counter_lock with
    | some o => simp only [hcl] at hstep; cases hstep
    | none =>
      simp only [hcl] at hstep
      have hs := Option.some.inj hstep
      subst hs
      have hsame : othersSame k s { s.goto k .incDone with counter_lock := some k } := by
        refine ⟨rfl, fun n hn => ⟨by simp [BarrierState.goto, hn], rfl, rfl, ?_⟩⟩
        simp only [hcl, Option.some.injEq]
        constructor
        · intro h; exact absurd h.symm hn
        · intro h; cases h
      refine rel_worker_keep num_threads L j k s _ hkL hjk hg ht hsame ?_ ?_
      · have h1 := hw.1
        have h2 := hw.2.1
        simp [workerInv, BarrierState.goto, h1, h2]
      · show s.done = countUpTo _ num_threads
        rw [hdone]
        exact (count_frame num_threads k s _ hsame
          (by simp [counted, BarrierState.goto, hpc])).symm
  | incDone =>
    simp only [hpc] at hw
    simp only [barrierStep, hpc] at hstep
    have hs := Option.some.inj hstep
    subst hs
    have hsame : othersSame k s { s.goto k .testDone with done := uadd s.done 1 } :=
      ⟨rfl, fun n hn => ⟨by simp [BarrierState.goto, hn], rfl, rfl, Iff.rfl⟩⟩
    have hckf : counted s k = false := by simp [counted, hpc]
    have hlt : s.done < num_threads := by
      rw [hdone]; exact countUpTo_lt _ _ k hk hckf
    have huadd : uadd s.done 1 = s.done + 1 := by unfold uadd UINT_RANGE at *; omega
    refine rel_worker_keep num_threads L j k s _ hkL hjk hg ht hsame ?_ ?_
    · have h1 := hw.1
      have h2 := hw.2.1
      have h3 := hw.2.2
      simp [workerInv, BarrierState.goto, h1, h2, h3]
    · show uadd s.done 1 = countUpTo _ num_threads
      rw [huadd, hdone]
      refine (countUpTo_flip _ _ num_threads k hk hckf ?_ ?_).symm
      · simp [counted, BarrierState.goto]
      · intro m _ hmk
        exact counted_frame k s _ hsame m hmk
  | testDone =>
    simp only [hpc] at hw
    simp only [barrierStep, hpc] at hstep
    by_cases hd : s.done = num_threads
    · simp only [hd, if_true] at hstep
      have hs := Option.some.inj hstep
      subst hs
      -- every worker has incremented `done`
      have hall : ∀ n, n < num_threads → counted s n = true := by
        intro n hn
        by_contra hcn
        have hcf : counted s n = false := by simpa using hcn
        have := countUpTo_lt (counted s) num_threads n hn hcf
        omega
      have hLT : L = num_threads := by
        by_contra hne
        have hL : L < num_threads := by have := hg.1; omega
        have hLinv := ht L hL
        simp only [threadInv, if_true] at hLinv
        have hcf : counted s L = false := by
          rcases hLinv.1 with ⟨h, _⟩ | h <;> simp [counted, h]
        rw [hall L hL] at hcf
        cases hcf
      have hjT : j = num_threads := hg.2.2.1 hLT
      have hothers : ∀ n, n < num_threads → n ≠ k → waitingIn s s.swaps n := by
        intro n hn hnk
        have hinv := ht n hn
        have hnL : n ≠ L := by omega
        have hnj : ¬ j ≤ n := by omega
        simp only [threadInv, hnL, if_false, hnj] at hinv
        have hcn := hall n hn
        unfold workerInv at hinv
        unfold counted at hcn
        have hne : s.counter_lock ≠ some n := by
          rw [hw.2.2]
          intro h
          exact hnk (Option.some.inj h).symm
        cases hpn : s.pc n with
        | waitOwn =>
          simp only [hpn, Bool.and_eq_true, decide_eq_true_eq] at hcn
          exact ⟨hpn, hcn.1, hcn.2, hne⟩
        | testDone => simp only [hpn] at hinv; exact absurd hinv.2.2 hne
        | unlockOther => simp only [hpn] at hinv; exact absurd hinv.2.2 hne
        | compute => simp [hpn] at hcn
        | lockCounter => simp [hpn] at hcn
        | incDone => simp [hpn] at hcn
        | unlockLast => simp [hpn] at hcn
        | swap1 => simp [hpn] at hcn
        | swap2 => simp [hpn] at hcn
        | swap3 => simp [hpn] at hcn
        | resetDone => simp [hpn] at hcn
        | incGeneration => simp [hpn] at hcn
        | release r => simp [hpn] at hcn
      refine ⟨.pre k, ⟨hk, hd⟩, ?_⟩
      intro n hn
      by_cases hnk : n = k
      · subst hnk
        simp only [threadInv, if_true]
        refine ⟨hw.1, hw.2.1, Or.inl ⟨?_, hw.2.2⟩⟩
        simp [BarrierState.goto]
      · simp only [threadInv, hnk, if_false]
        have hne : s.counter_lock ≠ some n := by
          rw [hw.2.2]
          intro h
          exact hnk (Option.some.inj h).symm
        exact waitingIn_of s _ n _ _ (hothers n hn hnk) (by simp [BarrierState.goto, hnk])
          rfl rfl hne rfl
    · simp only [hd, if_false] at hstep
      have hs := Option.some.inj hstep
      subst hs
      have hsame : othersSame k s (s.goto k .unlockOther) :=
        ⟨rfl, fun n hn => ⟨by simp [BarrierState.goto, hn], rfl, rfl, Iff.rfl⟩⟩
      refine rel_worker_keep num_threads L j k s _ hkL hjk hg ht hsame ?_ ?_
      · simpa [workerInv, BarrierState.goto] using hw
      · show s.done = countUpTo _ num_threads
        rw [hdone]
        exact (count_frame num_threads k s _ hsame
          (by simp [counted, BarrierState.goto, hpc])).symm
  | unlockOther =>
    simp only [hpc] at hw
    simp only [barrierStep, hpc] at hstep
    have hs := Option.some.inj hstep
    subst hs
    have hsame : othersSame k s { s.goto k .waitOwn with counter_lock := none } := by
      refine ⟨rfl, fun n hn => ⟨by simp [BarrierState.goto, hn], rfl, rfl, ?_⟩⟩
      rw [hw.2.2]
      simp only [Option.some.injEq]
      constructor
      · intro h; cases h
      · intro h; exact absurd h.symm hn
    refine rel_worker_keep num_threads L j k s _ hkL hjk hg ht hsame ?_ ?_
    · have h1 := hw.1
      have h2 := hw.2.1
      simp [workerInv, BarrierState.goto, h1, h2]
    · show s.done = countUpTo _ num_threads
      rw [hdone]
      have h1 := hw.1
      have h2 := hw.2.1
      exact (count_frame num_threads k s _ hsame
        (by simp [counted, BarrierState.goto, hpc, h1, h2])).symm
  | waitOwn =>
    simp only [hpc] at hw
    simp only [barrierStep, hpc] at hstep
    by_cases hl : s.lock k = false
    · simp only [hl, if_true] at hstep
      have hs := Option.some.inj hstep
      subst hs
      have hpass : s.pass k + 1 = s.swaps := by
        rcases hw.2 with ⟨h, _⟩ | ⟨_, h⟩
        · rw [hl] at h; cases h
        · exact h
      have hsame : othersSame k s
          { s.nextPass k with lock := fun n => if n = k then true else s.lock n } :=
        ⟨rfl, fun n hn => ⟨by simp [BarrierState.nextPass, hn],
          by simp [BarrierState.nextPass, hn], by simp [hn], Iff.rfl⟩⟩
      refine rel_worker_keep num_threads L j k s _ hkL hjk hg ht hsame ?_ ?_
      · have h1 := hw.1
        simp [workerInv, BarrierState.nextPass, hpass, h1]
      · show s.done = countUpTo _ num_threads
        rw [hdone]
        exact (count_frame num_threads k s _ hsame
          (by simp [counted, BarrierState.nextPass, hpc, hl])).symm
    · simp only [hl, if_false] at hstep
      cases hstep
  | unlockLast => simp only [hpc] at hw
  | swap1 => simp only [hpc] at hw
  | swap2 => simp only [hpc] at hw
  | swap3 => simp only [hpc] at hw
  | resetDone => simp only [hpc] at hw
  | incGeneration => simp only [hpc] at hw
  | release r => simp only [hpc] at hw

theorem barrierInv_step (num_threads k : Nat) (hT : num_threads < UINT_RANGE)
    (hk : k < num_threads) (s s1 : BarrierState) (hinv : BarrierInv num_threads s)
    (hstep : barrierStep num_threads k s = some s1) : BarrierInv num_threads s1 := by
  obtain ⟨ph, hg, ht⟩ := hinv
  cases ph with
  | pre L => exact barrierInv_step_pre num_threads k L hk s s1 hg ht hstep
  | reset L => exact barrierInv_step_reset num_threads k L hk s s1 hg ht hstep
  | rel L j =>
    by_cases hkL : k = L
    · subst hkL
      exact barrierInv_step_leader num_threads k j hT hk s s1 hg ht hstep
    · by_cases hjk : j ≤ k
      · have hw := ht k hk
        simp only [threadInv, hkL, if_false, hjk, if_true] at hw
        rw [waitingIn_blocked num_threads k _ s hw.1] at hstep
        cases hstep
      · exact barrierInv_step_worker num_threads L j k hT hk hkL (by omega) s s1 hg ht hstep

theorem barrierInv_init (num_threads : Nat) : BarrierInv num_threads barrierInit := by
  refine ⟨.rel num_threads num_threads, ⟨le_refl _, le_refl _, fun _ => rfl, ?_⟩, ?_⟩
  · show 0 = countUpTo _ num_threads
    rw [countUpTo_zero]
    intro k _
    rfl
  · intro k hk
    have h1 : k ≠ num_threads := by omega
    have h2 : ¬ num_threads ≤ k := by omega
    simp only [threadInv, h1, if_false, h2]
    simp [workerInv, barrierInit]

theorem barrierInv_reachable (num_threads : Nat) (hT : num_threads < UINT_RANGE)
    (s : BarrierState) (hs : BarrierReachable num_threads s) : BarrierInv num_threads s := by
  induction hs with
  | init => exact barrierInv_init num_threads
  | step k s s1 hk _ h ih => exact barrierInv_step num_threads k hT hk s s1 ih h

theorem barrierRun_reachable (num_threads : Nat) (ks : List Nat) :
    ∀ s s1, (∀ k ∈ ks, k < num_threads) → BarrierReachable num_threads s →
      barrierRun num_threads ks s = some s1 → BarrierReachable num_threads s1 := by
  induction ks with
  | nil =>
    intro s s1 _ hs h
    simp only [barrierRun, Option.some.injEq] at h
    rw [← h]
    exact hs
  | cons k ks ih =>
    intro s s1 hks hs h
    simp only [barrierRun] at h
    cases hstep : barrierStep num_threads k s with
    | none => simp only [hstep] at h; cases h
    | some s2 =>
      simp only [hstep] at h
      exact ih s2 s1 (fun n hn => hks n (List.mem_cons_of_mem _ hn))
        (.step k s s2 (hks k (List.mem_cons_self _ _)) hs hstep) h

theorem barrierStateAfter_reachable (num_threads : Nat) (ks : List Nat)
    (hks : ∀ k ∈ ks, k < num_threads) :
    BarrierReachable num_threads (barrierStateAfter num_threads ks) := by
  unfold barrierStateAfter
  cases h : barrierRun num_threads ks barrierInit with
  | none => exact .init
  | some s1 => exact barrierRun_reachable num_threads ks _ s1 hks .init h

/-- What one round of the barrier with two workers leaves: both workers are back in their
loops, in generation 1, after one call of `swapGrids` that has exchanged the two
grids; `done` is 0 and `generation` is 1. -/
theorem barrierRound_state :
    (barrierStateAfter 2 barrierRound).pc 0 = .compute
      ∧ (barrierStateAfter 2 barrierRound).pc 1 = .compute
      ∧ (barrierStateAfter 2 barrierRound).pass 0 = 1
      ∧ (barrierStateAfter 2 barrierRound).pass 1 = 1
      ∧ (barrierStateAfter 2 barrierRound).swaps = 1
      ∧ (barrierStateAfter 2 barrierRound).currentGrid = 1
      ∧ (barrierStateAfter 2 barrierRound).nextGrid = 0
      ∧ (barrierStateAfter 2 barrierRound).done = 0
      ∧ (barrierStateAfter 2 barrierRound).generation = 1 := by
  refine ⟨?_, ?_, ?_, ?_, ?_, ?_, ?_, ?_, ?_⟩ <;> rfl

/-- C17: in Version2, in every state that the `num_threads` workers can reach under any
interleaving of their statements, a worker that is in its nested loops (it reads
`currentGrid` and writes `nextGrid`) for its generation `pass k` finds that exactly
`pass k` calls of `swapGrids` have completed, and no worker is inside `swapGrids`: the
swap that ended the previous generation is complete, and the swap that ends this
generation has not begun. -/
theorem barrier_separates_generations (num_threads : Nat) (hT : num_threads < UINT_RANGE)
    (s : BarrierState) (hs : BarrierReachable num_threads s)
    (k : Nat) (hk : k < num_threads) (hc : s.pc k = .compute) :
    s.pass k = s.swaps
      ∧ ∀ n, n < num_threads →
          s.pc n ≠ .swap1 ∧ s.pc n ≠ .swap2 ∧ s.pc n ≠ .swap3 := by
  obtain ⟨ph, hg, ht⟩ := barrierInv_reachable num_threads hT s hs
  have hkinv := ht k hk
  cases ph with
  | pre L =>
    exfalso
    by_cases hkL : k = L
    · subst hkL
      simp only [threadInv, if_true] at hkinv
      rcases hkinv.2.2 with ⟨h, _⟩ | ⟨h | h | h, _⟩ <;> rw [hc] at h <;> cases h
    · simp only [threadInv, hkL, if_false] at hkinv
      have h := hkinv.1
      rw [hc] at h
      cases h
  | reset L =>
    exfalso
    by_cases hkL : k = L
    · subst hkL
      simp only [threadInv, if_true] at hkinv
      have h := hkinv.1
      rw [hc] at h
      cases h
    · simp only [threadInv, hkL, if_false] at hkinv
      have h := hkinv.1.1
      rw [hc] at h
      cases h
  | rel L j =>
    have hwk : ∀ n, n < num_threads → n ≠ L → ¬ j ≤ n → workerInv s n := by
      intro n hn h1 h2
      have := ht n hn
      simpa only [threadInv, h1, if_false, h2] using this
    constructor
    · by_cases hkL : k = L
      · subst hkL
        simp only [threadInv, if_true] at hkinv
        rcases hkinv.1 with ⟨h, _⟩ | h <;> rw [hc] at h <;> cases h
      · by_cases hjk : j ≤ k
        · simp only [threadInv, hkL, if_false, hjk, if_true] at hkinv
          have h := hkinv.1.1
          rw [hc] at h
          cases h
        · have hw := hwk k hk hkL hjk
          simp only [workerInv, hc] at hw
          exact hw.1
    · intro n hn
      have hninv := ht n hn
      by_cases hnL : n = L
      · subst hnL
        simp only [threadInv, if_true] at hninv
        rcases hninv.1 with ⟨h, _⟩ | h <;> rw [h] <;> simp
      · by_cases hjn : j ≤ n
        · simp only [threadInv, hnL, if_false, hjn, if_true] at hninv
          rw [hninv.1.1]
          simp
        · have hw := hwk n hn hnL hjn
          unfold workerInv at hw
          refine ⟨?_, ?_, ?_⟩ <;> intro h <;> simp only [h] at hw

theorem barrier_separates_generations_witness :
    2 < UINT_RANGE
      ∧ BarrierReachable 2 (barrierStateAfter 2 barrierRound)
      ∧ (barrierStateAfter 2 barrierRound).pc 0 = .compute
      ∧ (barrierStateAfter 2 barrierRound).pass 0 = (barrierStateAfter 2 barrierRound).swaps
      ∧ ∀ n, n < 2 →
          (barrierStateAfter 2 barrierRound).pc n ≠ .swap1
            ∧ (barrierStateAfter 2 barrierRound).pc n ≠ .swap2
            ∧ (barrierStateAfter 2 barrierRound).pc n ≠ .swap3 :=
  have hr : BarrierReachable 2 (barrierStateAfter 2 barrierRound) :=
    barrierStateAfter_reachable 2 barrierRound (by decide)
  have h := barrier_separates_generations 2 (by decide) (barrierStateAfter 2 barrierRound)
    hr 0 (by decide) rfl
  ⟨by decide, hr, rfl, h.1, h.2⟩

/-! ## The locks protect the update as long as they are not destroyed -/

theorem initsFirst_of_none (l : List MainAction) (h : ∀ a ∈ l, isInitLock a = false) :
    initsFirst l := by
  cases l with
  | nil => trivial
  | cons a rest =>
    have ha := h a (List.mem_cons_self _ _)
    simp only [initsFirst, ha, Bool.false_eq_true, if_false]
    exact fun b hb => h b (List.mem_cons_of_mem _ hb)

theorem initsFirst_inits (ps : List (Nat × Nat)) (rest : List MainAction)
    (h : ∀ a ∈ rest, isInitLock a = false) :
    initsFirst (ps.map MainAction.initLock ++ rest) := by
  induction ps with
  | nil => exact initsFirst_of_none rest h
  | cons p ps ih =>
    simp only [List.map_cons, List.cons_append, initsFirst, isInitLock, if_true]
    exact ih

theorem initsFirst_mainActionsV3 (num_rows num_cols num_threads : Nat) :
    initsFirst (mainActionsV3 num_rows num_cols num_threads) := by
  unfold mainActionsV3
  rw [List.append_assoc, List.append_assoc]
  apply initsFirst_inits
  intro a ha
  simp only [List.mem_append, List.mem_map, List.mem_singleton] at ha
  rcases ha with ⟨_, _, rfl⟩ | ⟨_, _, rfl⟩ | rfl <;> rfl

theorem workerHolds_mono (num_rows num_cols : Nat) (t t1 : LockTable) (k : Nat)
    (h : ∀ p, ownedOrDestroyed t k p → ownedOrDestroyed t1 k p) (pc : WorkerPc)
    (hw : workerHolds num_rows num_cols t k pc) : workerHolds num_rows num_cols t1 k pc := by
  cases pc with
  | locking i j rest =>
    obtain ⟨pre, h1, h2⟩ := hw
    exact ⟨pre, h1, fun p hp => h p (h2 p hp)⟩
  | updating i j => exact fun p hp => h p (hw p hp)
  | notCreated => trivial
  | drawing => trivial
  | unlocking i j rest => trivial

theorem mutexLock_keeps (tid k : Nat) (t t1 : LockTable) (p q : Nat × Nat)
    (h : mutexLock tid t p = some t1) (hq : ownedOrDestroyed t k q) :
    ownedOrDestroyed t1 k q := by
  unfold mutexLock at h
  unfold ownedOrDestroyed at hq ⊢
  cases hp : t p.1 p.2 with
  | unlocked =>
    simp only [hp, Option.some.injEq] at h
    subst h
    by_cases hqp : q.1 = p.1 ∧ q.2 = p.2
    · rw [hqp.1, hqp.2, hp] at hq
      rcases hq with hq | hq <;> cases hq
    · simpa only [setMutex, hqp, if_false] using hq
  | lockedBy o => simp only [hp] at h; cases h
  | destroyed =>
    simp only [hp, Option.some.injEq] at h
    subst h
    exact hq

theorem mutexLock_gets (tid : Nat) (t t1 : LockTable) (p : Nat × Nat)
    (h : mutexLock tid t p = some t1) : ownedOrDestroyed t1 tid p := by
  unfold mutexLock at h
  unfold ownedOrDestroyed
  cases hp : t p.1 p.2 with
  | unlocked =>
    simp only [hp, Option.some.injEq] at h
    subst h
    left
    simp [setMutex]
  | lockedBy o => simp only [hp] at h; cases h
  | destroyed =>
    simp only [hp, Option.some.injEq] at h
    subst h
    exact Or.inr hp

theorem mutexUnlock_keeps (tid k : Nat) (hk : k ≠ tid) (t : LockTable) (p q : Nat × Nat)
    (hq : ownedOrDestroyed t k q) : ownedOrDestroyed (mutexUnlock tid t p) k q := by
  unfold mutexUnlock
  unfold ownedOrDestroyed at hq ⊢
  cases hp : t p.1 p.2 with
  | unlocked => exact hq
  | destroyed => exact hq
  | lockedBy o =>
    by_cases ho : o = tid
    · subst ho
      simp only [if_true]
      by_cases hqp : q.1 = p.1 ∧ q.2 = p.2
      · rw [hqp.1, hqp.2, hp] at hq
        rcases hq with hq | hq
        · exact absurd (Mutex.lockedBy.inj hq).symm hk
        · cases hq
      · simpa only [setMutex, hqp, if_false] using hq
    · simp only [ho, if_false]
      exact hq

theorem mutexDestroy_keeps (k : Nat) (t : LockTable) (p q : Nat × Nat)
    (hq : ownedOrDestroyed t k q) : ownedOrDestroyed (mutexDestroy t p) k q := by
  unfold mutexDestroy
  unfold ownedOrDestroyed at hq ⊢
  cases hp : t p.1 p.2 with
  | unlocked =>
    by_cases hqp : q.1 = p.1 ∧ q.2 = p.2
    · right
      simp [setMutex, hqp]
    · simpa only [setMutex, hqp, if_false] using hq
  | destroyed => exact hq
  | lockedBy o => exact hq

theorem lockInv_mainStep (num_rows num_cols : Nat) (s s1 : LockSystem)
    (hinv : LockInv num_rows num_cols s) (h : mainStep s = some s1) :
    LockInv num_rows num_cols s1 := by
  obtain ⟨h1, h2, h3⟩ := hinv
  unfold mainStep at h
  cases hm : s.main with
  | nil => simp only [hm] at h; cases h
  | cons a rest =>
    rw [hm] at h1 h2
    cases a with
    | initLock p =>
      simp only [hm, Option.some.injEq] at h
      subst h
      have hnone : ∀ k, s.worker k = .notCreated := by
        intro k
        by_contra hk
        have := h2 ⟨k, hk⟩ (.initLock p) (List.mem_cons_self _ _)
        cases this
      refine ⟨?_, ?_, ?_⟩
      · simpa only [initsFirst, isInitLock, if_true] using h1
      · rintro ⟨k, hk⟩
        exact absurd (hnone k) hk
      · intro k
        show workerHolds num_rows num_cols _ k (s.worker k)
        rw [hnone k]
        trivial
    | createThread k =>
      simp only [hm, Option.some.injEq] at h
      subst h
      have hrest : ∀ b ∈ rest, isInitLock b = false := by
        simpa only [initsFirst, isInitLock, Bool.false_eq_true, if_false] using h1
      refine ⟨initsFirst_of_none rest hrest, fun _ => hrest, ?_⟩
      intro n
      show workerHolds num_rows num_cols s.locks n (if n = k then .drawing else s.worker n)
      by_cases hn : n = k
      · simp only [hn, if_true]
        trivial
      · simp only [hn, if_false]
        exact h3 n
    | destroyLock p =>
      simp only [hm, Option.some.injEq] at h
      subst h
      have hrest : ∀ b ∈ rest, isInitLock b = false := by
        simpa only [initsFirst, isInitLock, Bool.false_eq_true, if_false] using h1
      refine ⟨initsFirst_of_none rest hrest, fun _ => hrest, ?_⟩
      intro k
      exact workerHolds_mono num_rows num_cols _ _ k
        (fun q hq => mutexDestroy_keeps k _ p q hq) _ (h3 k)
    | mainLoop => simp only [hm] at h; cases h

theorem lockInv_move (num_rows num_cols : Nat) (s : LockSystem) (k : Nat) (pc : WorkerPc)
    (t : LockTable) (g : Grid) (hinv : LockInv num_rows num_cols s)
    (hcreated : s.worker k ≠ .notCreated)
    (hothers : ∀ n, n ≠ k → ∀ q, ownedOrDestroyed s.locks n q → ownedOrDestroyed t n q)
    (hk : workerHolds num_rows num_cols t k pc) :
    LockInv num_rows num_cols ⟨t, g, s.main, fun n => if n = k then pc else s.worker n⟩ := by
  obtain ⟨h1, h2, h3⟩ := hinv
  refine ⟨h1, fun _ => h2 ⟨k, hcreated⟩, ?_⟩
  intro n
  show workerHolds num_rows num_cols t n (if n = k then pc else s.worker n)
  by_cases hn : n = k
  · subst hn
    simp only [if_true]
    exact hk
  · simp only [hn, if_false]
    exact workerHolds_mono num_rows num_cols _ _ n (hothers n hn) _ (h3 n)

theorem lockInv_workerStep (fb : FrameBehavior) (num_rows num_cols rule colorMode k : Nat)
    (draw : Nat × Nat) (s s1 : LockSystem) (hinv : LockInv num_rows num_cols s)
    (h : workerStep fb num_rows num_cols rule colorMode k draw s = some s1) :
    LockInv num_rows num_cols s1 := by
  have hk3 := hinv.2.2 k
  unfold workerStep at h
  cases hw : s.worker k with
  | notCreated => simp only [hw] at h; cases h
  | drawing =>
    have hc : s.worker k ≠ .notCreated := by rw [hw]; exact fun h => by cases h
    simp only [hw] at h
    by_cases hd : draw.1 < num_rows ∧ draw.2 < num_cols
    · simp only [hd, and_self, if_true, Option.some.injEq] at h
      subst h
      exact lockInv_move num_rows num_cols s k _ s.locks s.grid hinv hc (fun _ _ _ hq => hq)
        ⟨[], rfl, fun p hp => by cases hp⟩
    · simp only [hd, if_false] at h
      cases h
  | locking i j rest =>
    have hc : s.worker k ≠ .notCreated := by rw [hw]; exact fun h => by cases h
    rw [hw] at hk3
    obtain ⟨pre, hpre, hheld⟩ := hk3
    cases rest with
    | nil =>
      simp only [hw, Option.some.injEq] at h
      subst h
      refine lockInv_move num_rows num_cols s k _ s.locks s.grid hinv hc (fun _ _ _ hq => hq) ?_
      intro p hp
      rw [hpre, List.append_nil] at hp
      exact hheld p hp
    | cons p rest =>
      simp only [hw] at h
      cases hl : mutexLock k s.locks p with
      | none => simp only [hl] at h; cases h
      | some t =>
        simp only [hl, Option.some.injEq] at h
        subst h
        refine lockInv_move num_rows num_cols s k _ t s.grid hinv hc
          (fun n _ q hq => mutexLock_keeps k n s.locks t p q hl hq) ?_
        refine ⟨pre ++ [p], by rw [hpre, List.append_assoc]; rfl, ?_⟩
        intro q hq
        rcases List.mem_append.1 hq with hq | hq
        · exact mutexLock_keeps k k s.locks t p q hl (hheld q hq)
        · rw [List.mem_singleton.1 hq]
          exact mutexLock_gets k s.locks t p hl
  | updating i j =>
    have hc : s.worker k ≠ .notCreated := by rw [hw]; exact fun h => by cases h
    simp only [hw] at h
    cases hu : updateCellV3 fb num_rows num_cols rule colorMode s.grid i j with
    | error e => simp only [hu] at h; cases h
    | ok g =>
      simp only [hu, Option.some.injEq] at h
      subst h
      exact lockInv_move num_rows num_cols s k _ s.locks g hinv hc (fun _ _ _ hq => hq) trivial
  | unlocking i j rest =>
    have hc : s.worker k ≠ .notCreated := by rw [hw]; exact fun h => by cases h
    cases rest with
    | nil =>
      simp only [hw, Option.some.injEq] at h
      subst h
      exact lockInv_move num_rows num_cols s k _ s.locks s.grid hinv hc (fun _ _ _ hq => hq) trivial
    | cons p rest =>
      simp only [hw, Option.some.injEq] at h
      subst h
      exact lockInv_move num_rows num_cols s k _ _ s.grid hinv hc
        (fun n hn q hq => mutexUnlock_keeps k n hn s.locks p q hq) trivial

theorem lockInv_init (num_rows num_cols num_threads : Nat) (grid : Grid) :
    LockInv num_rows num_cols (lockSystemInit num_rows num_cols num_threads grid) := by
  refine ⟨initsFirst_mainActionsV3 num_rows num_cols num_threads, ?_, fun _ => trivial⟩
  rintro ⟨k, hk⟩
  exact absurd rfl hk

theorem lockInv_run (fb : FrameBehavior) (num_rows num_cols rule colorMode : Nat)
    (sched : List Sched) :
    ∀ s s1, LockInv num_rows num_cols s →
      lockRun fb num_rows num_cols rule colorMode sched s = some s1 →
      LockInv num_rows num_cols s1 := by
  induction sched with
  | nil =>
    intro s s1 hinv h
    simp only [lockRun, Option.some.injEq] at h
    rw [← h]
    exact hinv
  | cons c cs ih =>
    intro s s1 hinv h
    simp only [lockRun] at h
    cases hstep : lockStep fb num_rows num_cols rule colorMode c s with
    | none => simp only [hstep] at h; cases h
    | some s2 =>
      simp only [hstep] at h
      refine ih s2 s1 ?_ h
      cases c with
      | main => exact lockInv_mainStep num_rows num_cols s s2 hinv hstep
      | worker k draw =>
        exact lockInv_workerStep fb num_rows num_cols rule colorMode k draw s s2 hinv hstep

/-- In the lock version, under every interleaving of `main` and the workers: when two
different workers are between `getLocks` and `freeLocks` at the same time, every lock
that both calls of `getLocks` have requested is destroyed.  As long as no lock of a
cell is destroyed, two workers are never in the update for cells whose lock sets
overlap. -/
theorem overlap_only_on_destroyed (fb : FrameBehavior)
    (num_rows num_cols rule colorMode num_threads : Nat) (grid : Grid) (sched : List Sched)
    (s : LockSystem)
    (hrun : lockRun fb num_rows num_cols rule colorMode sched
      (lockSystemInit num_rows num_cols num_threads grid) = some s)
    (k1 k2 i1 j1 i2 j2 : Nat) (hk : k1 ≠ k2)
    (h1 : s.worker k1 = .updating i1 j1) (h2 : s.worker k2 = .updating i2 j2)
    (p : Nat × Nat) (hp1 : p ∈ getLocks num_rows num_cols i1 j1)
    (hp2 : p ∈ getLocks num_rows num_cols i2 j2) :
    s.locks p.1 p.2 = .destroyed := by
  have hinv := lockInv_run fb num_rows num_cols rule colorMode sched _ s
    (lockInv_init num_rows num_cols num_threads grid) hrun
  have a1 := hinv.2.2 k1
  have a2 := hinv.2.2 k2
  rw [h1] at a1
  rw [h2] at a2
  rcases a1 p hp1 with b1 | b1
  · rcases a2 p hp2 with b2 | b2
    · rw [b1] at b2
      exact absurd (Mutex.lockedBy.inj b2) hk
    · exact b2
  · exact b1

/-! ## The Amoeba rule against its documentation (C21) -/

/-- For an interior cell under the Amoeba rule, `cellNewState` returns 1 exactly when
the count of live neighbours is 1, 3, 5 or 8, for a dead cell as for a live one. -/
theorem amoeba_interior (fb : FrameBehavior) (num_rows num_cols : Nat) (g : Grid) (i j : Nat)
    (h : awayFromBorder num_rows num_cols i j) :
    cellNewState fb num_rows num_cols AMOEBA_RULE g i j
      = .ok (if liveNeighbours g i j ∈ [1, 3, 5, 8] then 1 else 0) := by
  have hle := liveNeighbours_le g i j
  simp only [cellNewState, neighbourCount_interior_eq fb num_rows num_cols g i j h]
  generalize liveNeighbours g i j = n at hle ⊢
  by_cases hz : g i j = 0 <;> interval_cases n <;>
    simp [applyRule, GAME_OF_LIFE_RULE, CORAL_GROWTH_RULE, AMOEBA_RULE, hz]

/-- C21 (evaluation at the failing input): on a 6 x 6 grid the interior dead cell
(2,2) with seven live neighbours stays dead under the Amoeba rule, although 7 is in
the documented birth set B357; and with one live neighbour it is born, although 1 is
not in B357. -/
theorem amoeba_birth_is_not_B357 :
    awayFromBorder 6 6 2 2
    ∧ sevenNeighbours 2 2 = 0 ∧ liveNeighbours sevenNeighbours 2 2 = 7
    ∧ cellNewState .FRAME_DEAD 6 6 AMOEBA_RULE sevenNeighbours 2 2 = .ok 0
    ∧ oneNeighbour 2 2 = 0 ∧ liveNeighbours oneNeighbour 2 2 = 1
    ∧ cellNewState .FRAME_DEAD 6 6 AMOEBA_RULE oneNeighbour 2 2 = .ok 1 := by
  refine ⟨by decide, by decide, by decide, rfl, by decide, by decide, rfl⟩

/-! ## The creation of the workers in Version2 (C24) -/

theorem createLoopV2_fst (codes : List Int) :
    ∀ (n : Nat) (l : List Int), n + codes.length < UINT_RANGE →
      createLoopV2 codes (n, l)
        = (n + (codes.filter (fun c => decide (0 ≤ c))).length,
           l ++ codes.filter (fun c => decide (c < 0))) := by
  induction codes with
  | nil => intro n l _; simp [createLoopV2]
  | cons c rest ih =>
    intro n l hs
    simp only [List.length_cons] at hs
    by_cases hc : c < 0
    · have hc2 : ¬ 0 ≤ c := by omega
      simp only [createLoopV2, hc, if_true]
      rw [ih n (l ++ [c]) (by omega)]
      simp [List.filter_cons, hc, hc2]
    · have hc2 : 0 ≤ c := by omega
      have hu : uadd n 1 = n + 1 := by unfold uadd UINT_RANGE at *; omega
      simp only [createLoopV2, hc, if_false, hu]
      rw [ih (n + 1) l (by omega)]
      simp [List.filter_cons, hc, hc2]
      omega

/-- C24 (evaluation at the failing input): when the first `pthread_create` returns 0
and the second returns the error number 11 (`EAGAIN`), the loop of Version2's `main`
leaves `numLiveThreads = 2` and writes nothing to `std::cerr`, although one call only
has returned 0. -/
theorem failed_create_counted_live :
    mainCreateThreads [0, 11] = (2, [])
    ∧ ([0, 11].filter (fun c : Int => decide (c = 0))).length = 1 := by
  decide

/-! ## The delay after `slower` (C30) -/

theorem slower_increases (d : Nat) (h : 11 * d < UINT_RANGE) :
    slower d = 11 * d / 10 ∧ d ≤ slower d ∧ (10 ≤ d → d < slower d) := by
  have h1 : slower d = 11 * d / 10 := by
    unfold slower umul
    rw [Nat.mod_eq_of_lt h]
  rw [h1]
  omega

set_option maxRecDepth 20000 in
/-- C30 (evaluation at the failing input): for the 32-bit delay 390451573 the product
`11 * d` wraps and `slower` sets the delay to 0; and from the initial delay 5000 of
Version2 the 120th call of `slower` brings the delay from 421138854 down to
33756009. -/
theorem slower_shortens_delay :
    390451573 < UINT_RANGE ∧ 10 ≤ 390451573
    ∧ slower 390451573 = 0
    ∧ slower^[119] 5000 = 421138854
    ∧ slower^[120] 5000 = 33756009
    ∧ slower^[120] 5000 < slower^[119] 5000 := by
  refine ⟨by decide, by decide, by decide, by decide, by decide, by decide⟩

/-! ## The teardown of the cell locks (C22) -/

set_option maxRecDepth 100000 in
/-- C22 (evaluation at the failing input): on a 6 x 6 grid with two workers, when `main`
has initialised the 36 locks and created both workers, its next action is
`pthread_mutex_destroy` on the lock of (0,0), which is unlocked and becomes destroyed;
when `main` reaches `glutMainLoop()` the lock of (1,1) is destroyed, and worker 0,
drawing (2,2), enters `getLocks(2,2)`, whose first call of `pthread_mutex_lock` is on
that lock. -/
theorem main_destroys_locks_of_running_workers :
    ∃ s1 s2 s3,
      lockRun .FRAME_DEAD 6 6 GAME_OF_LIFE_RULE 0 (List.replicate 38 Sched.main)
          (lockSystemInit 6 6 2 youngVertical) = some s1
      ∧ s1.worker 0 = .drawing ∧ s1.worker 1 = .drawing
      ∧ s1.locks 0 0 = .unlocked
      ∧ s1.main.head? = some (MainAction.destroyLock (0, 0))
      ∧ lockStep .FRAME_DEAD 6 6 GAME_OF_LIFE_RULE 0 Sched.main s1 = some s2
      ∧ s2.locks 0 0 = .destroyed
      ∧ lockRun .FRAME_DEAD 6 6 GAME_OF_LIFE_RULE 0
          (List.replicate 74 Sched.main ++ [Sched.worker 0 (2, 2)])
          (lockSystemInit 6 6 2 youngVertical) = some s3
      ∧ s3.main = [MainAction.mainLoop]
      ∧ s3.worker 0 = .locking 2 2 ((1, 1) :: (getLocks 6 6 2 2).tail)
      ∧ s3.locks 1 1 = .destroyed := by
  refine ⟨_, _, _, rfl, ?_, ?_, ?_, ?_, rfl, ?_, rfl, ?_, ?_, ?_⟩ <;> decide

/-! ## The barrier, arrival by arrival (C23) -/

theorem barrierArrival_below (num_threads index : Nat) (s : BarrierCounters)
    (hT : num_threads < UINT_RANGE) (h : s.done + 1 < num_threads) :
    barrierArrival num_threads index s = (⟨s.done + 1, s.generation, s.grids, s.swaps⟩, []) := by
  have hu : uadd s.done 1 = s.done + 1 := by unfold uadd UINT_RANGE at *; omega
  have hne : s.done + 1 ≠ num_threads := by omega
  simp only [barrierArrival, hu, hne, if_false]

theorem barrierArrival_last (num_threads index : Nat) (s : BarrierCounters)
    (hT : num_threads < UINT_RANGE) (h : s.done + 1 = num_threads) :
    barrierArrival num_threads index s
      = (⟨0, s.generation + 1, swapGridsPtr s.grids, s.swaps + 1⟩,
          (List.range num_threads).filter (fun k => k ≠ index)) := by
  have hu : uadd s.done 1 = s.done + 1 := by unfold uadd UINT_RANGE at *; omega
  simp only [barrierArrival, hu, h, if_true]

theorem released_others (num_threads index : Nat) (h : index < num_threads) :
    ((List.range num_threads).filter (fun k => k ≠ index)).Nodup
    ∧ ((List.range num_threads).filter (fun k => k ≠ index)).length = num_threads - 1
    ∧ ∀ k, k ∈ (List.range num_threads).filter (fun k => k ≠ index)
        ↔ k < num_threads ∧ k ≠ index := by
  refine ⟨(List.nodup_range _).filter _, ?_, ?_⟩
  · have hlen : (List.range num_threads).length
        = ((List.range num_threads).filter (fun k => decide (k ≠ index))).length
          + ((List.range num_threads).filter (fun k => !decide (k ≠ index))).length :=
      List.length_eq_length_filter_add (fun k => decide (k ≠ index))
    have hcount : ((List.range num_threads).filter (fun k => !decide (k ≠ index))).length
        = 1 := by
      have : (List.range num_threads).filter (fun k => !decide (k ≠ index))
          = (List.range num_threads).filter (fun k => k == index) := by
        congr 1
        funext k
        by_cases hk : k = index <;> simp [hk]
      rw [this, ← List.countP_eq_length_filter]
      exact List.count_eq_one_of_mem (List.nodup_range _) (List.mem_range.2 h)
    rw [List.length_range] at hlen
    omega
  · intro k
    simp [List.mem_filter, List.mem_range]

theorem barrierArrivals_from (num_threads : Nat) (h0 : 0 < num_threads)
    (hT : num_threads < UINT_RANGE) (arrivals : List Nat) :
    ∀ s : BarrierCounters, s.done < num_threads →
      (barrierArrivals num_threads arrivals s).done = (s.done + arrivals.length) % num_threads
      ∧ (barrierArrivals num_threads arrivals s).generation
          = s.generation + (((s.done + arrivals.length) / num_threads : Nat) : Int)
      ∧ (barrierArrivals num_threads arrivals s).swaps
          = s.swaps + (s.done + arrivals.length) / num_threads
      ∧ (barrierArrivals num_threads arrivals s).grids
          = swapGridsPtr^[(s.done + arrivals.length) / num_threads] s.grids := by
  induction arrivals with
  | nil =>
    intro s hs
    simp only [barrierArrivals, List.length_nil, Nat.add_zero, Nat.mod_eq_of_lt hs,
      Nat.div_eq_of_lt hs, Nat.cast_zero, add_zero, Function.iterate_zero, id_eq, and_self]
  | cons index rest ih =>
    intro s hs
    simp only [barrierArrivals, List.length_cons]
    by_cases hlast : s.done + 1 = num_threads
    · rw [barrierArrival_last num_threads index s hT hlast]
      obtain ⟨h1, h2, h3, h4⟩ :=
        ih ⟨0, s.generation + 1, swapGridsPtr s.grids, s.swaps + 1⟩ h0
      simp only [Nat.zero_add] at h1 h2 h3 h4
      have hsum : s.done + (rest.length + 1) = rest.length + num_threads := by omega
      have hdiv : (rest.length + num_threads) / num_threads = rest.length / num_threads + 1 :=
        Nat.add_div_right _ h0
      have hmod : (rest.length + num_threads) % num_threads = rest.length % num_threads :=
        Nat.add_mod_right _ _
      rw [hsum, hdiv, hmod]
      refine ⟨h1, ?_, ?_, ?_⟩
      · rw [h2]; push_cast; ring
      · rw [h3]; ring
      · rw [h4, Function.iterate_succ_apply]
    · rw [barrierArrival_below num_threads index s hT (by omega)]
      obtain ⟨h1, h2, h3, h4⟩ :=
        ih ⟨s.done + 1, s.generation, s.grids, s.swaps⟩ (by show s.done + 1 < num_threads; omega)
      have hsum : s.done + (rest.length + 1) = s.done + 1 + rest.length := by omega
      rw [hsum]
      exact ⟨h1, h2, h3, h4⟩

/-- C23: with `0 < num_threads`, in a state with `done < num_threads`: the arrival of a
worker that raises `done` to a value below `num_threads` changes nothing else and
unlocks no lock; the arrival that raises `done` to `num_threads` calls `swapGrids`
once, increments `generation`, resets `done` to 0 and unlocks the locks of exactly the
`num_threads - 1` other workers, each once.  Hence, starting from `done = 0`, after any
arrivals `done` is the number of arrivals modulo `num_threads` (so `done <
num_threads`), and after `k * num_threads` arrivals `done = 0`, `generation` has grown
by `k` and the grids have been swapped `k` times. -/
theorem barrier_arrival_counts (num_threads : Nat) (h0 : 0 < num_threads)
    (hT : num_threads < UINT_RANGE) (s : BarrierCounters) (hs : s.done < num_threads) :
    (∀ index, s.done + 1 < num_threads →
        barrierArrival num_threads index s
          = (⟨s.done + 1, s.generation, s.grids, s.swaps⟩, []))
    ∧ (∀ index, index < num_threads → s.done + 1 = num_threads →
        (barrierArrival num_threads index s).1
          = ⟨0, s.generation + 1, swapGridsPtr s.grids, s.swaps + 1⟩
        ∧ (barrierArrival num_threads index s).2.Nodup
        ∧ (barrierArrival num_threads index s).2.length = num_threads - 1
        ∧ ∀ k, k ∈ (barrierArrival num_threads index s).2 ↔ k < num_threads ∧ k ≠ index)
    ∧ (∀ arrivals : List Nat, s.done = 0 →
        (barrierArrivals num_threads arrivals s).done = arrivals.length % num_threads
        ∧ (barrierArrivals num_threads arrivals s).done < num_threads)
    ∧ (∀ (k : Nat) (arrivals : List Nat), s.done = 0 → arrivals.length = k * num_threads →
        (barrierArrivals num_threads arrivals s).done = 0
        ∧ (barrierArrivals num_threads arrivals s).generation = s.generation + (k : Int)
        ∧ (barrierArrivals num_threads arrivals s).swaps = s.swaps + k
        ∧ (barrierArrivals num_threads arrivals s).grids = swapGridsPtr^[k] s.grids) := by
  refine ⟨?_, ?_, ?_, ?_⟩
  · intro index h
    exact barrierArrival_below num_threads index s hT h
  · intro index hi h
    rw [barrierArrival_last num_threads index s hT h]
    exact ⟨rfl, released_others num_threads index hi⟩
  · intro arrivals hd
    obtain ⟨h1, _⟩ := barrierArrivals_from num_threads h0 hT arrivals s hs
    rw [hd, Nat.zero_add] at h1
    rw [h1]
    exact ⟨rfl, Nat.mod_lt _ h0⟩
  · intro k arrivals hd hlen
    obtain ⟨h1, h2, h3, h4⟩ := barrierArrivals_from num_threads h0 hT arrivals s hs
    rw [hd, Nat.zero_add, hlen] at h1 h2 h3 h4
    rw [Nat.mul_div_cancel _ h0] at h2 h3 h4
    rw [Nat.mul_mod_left] at h1
    exact ⟨h1, h2, h3, h4⟩

theorem barrier_arrival_counts_witness :
    (barrierArrivals 3 [2, 0, 1, 1, 2, 0] ⟨0, 0, ⟨fun _ => youngVertical, 0, 1⟩, 0⟩).done = 0
    ∧ (barrierArrivals 3 [2, 0, 1, 1, 2, 0] ⟨0, 0, ⟨fun _ => youngVertical, 0, 1⟩, 0⟩).generation
        = 0 + ((2 : Nat) : Int)
    ∧ (barrierArrivals 3 [2, 0, 1, 1, 2, 0] ⟨0, 0, ⟨fun _ => youngVertical, 0, 1⟩, 0⟩).swaps
        = 0 + 2
    ∧ (barrierArrivals 3 [2, 0, 1, 1, 2, 0] ⟨0, 0, ⟨fun _ => youngVertical, 0, 1⟩, 0⟩).grids
        = swapGridsPtr^[2] ⟨fun _ => youngVertical, 0, 1⟩ :=
  (barrier_arrival_counts 3 (by decide) (by decide)
    ⟨0, 0, ⟨fun _ => youngVertical, 0, 1⟩, 0⟩ (by decide)).2.2.2 2 [2, 0, 1, 1, 2, 0] rfl rfl

/-! ## The partitioned generation in any order of the workers (C25) -/

/-- C25: for a rule id in {1,2,3,4} and `0 < num_threads ≤ num_rows`, the passes of
the partition workers over the records that `main` computes, taken once each in any
order, followed by one call of `swapGrids`, return and leave the same globals (the
same `currentGrid`, and the same `nextGrid`) as one call of `oneGeneration` on the
same starting grids. -/
theorem partition_refines_oneGeneration (fb : FrameBehavior) (num_threads : Nat) (w : Globals)
    (order : List ThreadInfo)
    (hrule : validRule w.rule) (hT : 0 < num_threads) (hTR : num_threads ≤ w.num_rows)
    (hR : w.num_rows < UINT_RANGE)
    (horder : order.Perm (mainPartition w.num_rows num_threads)) :
    ∃ w1 w2, runWorkers fb order w = .ok w1 ∧ oneGeneration fb w = .ok w2
      ∧ swapGrids w1 = w2 ∧ (swapGrids w1).currentGrid = w2.currentGrid := by
  cases w with
  | mk nr nc rl cm cur nxt =>
  simp only at hrule hTR hR horder
  obtain ⟨nxt1, hrun, hin, hout⟩ := runWorkers_ok fb nr nc rl cm cur hrule order nxt
  have hone := oneGeneration_ok fb ⟨nr, nc, rl, cm, cur, nxt⟩ hrule
  have heq : swapGrids ⟨nr, nc, rl, cm, cur, nxt1⟩
      = ⟨nr, nc, rl, cm, rowsWritten fb ⟨nr, nc, rl, cm, cur, nxt⟩ 0 nr, cur⟩ := by
    simp only [swapGrids]
    congr 1
    funext a b
    by_cases hc : a < nr ∧ b < nc
    · obtain ⟨k, hk, hlo, hhi⟩ := partition_exists nr num_threads hT hTR hR a hc.1
      have hrange : (0 ≤ a ∧ a < nr) ∧ b < nc := ⟨⟨Nat.zero_le _, hc.1⟩, hc.2⟩
      have hmem : mainThreadInfo nr num_threads k ∈ order :=
        horder.mem_iff.2 ((mem_mainPartition nr num_threads _).2 ⟨k, hk, rfl⟩)
      rw [hin a b ⟨_, hmem, hlo, hhi⟩ hc.2]
      simp only [rowsWritten, hrange, and_self, if_true]
    · have hnot : ¬ ((∃ info ∈ order, info.start_row ≤ a ∧ a < info.end_row) ∧ b < nc) := by
        rintro ⟨⟨info, hmem, hlo, hhi⟩, hb⟩
        obtain ⟨k, hk, rfl⟩ := (mem_mainPartition nr num_threads info).1 (horder.mem_iff.1 hmem)
        have := (partition_bounds nr num_threads k hT hTR hR hk).2.1
        exact hc ⟨by omega, hb⟩
      have hrange : ¬ ((0 ≤ a ∧ a < nr) ∧ b < nc) := fun h => hc ⟨h.1.2, h.2⟩
      rw [hout a b hnot]
      simp only [rowsWritten, hrange, if_false]
  exact ⟨_, _, hrun, hone, heq, by rw [heq]⟩

theorem partition_refines_oneGeneration_witness :
    ∃ w1 w2,
      runWorkers .FRAME_DEAD (mainPartition 7 3).reverse
          ⟨7, 6, GAME_OF_LIFE_RULE, 1, youngVertical, agedBlinker⟩ = .ok w1
      ∧ oneGeneration .FRAME_DEAD ⟨7, 6, GAME_OF_LIFE_RULE, 1, youngVertical, agedBlinker⟩
          = .ok w2
      ∧ swapGrids w1 = w2 ∧ (swapGrids w1).currentGrid = w2.currentGrid :=
  partition_refines_oneGeneration .FRAME_DEAD 3
    ⟨7, 6, GAME_OF_LIFE_RULE, 1, youngVertical, agedBlinker⟩ (mainPartition 7 3).reverse
    (by decide) (by decide) (by decide) (by decide) (List.reverse_perm _)

/-! ## `freeLocks` after `getLocks` (C27) -/

theorem setMutex_other (t : LockTable) (q p : Nat × Nat) (m : Mutex) (h : p ≠ q) :
    setMutex t q m p.1 p.2 = t p.1 p.2 := by
  have hne : ¬ (p.1 = q.1 ∧ p.2 = q.2) := by
    rintro ⟨h1, h2⟩
    exact h (Prod.ext h1 h2)
  simp only [setMutex, hne, if_false]

theorem setMutex_same (t : LockTable) (q : Nat × Nat) (m : Mutex) :
    setMutex t q m q.1 q.2 = m := by
  simp only [setMutex, and_self, if_true]

theorem lockAll_free (tid : Nat) (l : List (Nat × Nat)) (hnd : l.Nodup) :
    ∀ t : LockTable, (∀ p ∈ l, t p.1 p.2 = .unlocked ∨ t p.1 p.2 = .destroyed) →
    ∃ t1, lockAll tid l t = some t1
      ∧ (∀ p ∈ l, t p.1 p.2 = .unlocked → t1 p.1 p.2 = .lockedBy tid)
      ∧ (∀ p ∈ l, t p.1 p.2 = .destroyed → t1 p.1 p.2 = .destroyed)
      ∧ (∀ p, p ∉ l → t1 p.1 p.2 = t p.1 p.2) := by
  induction l with
  | nil =>
    intro t _
    exact ⟨t, rfl, fun p hp => absurd hp (List.not_mem_nil p),
      fun p hp => absurd hp (List.not_mem_nil p), fun _ _ => rfl⟩
  | cons q qs ih =>
    intro t hfree
    obtain ⟨hq, hqs⟩ := List.nodup_cons.1 hnd
    have hother : ∀ (m : Mutex) (p : Nat × Nat), p ∈ qs → setMutex t q m p.1 p.2 = t p.1 p.2 :=
      fun m p hp => setMutex_other t q p m (fun h => hq (h ▸ hp))
    rcases hfree q (List.mem_cons_self _ _) with hu | hd
    · have hstep : mutexLock tid t q = some (setMutex t q (.lockedBy tid)) := by
        simp only [mutexLock, hu]
      obtain ⟨t1, hrun, hin, hdes, hout⟩ := ih hqs (setMutex t q (.lockedBy tid))
        (fun p hp => by rw [hother _ p hp]; exact hfree p (List.mem_cons_of_mem _ hp))
      refine ⟨t1, by simp only [lockAll, hstep, hrun], ?_, ?_, ?_⟩
      · intro p hp hpu
        rcases List.mem_cons.1 hp with rfl | hp2
        · rw [hout p hq, setMutex_same]
        · exact hin p hp2 (by rw [hother _ p hp2]; exact hpu)
      · intro p hp hpd
        rcases List.mem_cons.1 hp with rfl | hp2
        · rw [hu] at hpd; cases hpd
        · exact hdes p hp2 (by rw [hother _ p hp2]; exact hpd)
      · intro p hp
        rw [hout p (fun h => hp (List.mem_cons_of_mem _ h))]
        exact setMutex_other t q p _ (fun h => hp (h ▸ List.mem_cons_self _ _))
    · have hstep : mutexLock tid t q = some t := by
        simp only [mutexLock, hd]
      obtain ⟨t1, hrun, hin, hdes, hout⟩ := ih hqs t
        (fun p hp => hfree p (List.mem_cons_of_mem _ hp))
      refine ⟨t1, by simp only [lockAll, hstep, hrun], ?_, ?_, ?_⟩
      · intro p hp hpu
        rcases List.mem_cons.1 hp with rfl | hp2
        · rw [hd] at hpu; cases hpu
        · exact hin p hp2 hpu
      · intro p hp hpd
        rcases List.mem_cons.1 hp with rfl | hp2
        · rw [hout p hq]; exact hd
        · exact hdes p hp2 hpd
      · intro p hp
        exact hout p (fun h => hp (List.mem_cons_of_mem _ h))

theorem unlockAll_held (tid : Nat) (l : List (Nat × Nat)) (hnd : l.Nodup) :
    ∀ t : LockTable, (∀ p ∈ l, t p.1 p.2 = .lockedBy tid ∨ t p.1 p.2 = .destroyed) →
      (∀ p ∈ l, t p.1 p.2 = .lockedBy tid → (l.foldl (mutexUnlock tid) t) p.1 p.2 = .unlocked)
      ∧ (∀ p ∈ l, t p.1 p.2 = .destroyed → (l.foldl (mutexUnlock tid) t) p.1 p.2 = .destroyed)
      ∧ (∀ p, p ∉ l → (l.foldl (mutexUnlock tid) t) p.1 p.2 = t p.1 p.2) := by
  induction l with
  | nil =>
    intro t _
    exact ⟨fun p hp => absurd hp (List.not_mem_nil p),
      fun p hp => absurd hp (List.not_mem_nil p), fun _ _ => rfl⟩
  | cons q qs ih =>
    intro t hheld
    obtain ⟨hq, hqs⟩ := List.nodup_cons.1 hnd
    have hother : ∀ (m : Mutex) (p : Nat × Nat), p ∈ qs → setMutex t q m p.1 p.2 = t p.1 p.2 :=
      fun m p hp => setMutex_other t q p m (fun h => hq (h ▸ hp))
    simp only [List.foldl_cons]
    rcases hheld q (List.mem_cons_self _ _) with hl | hd
    · have hstep : mutexUnlock tid t q = setMutex t q .unlocked := by
        simp only [mutexUnlock, hl, if_true]
      rw [hstep]
      obtain ⟨hin, hdes, hout⟩ := ih hqs (setMutex t q .unlocked)
        (fun p hp => by rw [hother _ p hp]; exact hheld p (List.mem_cons_of_mem _ hp))
      refine ⟨?_, ?_, ?_⟩
      · intro p hp hpl
        rcases List.mem_cons.1 hp with rfl | hp2
        · rw [hout p hq, setMutex_same]
        · exact hin p hp2 (by rw [hother _ p hp2]; exact hpl)
      · intro p hp hpd
        rcases List.mem_cons.1 hp with rfl | hp2
        · rw [hl] at hpd; cases hpd
        · exact hdes p hp2 (by rw [hother _ p hp2]; exact hpd)
      · intro p hp
        rw [hout p (fun h => hp (List.mem_cons_of_mem _ h))]
        exact setMutex_other t q p _ (fun h => hp (h ▸ List.mem_cons_self _ _))
    · have hstep : mutexUnlock tid t q = t := by
        simp only [mutexUnlock, hd]
      rw [hstep]
      obtain ⟨hin, hdes, hout⟩ := ih hqs t (fun p hp => hheld p (List.mem_cons_of_mem _ hp))
      refine ⟨?_, ?_, ?_⟩
      · intro p hp hpl
        rcases List.mem_cons.1 hp with rfl | hp2
        · rw [hd] at hpl; cases hpl
        · exact hin p hp2 hpl
      · intro p hp hpd
        rcases List.mem_cons.1 hp with rfl | hp2
        · rw [hout p hq]; exact hd
        · exact hdes p hp2 hpd
      · intro p hp
        exact hout p (fun h => hp (List.mem_cons_of_mem _ h))

/-- C27: for every grid size and every cell (row, col), `freeLocks(row, col)` calls
`pthread_mutex_unlock` on exactly the locks that `getLocks(row, col)` requests, each
once; and when none of these locks is held (each is unlocked, or destroyed),
`getLocks(row, col)` returns, with every requested lock that was unlocked held by the
worker, and `freeLocks(row, col)` then restores the lock table: every lock is in the
state it was in before, so that the worker holds afterwards exactly the locks it held
before (none, if it held none). -/
theorem freeLocks_releases_getLocks (tid num_rows num_cols row col : Nat) (t : LockTable)
    (hfree : ∀ p ∈ getLocks num_rows num_cols row col,
      t p.1 p.2 = .unlocked ∨ t p.1 p.2 = .destroyed) :
    freeLocks num_rows num_cols row col = getLocks num_rows num_cols row col
    ∧ (freeLocks num_rows num_cols row col).Nodup
    ∧ ∃ t1, getLocksRun tid num_rows num_cols row col t = some t1
        ∧ (∀ p ∈ getLocks num_rows num_cols row col, t p.1 p.2 = .unlocked →
            holdsLock tid t1 p)
        ∧ (∀ a b, freeLocksRun tid num_rows num_cols row col t1 a b = t a b)
        ∧ (∀ k p, holdsLock k (freeLocksRun tid num_rows num_cols row col t1) p
            ↔ holdsLock k t p)
        ∧ ((∀ p, ¬ holdsLock tid t p) →
            ∀ p, ¬ holdsLock tid (freeLocksRun tid num_rows num_cols row col t1) p) := by
  have hsame : freeLocks num_rows num_cols row col = getLocks num_rows num_cols row col := rfl
  have hnd := getLocks_nodup num_rows num_cols row col
  obtain ⟨t1, hrun, hin, hdes, hout⟩ := lockAll_free tid _ hnd t hfree
  have hheld : ∀ p ∈ getLocks num_rows num_cols row col,
      t1 p.1 p.2 = .lockedBy tid ∨ t1 p.1 p.2 = .destroyed := by
    intro p hp
    rcases hfree p hp with h | h
    · exact Or.inl (hin p hp h)
    · exact Or.inr (hdes p hp h)
  obtain ⟨uin, udes, uout⟩ := unlockAll_held tid _ hnd t1 hheld
  have hrestore : ∀ a b, freeLocksRun tid num_rows num_cols row col t1 a b = t a b := by
    intro a b
    unfold freeLocksRun
    rw [hsame]
    by_cases hp : (a, b) ∈ getLocks num_rows num_cols row col
    · rcases hfree (a, b) hp with h | h
      · rw [uin (a, b) hp (hin (a, b) hp h)]; exact h.symm
      · rw [udes (a, b) hp (hdes (a, b) hp h)]; exact h.symm
    · rw [uout (a, b) hp, hout (a, b) hp]
  refine ⟨hsame, by rw [hsame]; exact hnd, t1, hrun, hin, hrestore, ?_, ?_⟩
  · intro k p
    unfold holdsLock
    rw [hrestore]
  · intro hnone p
    unfold holdsLock
    rw [hrestore]
    exact hnone p

theorem freeLocks_releases_getLocks_witness :
    freeLocks 6 7 2 3 = getLocks 6 7 2 3
    ∧ (freeLocks 6 7 2 3).Nodup
    ∧ ∃ t1, getLocksRun 0 6 7 2 3 (fun _ _ => .unlocked) = some t1
        ∧ (∀ p ∈ getLocks 6 7 2 3, (fun _ _ => Mutex.unlocked : LockTable) p.1 p.2 = .unlocked →
            holdsLock 0 t1 p)
        ∧ (∀ a b, freeLocksRun 0 6 7 2 3 t1 a b = (fun _ _ => Mutex.unlocked : LockTable) a b)
        ∧ (∀ k p, holdsLock k (freeLocksRun 0 6 7 2 3 t1) p
            ↔ holdsLock k (fun _ _ => .unlocked) p)
        ∧ ((∀ p, ¬ holdsLock 0 (fun _ _ => .unlocked) p) →
            ∀ p, ¬ holdsLock 0 (freeLocksRun 0 6 7 2 3 t1) p) :=
  freeLocks_releases_getLocks 0 6 7 2 3 (fun _ _ => .unlocked) (fun _ _ => Or.inl rfl)

/-! ## Locality of `cellNewState` (C29) -/

theorem applyRule_congr (rule c1 c2 : Nat) (count : Int) (h : c1 = 0 ↔ c2 = 0) :
    applyRule rule c1 count = applyRule rule c2 count := by
  unfold applyRule
  by_cases h1 : c1 = 0
  · have h2 : c2 = 0 := h.1 h1
    simp only [h1, h2]
  · have h2 : c2 ≠ 0 := fun hc => h1 (h.2 hc)
    simp only [ne_eq, h1, h2, not_false_eq_true, if_true]

theorem applyRule_sentinel_any (rule c1 c2 : Nat) :
    applyRule rule c1 (-1) = applyRule rule c2 (-1) := by
  unfold applyRule
  by_cases h1 : c1 = 0 <;> by_cases h2 : c2 = 0 <;> simp [h1, h2]

theorem liveNeighbours_congr (g1 g2 : Grid) (i j : Nat)
    (h : ∀ d ∈ neighbourOffsets,
      (g1 ((i : Int) + d.1).toNat ((j : Int) + d.2).toNat = 0
        ↔ g2 ((i : Int) + d.1).toNat ((j : Int) + d.2).toNat = 0)) :
    liveNeighbours g1 i j = liveNeighbours g2 i j := by
  unfold liveNeighbours
  congr 1
  apply List.filter_congr
  intro d hd
  have := h d hd
  by_cases h1 : g1 ((i : Int) + d.1).toNat ((j : Int) + d.2).toNat = 0
  · simp [h1, this.1 h1]
  · have h2 : g2 ((i : Int) + d.1).toNat ((j : Int) + d.2).toNat ≠ 0 := fun hc => h1 (this.2 hc)
    simp [h1, h2]

theorem cellNewState_dead_border (num_rows num_cols rule : Nat) (i j : Nat)
    (h : ¬ awayFromBorder num_rows num_cols i j) (g3 g4 : Grid) :
    cellNewState .FRAME_DEAD num_rows num_cols rule g3 i j
      = cellNewState .FRAME_DEAD num_rows num_cols rule g4 i j := by
  simp only [cellNewState, neighbourCount, h, if_false]
  exact applyRule_sentinel_any rule _ _

theorem cellNewState_dead_agree (num_rows num_cols rule : Nat) (g1 g2 : Grid) (i j : Nat)
    (hcell : g1 i j = 0 ↔ g2 i j = 0)
    (hnb : ∀ d ∈ neighbourOffsets,
      (g1 ((i : Int) + d.1).toNat ((j : Int) + d.2).toNat = 0
        ↔ g2 ((i : Int) + d.1).toNat ((j : Int) + d.2).toNat = 0)) :
    cellNewState .FRAME_DEAD num_rows num_cols rule g1 i j
      = cellNewState .FRAME_DEAD num_rows num_cols rule g2 i j := by
  by_cases h : awayFromBorder num_rows num_cols i j
  · simp only [cellNewState, neighbourCount_interior_eq _ num_rows num_cols _ i j h,
      liveNeighbours_congr g1 g2 i j hnb]
    exact applyRule_congr rule _ _ _ hcell
  · exact cellNewState_dead_border num_rows num_cols rule i j h g1 g2

/-- C29: under the Dead policy, for every rule id and any two grids that agree, as
zero / non-zero, on the cell (i, j) and on its eight neighbours, `cellNewState(i, j)`
gives the same result on both grids; and for a cell that fails the guard "away from
the border" (for grids of a size below `2^32`: a cell on the border) the result is the
same on any two grids. -/
theorem cellNewState_local (num_rows num_cols rule : Nat) (g1 g2 : Grid) (i j : Nat)
    (hcell : g1 i j = 0 ↔ g2 i j = 0)
    (hnb : ∀ d ∈ neighbourOffsets,
      (g1 ((i : Int) + d.1).toNat ((j : Int) + d.2).toNat = 0
        ↔ g2 ((i : Int) + d.1).toNat ((j : Int) + d.2).toNat = 0)) :
    cellNewState .FRAME_DEAD num_rows num_cols rule g1 i j
      = cellNewState .FRAME_DEAD num_rows num_cols rule g2 i j
    ∧ (¬ awayFromBorder num_rows num_cols i j → ∀ g3 g4 : Grid,
        cellNewState .FRAME_DEAD num_rows num_cols rule g3 i j
          = cellNewState .FRAME_DEAD num_rows num_cols rule g4 i j)
    ∧ (num_rows < UINT_RANGE → num_cols < UINT_RANGE → onBorder num_rows num_cols i j →
        ∀ g3 g4 : Grid,
        cellNewState .FRAME_DEAD num_rows num_cols rule g3 i j
          = cellNewState .FRAME_DEAD num_rows num_cols rule g4 i j) := by
  refine ⟨cellNewState_dead_agree num_rows num_cols rule g1 g2 i j hcell hnb,
    fun h g3 g4 => cellNewState_dead_border num_rows num_cols rule i j h g3 g4, ?_⟩
  intro hr hc hb
  exact cellNewState_dead_border num_rows num_cols rule i j
    (not_awayFromBorder_of_onBorder num_rows num_cols i j hr hc hb)

theorem cellNewState_local_witness :
    cellNewState .FRAME_DEAD 6 6 AMOEBA_RULE sevenNeighbours 2 2
      = cellNewState .FRAME_DEAD 6 6 AMOEBA_RULE (fun a b => 3 * sevenNeighbours a b) 2 2 :=
  (cellNewState_local 6 6 AMOEBA_RULE sevenNeighbours (fun a b => 3 * sevenNeighbours a b) 2 2
    (by decide) (by decide)).1

/-! ## The cells touched by an update of the lock version (C26) -/

theorem interiorReads_eq (num_rows num_cols i j : Nat)
    (h : awayFromBorder num_rows num_cols i j) :
    interiorReads i j
      = [(i - 1, j - 1), (i - 1, j), (i - 1, j + 1), (i, j - 1), (i, j + 1),
         (i + 1, j - 1), (i + 1, j), (i + 1, j + 1)] := by
  have r1 : usub i 1 = i - 1 := by unfold awayFromBorder usub UINT_RANGE at *; omega
  have r3 : uadd i 1 = i + 1 := by unfold awayFromBorder usub uadd UINT_RANGE at *; omega
  have c1 : usub j 1 = j - 1 := by unfold awayFromBorder usub UINT_RANGE at *; omega
  have c3 : uadd j 1 = j + 1 := by unfold awayFromBorder usub uadd UINT_RANGE at *; omega
  simp only [interiorReads, r1, r3, c1, c3]

theorem self_mem_getLocks (num_rows num_cols i j : Nat) :
    (i, j) ∈ getLocks num_rows num_cols i j := by
  by_cases h : awayFromBorder num_rows num_cols i j
  · rw [mem_getLocks_interior num_rows num_cols i j h]
    simp only
    omega
  · rw [getLocks_border num_rows num_cols i j h]
    exact List.mem_singleton.2 rfl

theorem cellNewStateReads_dead_locked (num_rows num_cols rule : Nat) (i j : Nat)
    (p : Nat × Nat)
    (hp : p ∈ cellNewStateReads .FRAME_DEAD num_rows num_cols rule i j) :
    p ∈ getLocks num_rows num_cols i j := by
  unfold cellNewStateReads at hp
  rcases List.mem_append.1 hp with h1 | h1
  · by_cases h : awayFromBorder num_rows num_cols i j
    · simp only [h, if_true] at h1
      rw [interiorReads_eq num_rows num_cols i j h] at h1
      rw [mem_getLocks_interior num_rows num_cols i j h]
      have hi : 0 < i := h.1
      have hj : 0 < j := h.2.2.1
      obtain ⟨a, b⟩ := p
      simp only [List.mem_cons, Prod.mk.injEq, List.mem_singleton, List.not_mem_nil,
        or_false] at h1
      simp only
      omega
    · simp only [h, if_false] at h1
      cases h1
  · by_cases hv : validRule rule
    · simp only [hv, if_true, List.mem_singleton] at h1
      rw [h1]
      exact self_mem_getLocks num_rows num_cols i j
    · simp only [hv, if_false] at h1
      cases h1

theorem neighbour_mem_getLocks (num_rows num_cols i j : Nat)
    (h : awayFromBorder num_rows num_cols i j) (d : Int × Int) (hd : d ∈ neighbourOffsets) :
    (((i : Int) + d.1).toNat, ((j : Int) + d.2).toNat) ∈ getLocks num_rows num_cols i j := by
  rw [mem_getLocks_interior num_rows num_cols i j h]
  have hi : 0 < i := h.1
  have hj : 0 < j := h.2.2.1
  rw [neighbourOffsets_eq] at hd
  simp only [List.mem_cons, List.mem_singleton, List.not_mem_nil, or_false] at hd
  rcases hd with rfl | rfl | rfl | rfl | rfl | rfl | rfl | rfl <;> simp only <;> omega

theorem updateCellV3_value (fb : FrameBehavior) (num_rows num_cols rule colorMode : Nat)
    (grid : Grid) (i j n : Nat)
    (h : cellNewState fb num_rows num_cols rule grid i j = .ok n) :
    ∃ g1, updateCellV3 fb num_rows num_cols rule colorMode grid i j = .ok g1
      ∧ g1 i j = storedState colorMode n (grid i j)
      ∧ (∀ a b, ¬ (a = i ∧ b = j) → g1 a b = grid a b)
      ∧ (updateWritesV3 fb num_rows num_cols rule colorMode grid i j = [] → g1 = grid) := by
  simp only [updateCellV3, updateWritesV3, storedState, h]
  by_cases h1 : colorMode = 0 ∨ n = 0
  · simp only [h1, if_true]
    refine ⟨_, rfl, by simp only [setCell, and_self, if_true],
      fun a b hab => by simp only [setCell, hab, if_false], fun hw => by cases hw⟩
  · simp only [h1, if_false]
    by_cases h2 : grid i j < NB_COLORS - 1
    · simp only [h2, if_true]
      refine ⟨_, rfl, by simp only [setCell, and_self, if_true],
        fun a b hab => by simp only [setCell, hab, if_false], fun hw => by cases hw⟩
    · simp only [h2, if_false]
      exact ⟨_, rfl, rfl, fun _ _ _ => rfl, fun _ => rfl⟩

/-- C26: in the lock version with the Dead border policy, for every cell (i, j) and
rule id in {1,2,3,4}, every cell of the grid that one update of (i, j) reads (in
`cellNewState` and in the ageing step) belongs to the locks that `getLocks(i, j)`
requests; the only cell written is (i, j), which is among them; the update returns and
leaves every other cell of the grid unchanged; and the state it stores depends on the
grid only through the cells whose locks are requested. -/
theorem update_touches_locked_cells (num_rows num_cols rule colorMode : Nat) (grid : Grid)
    (i j : Nat) (hrule : validRule rule) :
    (∀ p ∈ updateReadsV3 .FRAME_DEAD num_rows num_cols rule colorMode grid i j,
        p ∈ getLocks num_rows num_cols i j)
    ∧ (∀ p ∈ updateWritesV3 .FRAME_DEAD num_rows num_cols rule colorMode grid i j, p = (i, j))
    ∧ (i, j) ∈ getLocks num_rows num_cols i j
    ∧ (∃ g1, updateCellV3 .FRAME_DEAD num_rows num_cols rule colorMode grid i j = .ok g1
        ∧ (∀ a b, ¬ (a = i ∧ b = j) → g1 a b = grid a b)
        ∧ (updateWritesV3 .FRAME_DEAD num_rows num_cols rule colorMode grid i j = [] →
            g1 = grid))
    ∧ (∀ grid2 : Grid, (∀ p ∈ getLocks num_rows num_cols i j, grid2 p.1 p.2 = grid p.1 p.2) →
        ∃ g1 g2, updateCellV3 .FRAME_DEAD num_rows num_cols rule colorMode grid i j = .ok g1
          ∧ updateCellV3 .FRAME_DEAD num_rows num_cols rule colorMode grid2 i j = .ok g2
          ∧ g2 i j = g1 i j) := by
  have hself := self_mem_getLocks num_rows num_cols i j
  obtain ⟨hok, _⟩ := cellNewState_ok .FRAME_DEAD num_rows num_cols rule grid i j hrule
  obtain ⟨g1, hupd, hval, hframe, hnow⟩ :=
    updateCellV3_value .FRAME_DEAD num_rows num_cols rule colorMode grid i j _ hok
  refine ⟨?_, ?_, hself, ⟨g1, hupd, hframe, hnow⟩, ?_⟩
  · intro p hp
    unfold updateReadsV3 at hp
    rcases List.mem_append.1 hp with h1 | h1
    · exact cellNewStateReads_dead_locked num_rows num_cols rule i j p h1
    · simp only [hok] at h1
      split_ifs at h1 <;>
        simp only [List.mem_cons, List.mem_singleton, List.not_mem_nil, or_false,
          or_self] at h1
      all_goals (rw [h1]; exact hself)
  · intro p hp
    unfold updateWritesV3 at hp
    simp only [hok] at hp
    split_ifs at hp
    · exact List.mem_singleton.1 hp
    · exact List.mem_singleton.1 hp
    · cases hp
  · intro grid2 hagree
    have hcell : grid2 i j = grid i j := hagree (i, j) hself
    have hsame : cellNewState .FRAME_DEAD num_rows num_cols rule grid2 i j
        = cellNewState .FRAME_DEAD num_rows num_cols rule grid i j := by
      by_cases h : awayFromBorder num_rows num_cols i j
      · apply cellNewState_dead_agree
        · rw [hcell]
        · intro d hd
          rw [hagree _ (neighbour_mem_getLocks num_rows num_cols i j h d hd)]
      · exact cellNewState_dead_border num_rows num_cols rule i j h grid2 grid
    obtain ⟨g2, hupd2, hval2, _, _⟩ :=
      updateCellV3_value .FRAME_DEAD num_rows num_cols rule colorMode grid2 i j _
        (hsame.trans hok)
    exact ⟨g1, g2, hupd, hupd2, by rw [hval2, hval, hcell]⟩

theorem update_touches_locked_cells_witness :
    (∀ p ∈ updateReadsV3 .FRAME_DEAD 6 7 GAME_OF_LIFE_RULE 1 youngVertical 2 2,
        p ∈ getLocks 6 7 2 2)
    ∧ (∀ p ∈ updateWritesV3 .FRAME_DEAD 6 7 GAME_OF_LIFE_RULE 1 youngVertical 2 2, p = (2, 2))
    ∧ (2, 2) ∈ getLocks 6 7 2 2 :=
  have h := update_touches_locked_cells 6 7 GAME_OF_LIFE_RULE 1 youngVertical 2 2 (by decide)
  ⟨h.1, h.2.1, h.2.2.1⟩


/-! ## The indices used by `cellNewState` (C28) -/

theorem interiorReads_in_range (num_rows num_cols i j : Nat)
    (hr : 0 < num_rows ∧ num_rows < UINT_RANGE) (hc : 0 < num_cols ∧ num_cols < UINT_RANGE)
    (h : awayFromBorder num_rows num_cols i j) (p : Nat × Nat) (hp : p ∈ interiorReads i j) :
    p.1 < num_rows ∧ p.2 < num_cols := by
  rw [interiorReads_eq num_rows num_cols i j h] at hp
  have hb := (awayFromBorder_iff num_rows num_cols i j hr hc).1 h
  obtain ⟨a, b⟩ := p
  simp only [List.mem_cons, Prod.mk.injEq, List.mem_singleton, List.not_mem_nil,
    or_false] at hp
  simp only
  clear hr hc h
  omega

theorem switchRead_in_range (num_rows num_cols rule i j : Nat)
    (hi : i < num_rows) (hj : j < num_cols) (p : Nat × Nat)
    (hp : p ∈ (if validRule rule then [(i, j)] else [])) :
    p.1 < num_rows ∧ p.2 < num_cols := by
  by_cases hv : validRule rule
  · simp only [hv, if_true, List.mem_singleton] at hp
    rw [hp]
    exact ⟨hi, hj⟩
  · simp only [hv, if_false] at hp
    cases hp

theorem clippedTrace_snd (num_rows num_cols : Nat) (g : Grid) (i j : Nat) :
    (clippedTrace num_rows num_cols g i j).2 = clippedReads num_rows num_cols i j := by
  by_cases h1 : 0 < i <;> by_cases h2 : 0 < j <;> by_cases h3 : j < usub num_cols 1 <;>
    by_cases h4 : i < usub num_rows 1 <;>
    simp [clippedTrace, clippedRow, clippedStmt, clippedReads, h1, h2, h3, h4]

theorem cellNewStateReads_dead_in_range (num_rows num_cols rule : Nat) (i j : Nat)
    (hr : 0 < num_rows ∧ num_rows < UINT_RANGE) (hc : 0 < num_cols ∧ num_cols < UINT_RANGE)
    (hi : i < num_rows) (hj : j < num_cols) (p : Nat × Nat)
    (hp : p ∈ cellNewStateReads .FRAME_DEAD num_rows num_cols rule i j) :
    p.1 < num_rows ∧ p.2 < num_cols := by
  unfold cellNewStateReads at hp
  rcases List.mem_append.1 hp with h1 | h1
  · by_cases h : awayFromBorder num_rows num_cols i j
    · rw [if_pos h] at h1
      exact interiorReads_in_range num_rows num_cols i j hr hc h p h1
    · rw [if_neg h] at h1
      cases h1
  · exact switchRead_in_range num_rows num_cols rule i j hi hj p h1

theorem cellNewStateReads_clipped_in_range (num_rows num_cols rule : Nat) (i j : Nat)
    (hr : 0 < num_rows ∧ num_rows < UINT_RANGE) (hc : 0 < num_cols ∧ num_cols < UINT_RANGE)
    (hi : i < num_rows) (hj : j < num_cols) (p : Nat × Nat)
    (hp : p ∈ cellNewStateReads .FRAME_CLIPPED num_rows num_cols rule i j) :
    p.1 < num_rows ∧ p.2 < num_cols := by
  unfold cellNewStateReads at hp
  rcases List.mem_append.1 hp with h1 | h1
  · by_cases h : awayFromBorder num_rows num_cols i j
    · rw [if_pos h] at h1
      exact interiorReads_in_range num_rows num_cols i j hr hc h p h1
    · rw [if_neg h] at h1
      have h2 : p ∈ clippedReads num_rows num_cols i j := h1
      rw [← clippedTrace_snd num_rows num_cols (fun _ _ => 0) i j] at h2
      exact (clippedTrace_reads num_rows num_cols _ i j hr.2 hc.2 hi hj p h2).1
  · exact switchRead_in_range num_rows num_cols rule i j hi hj p h1

theorem cellNewStateMinuends_pos (fb : FrameBehavior) (num_rows num_cols i j : Nat)
    (hfb : fb = .FRAME_DEAD ∨ fb = .FRAME_CLIPPED)
    (hr : 0 < num_rows) (hc : 0 < num_cols) (x : Nat)
    (hx : x ∈ cellNewStateMinuends fb num_rows num_cols i j) : 0 < x := by
  unfold cellNewStateMinuends at hx
  rcases List.mem_append.1 hx with h1 | h1
  · unfold guardMinuends at h1
    split_ifs at h1 <;>
      simp only [List.mem_cons, List.mem_singleton, List.not_mem_nil, or_false] at h1 <;> omega
  · by_cases h : awayFromBorder num_rows num_cols i j
    · simp only [h, if_true, interiorMinuends, List.mem_cons, List.mem_singleton,
        List.not_mem_nil, or_false] at h1
      have hi : 0 < i := h.1
      have hj : 0 < j := h.2.2.1
      omega
    · simp only [h, if_false] at h1
      rcases hfb with rfl | rfl
      · cases h1
      · simp only [clippedMinuends] at h1
        split_ifs at h1 <;>
          simp only [List.mem_append, List.mem_cons, List.mem_singleton, List.not_mem_nil,
            or_false, false_or, List.append_nil, List.nil_append] at h1 <;> omega

theorem mainCheckArgs_ok (a1 a2 a3 : Int) (c r t : Nat)
    (h : mainCheckArgs a1 a2 a3 = .ok (c, r, t)) :
    5 < c ∧ 5 < r ∧ 0 < t ∧ t ≤ r ∧ c < UINT_RANGE ∧ r < UINT_RANGE := by
  unfold mainCheckArgs at h
  simp only at h
  split_ifs at h with hbad
  simp only [Except.ok.injEq, Prod.mk.injEq] at h
  obtain ⟨h1, h2, h3⟩ := h
  subst h1 h2 h3
  have b1 : toUnsigned a1 < 4294967296 := by unfold toUnsigned UINT_RANGE; omega
  have b2 : toUnsigned a2 < 4294967296 := by unfold toUnsigned UINT_RANGE; omega
  unfold UINT_RANGE
  omega

/-- C28: for `num_rows > 5`, `num_cols > 5` and every cell (i, j) of the grid, every cell
that `cellNewState(i, j)` reads under the Dead policy, and under the Clipped policy,
has its row index in `[0, num_rows)` and its column index in `[0, num_cols)`; every
subtraction `x - 1` that it evaluates (on `i`, `j`, `num_rows` or `num_cols`) has
`x > 0`; and the arguments that pass the validation of `main` have `num_threads > 0`, so
that `num_rows / num_threads` does not divide by zero (and is at least 1). -/
theorem cellNewState_indices_in_range (num_rows num_cols i j : Nat)
    (hr : 5 < num_rows ∧ num_rows < UINT_RANGE) (hc : 5 < num_cols ∧ num_cols < UINT_RANGE)
    (hi : i < num_rows) (hj : j < num_cols) :
    (∀ rule : Nat, ∀ p ∈ cellNewStateReads .FRAME_DEAD num_rows num_cols rule i j,
        p.1 < num_rows ∧ p.2 < num_cols)
    ∧ (∀ rule : Nat, ∀ p ∈ cellNewStateReads .FRAME_CLIPPED num_rows num_cols rule i j,
        p.1 < num_rows ∧ p.2 < num_cols)
    ∧ (∀ x ∈ cellNewStateMinuends .FRAME_DEAD num_rows num_cols i j, 0 < x)
    ∧ (∀ x ∈ cellNewStateMinuends .FRAME_CLIPPED num_rows num_cols i j, 0 < x)
    ∧ (∀ (a1 a2 a3 : Int) (c r t : Nat), mainCheckArgs a1 a2 a3 = .ok (c, r, t) →
        0 < t ∧ 0 < r / t) := by
  refine ⟨?_, ?_, ?_, ?_, ?_⟩
  · intro rule p hp
    exact cellNewStateReads_dead_in_range num_rows num_cols rule i j
      ⟨by omega, hr.2⟩ ⟨by omega, hc.2⟩ hi hj p hp
  · intro rule p hp
    exact cellNewStateReads_clipped_in_range num_rows num_cols rule i j
      ⟨by omega, hr.2⟩ ⟨by omega, hc.2⟩ hi hj p hp
  · intro x hx
    exact cellNewStateMinuends_pos .FRAME_DEAD num_rows num_cols i j (Or.inl rfl)
      (by omega) (by omega) x hx
  · intro x hx
    exact cellNewStateMinuends_pos .FRAME_CLIPPED num_rows num_cols i j (Or.inr rfl)
      (by omega) (by omega) x hx
  · intro a1 a2 a3 c r t h
    obtain ⟨_, _, h3, h4, _, _⟩ := mainCheckArgs_ok a1 a2 a3 c r t h
    exact ⟨h3, Nat.div_pos h4 h3⟩

theorem cellNewState_indices_in_range_witness :
    (∀ rule : Nat, ∀ p ∈ cellNewStateReads .FRAME_DEAD 6 7 rule 0 6, p.1 < 6 ∧ p.2 < 7)
    ∧ (∀ rule : Nat, ∀ p ∈ cellNewStateReads .FRAME_CLIPPED 6 7 rule 0 6, p.1 < 6 ∧ p.2 < 7)
    ∧ (∀ x ∈ cellNewStateMinuends .FRAME_DEAD 6 7 0 6, 0 < x)
    ∧ (∀ x ∈ cellNewStateMinuends .FRAME_CLIPPED 6 7 0 6, 0 < x) :=
  have h := cellNewState_indices_in_range 6 7 0 6 (by decide) (by decide) (by decide)
    (by decide)
  ⟨h.1, h.2.1, h.2.2.1, h.2.2.2.1⟩

/-! ## `getLocks` after the teardown of the locks (C14) -/

theorem lockAll_destroyed (tid : Nat) (l : List (Nat × Nat)) (t : LockTable)
    (h : ∀ p ∈ l, t p.1 p.2 = .destroyed) : lockAll tid l t = some t := by
  induction l with
  | nil => rfl
  | cons q qs ih =>
    have hq : mutexLock tid t q = some t := by
      simp only [mutexLock, h q (List.mem_cons_self _ _)]
    simp only [lockAll, hq]
    exact ih (fun p hp => h p (List.mem_cons_of_mem _ hp))

set_option maxRecDepth 100000 in
/-- C14 (evaluation at the failing input): on a 6 x 6 grid with two workers, when `main`
has reached `glutMainLoop()` the nine locks that `getLocks(2,2)` requests are destroyed,
and the call of `getLocks(2,2)` by worker 0 returns with the lock table as it was: the
worker holds none of the nine locks. -/
theorem getLocks_acquires_nothing_after_teardown :
    ∃ s t1,
      lockRun .FRAME_DEAD 6 6 GAME_OF_LIFE_RULE 0 (List.replicate 74 Sched.main)
          (lockSystemInit 6 6 2 youngVertical) = some s
      ∧ s.main = [MainAction.mainLoop]
      ∧ s.worker 0 = .drawing
      ∧ (getLocks 6 6 2 2).length = 9
      ∧ (∀ p ∈ getLocks 6 6 2 2, s.locks p.1 p.2 = .destroyed)
      ∧ getLocksRun 0 6 6 2 2 s.locks = some t1
      ∧ (∀ p ∈ getLocks 6 6 2 2, ¬ holdsLock 0 t1 p) := by
  refine ⟨_, _, rfl, ?_, ?_, ?_, ?_, rfl, ?_⟩
  · decide
  · decide
  · decide
  · decide
  · unfold holdsLock
    decide

end CellularAutomaton
